import Mathlib

/-!
# Row encoding and checkpoint block packing

A shallow embedding of `src/common/types/row_chunk.cpp` (sortable key encoding, row-mode
serialization, the append-only block allocator), of
`src/storage/table/column_checkpoint_state.cpp` (`FlushSegment` and the partial block
record), of `extension/json/json_deserializer.cpp` (the readers of the JSON deserializer) and
of `src/planner/binder/expression/bind_columnref_expression.cpp` (the binding of a column
reference), with the properties proved about them.

Conventions of the embedding:
* machine integers are `Nat` or `Int`, reduced modulo `2 ^ w` where the C++ type wraps;
* a float or double is handled through its IEEE-754 bit pattern;
* memory is a map from addresses to bytes; arrays indexed by row are maps from `Nat`;
* a function that can raise returns an `Except`, together with the state it leaves where the
  state matters; a loop that need not terminate takes fuel and returns an `Option`.
-/

set_option linter.unusedVariables false
set_option linter.unusedTactic false
set_option linter.unreachableTactic false

/-! ## Definitions -/

namespace RowChunk

/-- Conversion of a C++ integer value to the unsigned integer type of `w` bits (reduction modulo 2^w). -/
def toUnsigned (w : Nat) (v : Int) : Nat := (v % 2 ^ w).toNat

/-- Macro BSWAP16 of row_chunk.cpp: the argument is first cast to uint16_t. -/
def BSWAP16 (x : Int) : Nat :=
  let u := toUnsigned 16 x
  (((u &&& 0xff00) >>> 8) ||| ((u &&& 0x00ff) <<< 8)) % 2 ^ 16

/-- Macro BSWAP32 of row_chunk.cpp: the argument is first cast to uint32_t. -/
def BSWAP32 (x : Int) : Nat :=
  let u := toUnsigned 32 x
  (((u &&& 0xff000000) >>> 24) ||| ((u &&& 0x00ff0000) >>> 8) |||
    ((u &&& 0x0000ff00) <<< 8) % 2 ^ 32 ||| ((u &&& 0x000000ff) <<< 24) % 2 ^ 32) % 2 ^ 32

/-- Macro BSWAP64 of row_chunk.cpp: the argument is first cast to uint64_t. -/
def BSWAP64 (x : Int) : Nat :=
  let u := toUnsigned 64 x
  (((u &&& 0xff00000000000000) >>> 56) ||| ((u &&& 0x00ff000000000000) >>> 40) |||
    ((u &&& 0x0000ff0000000000) >>> 24) ||| ((u &&& 0x000000ff00000000) >>> 8) |||
    ((u &&& 0x00000000ff000000) <<< 8) % 2 ^ 64 ||| ((u &&& 0x0000000000ff0000) <<< 24) % 2 ^ 64 |||
    ((u &&& 0x000000000000ff00) <<< 40) % 2 ^ 64 ||| ((u &&& 0x00000000000000ff) <<< 56) % 2 ^ 64) % 2 ^ 64

/-- Bytes of the `n`-byte word `v`, least significant byte first. -/
def leBytes : Nat → Nat → List Nat
  | 0, _ => []
  | n + 1, v => (v % 256) :: leBytes n (v / 256)

/-- Bytes of the `n`-byte word `v`, most significant byte first. -/
def beBytes : Nat → Nat → List Nat
  | 0, _ => []
  | n + 1, v => (v / 256 ^ n % 256) :: beBytes n v

/-- Memory image left by a native store of an `n`-byte unsigned word
(`reinterpret_cast<uintN_t *>(data)[0] = v`) on a host of the given byte order. -/
def storeNative (little_endian : Bool) (n : Nat) (v : Nat) : List Nat :=
  if little_endian then leBytes n v else beBytes n v

def FlipSign (key_byte : Nat) : Nat := (key_byte ^^^ 128) % 256

/-- The statement `data[0] = FlipSign(data[0])`. -/
def flipFirst : List Nat → List Nat
  | [] => []
  | b :: rest => FlipSign b :: rest

def EncodeData_bool (value : Bool) : List Nat := [if value then 1 else 0]

def EncodeData_int8 (value : Int) : List Nat :=
  flipFirst [toUnsigned 8 value]

def EncodeData_int16 (is_little_endian : Bool) (value : Int) : List Nat :=
  flipFirst (storeNative is_little_endian 2
    (if is_little_endian then BSWAP16 value else toUnsigned 16 value))

def EncodeData_int32 (is_little_endian : Bool) (value : Int) : List Nat :=
  flipFirst (storeNative is_little_endian 4
    (if is_little_endian then BSWAP32 value else toUnsigned 32 value))

def EncodeData_int64 (is_little_endian : Bool) (value : Int) : List Nat :=
  flipFirst (storeNative is_little_endian 8
    (if is_little_endian then BSWAP64 value else toUnsigned 64 value))

def EncodeData_uint8 (value : Nat) : List Nat := [toUnsigned 8 value]

def EncodeData_uint16 (is_little_endian : Bool) (value : Nat) : List Nat :=
  storeNative is_little_endian 2 (if is_little_endian then BSWAP16 value else toUnsigned 16 value)

def EncodeData_uint32 (is_little_endian : Bool) (value : Nat) : List Nat :=
  storeNative is_little_endian 4 (if is_little_endian then BSWAP32 value else toUnsigned 32 value)

def EncodeData_uint64 (is_little_endian : Bool) (value : Nat) : List Nat :=
  storeNative is_little_endian 8 (if is_little_endian then BSWAP64 value else toUnsigned 64 value)

/-- Sign of `memcmp` on two buffers of the same length: the first differing byte, compared
as unsigned, decides. -/
def memcmp : List Nat → List Nat → Int
  | a :: as, b :: bs => if a < b then -1 else if b < a then 1 else memcmp as bs
  | _, _ => 0

/-- An IEEE-754 binary interchange format, given by the widths of its exponent and
fraction fields; a value of the format is handled through its bit pattern. -/
structure FloatFormat where
  ebits : Nat
  mbits : Nat

def binary32 : FloatFormat := ⟨8, 23⟩

def binary64 : FloatFormat := ⟨11, 52⟩

def FloatFormat.signBit (f : FloatFormat) (x : Nat) : Bool :=
  decide (x / 2 ^ (f.ebits + f.mbits) % 2 = 1)

def FloatFormat.expField (f : FloatFormat) (x : Nat) : Nat := x / 2 ^ f.mbits % 2 ^ f.ebits

def FloatFormat.fracField (f : FloatFormat) (x : Nat) : Nat := x % 2 ^ f.mbits

/-- Magnitude of a finite bit pattern, counted in units of the smallest subnormal. -/
def FloatFormat.magnitude (f : FloatFormat) (x : Nat) : Nat :=
  if f.expField x = 0 then f.fracField x
  else (2 ^ f.mbits + f.fracField x) * 2 ^ (f.expField x - 1)

/-- Numeric value denoted by a bit pattern. -/
inductive FloatValue
  | nan
  | negInf
  | finite (units : Int)
  | posInf
  deriving DecidableEq, Repr

def FloatFormat.decode (f : FloatFormat) (x : Nat) : FloatValue :=
  if f.expField x = 2 ^ f.ebits - 1 then
    if f.fracField x ≠ 0 then .nan
    else if f.signBit x then .negInf else .posInf
  else if f.signBit x then .finite (-(f.magnitude x : Int)) else .finite (f.magnitude x)

def FloatFormat.isNaN (f : FloatFormat) (x : Nat) : Bool :=
  decide (f.expField x = 2 ^ f.ebits - 1) && decide (f.fracField x ≠ 0)

/-- The comparison `a < b` of IEEE-754 (false as soon as an operand is a NaN). -/
def FloatValue.lt : FloatValue → FloatValue → Bool
  | .finite a, .finite b => decide (a < b)
  | .negInf, .finite _ => true
  | .negInf, .posInf => true
  | .finite _, .posInf => true
  | _, _ => false

/-- The comparison `a == b` of IEEE-754 (both zeros are equal, a NaN equals nothing). -/
def FloatValue.eq : FloatValue → FloatValue → Bool
  | .finite a, .finite b => decide (a = b)
  | .negInf, .negInf => true
  | .posInf, .posInf => true
  | _, _ => false

/-- Bit pattern of FLT_MAX. -/
def FLT_MAX : Nat := 0x7f7fffff

/-- Bit pattern of -FLT_MAX. -/
def NEG_FLT_MAX : Nat := 0xff7fffff

/-- Bit pattern of DBL_MAX. -/
def DBL_MAX : Nat := 0x7fefffffffffffff

/-- Bit pattern of -DBL_MAX. -/
def NEG_DBL_MAX : Nat := 0xffefffffffffffff

def UINT_MAX : Nat := 2 ^ 32 - 1

def ULLONG_MAX : Nat := 2 ^ 64 - 1

/-- The function `EncodeFloat`; the argument is the bit pattern of the float `x`. -/
def EncodeFloat (x : Nat) : Nat :=
  if (binary32.decode x).eq (binary32.decode 0) then
    let buff := 0
    let buff := buff ||| (1 <<< 31)
    buff % 2 ^ 32
  else if (binary32.decode FLT_MAX).lt (binary32.decode x) then UINT_MAX
  else if (binary32.decode x).lt (binary32.decode NEG_FLT_MAX) then 0
  else
    let buff := x % 2 ^ 32
    let buff := if buff &&& (1 <<< 31) = 0 then buff ||| (1 <<< 31) else buff ^^^ (2 ^ 64 - 1)
    buff % 2 ^ 32

/-- The function `EncodeDouble`; the argument is the bit pattern of the double `x`. -/
def EncodeDouble (x : Nat) : Nat :=
  if (binary64.decode x).eq (binary64.decode 0) then
    let buff := 0
    let buff := (buff + (1 <<< 63)) % 2 ^ 64
    buff
  else if (binary64.decode DBL_MAX).lt (binary64.decode x) then ULLONG_MAX
  else if (binary64.decode x).lt (binary64.decode NEG_DBL_MAX) then 0
  else
    let buff := x % 2 ^ 64
    let buff := if buff < 1 <<< 63 then (buff + (1 <<< 63)) % 2 ^ 64 else buff ^^^ (2 ^ 64 - 1)
    buff

def EncodeData_float (is_little_endian : Bool) (value : Nat) : List Nat :=
  let converted_value := EncodeFloat value
  storeNative is_little_endian 4
    (if is_little_endian then BSWAP32 converted_value else converted_value)

def EncodeData_double (is_little_endian : Bool) (value : Nat) : List Nat :=
  let converted_value := EncodeDouble value
  storeNative is_little_endian 8
    (if is_little_endian then BSWAP64 converted_value else converted_value)

/-- Exceptions raised by the modelled code. An `InternalException` is also what a failed
`D_ASSERT` raises, in a build that has the assertions. `NullPointerDereference` stands for the
undefined behaviour of reading through a null `validitymask_locations`. -/
inductive Exception
  | NotImplementedException
  | InternalException
  | RangeError
  | NullPointerDereference
  deriving DecidableEq, Repr

/-- Physical types: the fourteen types the row-mode switch statements name, and
further members of the enumeration, which reach the `default` label. -/
inductive PhysicalType
  | BOOL | UINT8 | INT8 | UINT16 | INT16 | UINT32 | INT32 | UINT64 | INT64
  | FLOAT | DOUBLE | INTERVAL | VARCHAR | INT128 | HASH
  | LIST | STRUCT | MAP | POINTER | INVALID
  deriving DecidableEq, Repr

/-- Byte-addressed memory. -/
abbrev Memory := Nat → Nat

/-- The `memcpy` of a byte string to address `p`. -/
def Memory.write (mem : Memory) (p : Nat) (bytes : List Nat) : Memory :=
  fun a => if p ≤ a ∧ a < p + bytes.length then bytes.getD (a - p) 0 else mem a

/-- The `n` bytes found from address `p` on. -/
def Memory.read (mem : Memory) (p n : Nat) : List Nat :=
  (List.range n).map (fun i => mem (p + i))

/-- Object representation, on `size` bytes, of a fixed-width value. -/
def objectBytes (size : Nat) (value : List Nat) : List Nat :=
  (List.range size).map (fun i => value.getD i 0)

/-- The call `Store<T>(value, ptr)` with `sizeof(T) = size`. -/
def Store (size : Nat) (value : List Nat) (ptr : Nat) (mem : Memory) : Memory :=
  mem.write ptr (objectBytes size value)

/-- The call `Load<T>(ptr)` with `sizeof(T) = size`. -/
def Load (size : Nat) (ptr : Nat) (mem : Memory) : List Nat :=
  mem.read ptr size

/-- Value of an `n`-byte unsigned word read natively from memory on a host of the given byte
order. -/
def wordOfBytes (little_endian : Bool) (bytes : List Nat) : Nat :=
  if little_endian then bytes.foldr (fun b acc => b + 256 * acc) 0
  else bytes.foldl (fun acc b => 256 * acc + b) 0

/-- Orrified vector: element `data i` is the object representation of the value (for VARCHAR
the bytes of the string), `sel` is `vdata.sel->get_index`, and `validity` is
`vdata.validity.RowIsValid`. -/
structure VectorData where
  data : Nat → List Nat
  sel : Nat → Nat
  validity : Nat → Bool

/-- Flat result vector: `data` is what `FlatVector::GetData` points to, `validity` its mask. -/
structure Vector where
  data : Nat → List Nat
  validity : Nat → Bool

/-- Assignment to a single element of an array. -/
def setAt {α : Type} (arr : Nat → α) (i : Nat) (x : α) : Nat → α :=
  fun j => if j = i then x else arr j

/-- A counted loop `for (idx_t i = 0; i < n; i++)` over a state. -/
def forLoop {σ : Type} (n : Nat) (body : Nat → σ → σ) (init : σ) : σ :=
  (List.range n).foldl (fun s i => body i s) init

/-- A counted loop whose body may raise. -/
def forLoopM {σ : Type} (n : Nat) (body : Nat → σ → Except Exception σ) (init : σ) :
    Except Exception σ :=
  (List.range n).foldlM (fun s i => body i s) init

/-- The statement `*(validitymask_locations[i] + byte_offset) &= ~(1UL << offset_in_byte)`
on a `data_t`. -/
def clearValidityBit (mem : Memory) (addr offset_in_byte : Nat) : Memory :=
  setAt mem addr ((mem addr &&& ((2 ^ 64 - 1) ^^^ (1 <<< offset_in_byte))) % 256)

/-- Function `TemplatedSerializeVData<T>` with `sizeof(T) = size`; the state is the memory
together with the `key_locations` array. -/
def TemplatedSerializeVData (size : Nat) (vdata : VectorData) (sel : Nat → Nat) (count : Nat)
    (col_idx : Nat) (key_locations : Nat → Nat) (validitymask_locations : Option (Nat → Nat))
    (mem : Memory) : Memory × (Nat → Nat) :=
  let source := vdata.data
  match validitymask_locations with
  | none =>
    forLoop count (fun i (s : Memory × (Nat → Nat)) =>
      let idx := sel i
      let source_idx := vdata.sel idx
      let target := s.2 i
      let mem1 := Store size (source source_idx) target s.1
      (mem1, setAt s.2 i (s.2 i + size))) (mem, key_locations)
  | some validitymask_locations =>
    let byte_offset := col_idx / 8
    let offset_in_byte := col_idx % 8
    forLoop count (fun i (s : Memory × (Nat → Nat)) =>
      let idx := sel i
      let source_idx := vdata.sel idx
      let target := s.2 i
      let mem1 := Store size (source source_idx) target s.1
      let key_locations1 := setAt s.2 i (s.2 i + size)
      if !vdata.validity i then
        (clearValidityBit mem1 (validitymask_locations i + byte_offset) offset_in_byte,
          key_locations1)
      else (mem1, key_locations1)) (mem, key_locations)

/-- Value of `string_t::PREFIX_LENGTH`, the number of bytes of the stored `uint32_t` length;
the constant is declared in a header, outside the source file embedded here. -/
def PREFIX_LENGTH : Nat := 4

/-- Function `RowChunk::SerializeVectorData`. -/
def SerializeVectorData (little_endian : Bool) (vdata : VectorData) (type : PhysicalType)
    (sel : Nat → Nat) (ser_count col_idx : Nat) (key_locations : Nat → Nat)
    (validitymask_locations : Option (Nat → Nat)) (mem : Memory) :
    Except Exception (Memory × (Nat → Nat)) :=
  match type with
  | .BOOL | .INT8 =>
    .ok (TemplatedSerializeVData 1 vdata sel ser_count col_idx key_locations
      validitymask_locations mem)
  | .INT16 =>
    .ok (TemplatedSerializeVData 2 vdata sel ser_count col_idx key_locations
      validitymask_locations mem)
  | .INT32 =>
    .ok (TemplatedSerializeVData 4 vdata sel ser_count col_idx key_locations
      validitymask_locations mem)
  | .INT64 =>
    .ok (TemplatedSerializeVData 8 vdata sel ser_count col_idx key_locations
      validitymask_locations mem)
  | .UINT8 =>
    .ok (TemplatedSerializeVData 1 vdata sel ser_count col_idx key_locations
      validitymask_locations mem)
  | .UINT16 =>
    .ok (TemplatedSerializeVData 2 vdata sel ser_count col_idx key_locations
      validitymask_locations mem)
  | .UINT32 =>
    .ok (TemplatedSerializeVData 4 vdata sel ser_count col_idx key_locations
      validitymask_locations mem)
  | .UINT64 =>
    .ok (TemplatedSerializeVData 8 vdata sel ser_count col_idx key_locations
      validitymask_locations mem)
  | .INT128 =>
    .ok (TemplatedSerializeVData 16 vdata sel ser_count col_idx key_locations
      validitymask_locations mem)
  | .FLOAT =>
    .ok (TemplatedSerializeVData 4 vdata sel ser_count col_idx key_locations
      validitymask_locations mem)
  | .DOUBLE =>
    .ok (TemplatedSerializeVData 8 vdata sel ser_count col_idx key_locations
      validitymask_locations mem)
  | .HASH =>
    .ok (TemplatedSerializeVData 8 vdata sel ser_count col_idx key_locations
      validitymask_locations mem)
  | .INTERVAL =>
    .ok (TemplatedSerializeVData 16 vdata sel ser_count col_idx key_locations
      validitymask_locations mem)
  | .VARCHAR =>
    let strings := vdata.data
    let byte_offset := col_idx / 8
    let offset_in_byte := col_idx % 8
    forLoopM ser_count (fun i (s : Memory × (Nat → Nat)) =>
      let string_entry := strings (vdata.sel i)
      -- store string size
      let mem1 := s.1.write (s.2 i) (storeNative little_endian 4 (string_entry.length % 2 ^ 32))
      let key_locations1 := setAt s.2 i (s.2 i + PREFIX_LENGTH)
      -- store the string
      let mem2 := mem1.write (key_locations1 i) string_entry
      let key_locations2 := setAt key_locations1 i (key_locations1 i + string_entry.length)
      -- set the validitymask
      if !vdata.validity i then
        match validitymask_locations with
        | some validitymask_locations =>
          .ok (clearValidityBit mem2 (validitymask_locations i + byte_offset) offset_in_byte,
            key_locations2)
        | none => .error .NullPointerDereference
      else .ok (mem2, key_locations2)) (mem, key_locations)
  | _ => .error .NotImplementedException

/-- Function `TemplatedDeserializeIntoVector<T>` with `sizeof(T) = size`; the state is the
vector together with the `key_locations` array. -/
def TemplatedDeserializeIntoVector (size : Nat) (v : Vector) (count col_idx : Nat)
    (key_locations : Nat → Nat) (validitymask_locations : Nat → Nat) (mem : Memory) :
    Vector × (Nat → Nat) :=
  let byte_offset := col_idx / 8
  let offset_in_byte := col_idx % 8
  forLoop count (fun i (s : Vector × (Nat → Nat)) =>
    let target := setAt s.1.data i (Load size (s.2 i) mem)
    let key_locations1 := setAt s.2 i (s.2 i + size)
    let validity := setAt s.1.validity i
      (decide (mem (validitymask_locations i + byte_offset) &&& (1 <<< offset_in_byte) ≠ 0))
    (⟨target, validity⟩, key_locations1)) (v, key_locations)

/-- Function `RowChunk::DeserializeIntoVectorData`. -/
def DeserializeIntoVectorData (little_endian : Bool) (v : Vector) (type : PhysicalType)
    (vcount col_idx : Nat) (key_locations : Nat → Nat) (validitymask_locations : Nat → Nat)
    (mem : Memory) : Except Exception (Vector × (Nat → Nat)) :=
  match type with
  | .BOOL | .INT8 =>
    .ok (TemplatedDeserializeIntoVector 1 v vcount col_idx key_locations
      validitymask_locations mem)
  | .INT16 =>
    .ok (TemplatedDeserializeIntoVector 2 v vcount col_idx key_locations
      validitymask_locations mem)
  | .INT32 =>
    .ok (TemplatedDeserializeIntoVector 4 v vcount col_idx key_locations
      validitymask_locations mem)
  | .INT64 =>
    .ok (TemplatedDeserializeIntoVector 8 v vcount col_idx key_locations
      validitymask_locations mem)
  | .UINT8 =>
    .ok (TemplatedDeserializeIntoVector 1 v vcount col_idx key_locations
      validitymask_locations mem)
  | .UINT16 =>
    .ok (TemplatedDeserializeIntoVector 2 v vcount col_idx key_locations
      validitymask_locations mem)
  | .UINT32 =>
    .ok (TemplatedDeserializeIntoVector 4 v vcount col_idx key_locations
      validitymask_locations mem)
  | .UINT64 =>
    .ok (TemplatedDeserializeIntoVector 8 v vcount col_idx key_locations
      validitymask_locations mem)
  | .INT128 =>
    .ok (TemplatedDeserializeIntoVector 16 v vcount col_idx key_locations
      validitymask_locations mem)
  | .FLOAT =>
    .ok (TemplatedDeserializeIntoVector 4 v vcount col_idx key_locations
      validitymask_locations mem)
  | .DOUBLE =>
    .ok (TemplatedDeserializeIntoVector 8 v vcount col_idx key_locations
      validitymask_locations mem)
  | .HASH =>
    .ok (TemplatedDeserializeIntoVector 8 v vcount col_idx key_locations
      validitymask_locations mem)
  | .INTERVAL =>
    .ok (TemplatedDeserializeIntoVector 16 v vcount col_idx key_locations
      validitymask_locations mem)
  | .VARCHAR =>
    let byte_offset := col_idx / 8
    let offset_in_byte := col_idx % 8
    .ok (forLoop vcount (fun i (s : Vector × (Nat → Nat)) =>
      -- deserialize string length
      let len := wordOfBytes little_endian (mem.read (s.2 i) 4)
      let key_locations1 := setAt s.2 i (s.2 i + PREFIX_LENGTH)
      -- deserialize string
      let target := setAt s.1.data i (mem.read (key_locations1 i) len)
      let key_locations2 := setAt key_locations1 i (key_locations1 i + len)
      -- set validitymask
      let validity := setAt s.1.validity i
        (decide (mem (validitymask_locations i + byte_offset) &&& (1 <<< offset_in_byte) ≠ 0))
      (⟨target, validity⟩, key_locations2)) (v, key_locations))
  | _ => .error .NotImplementedException

/-- Size in bytes of the C++ type each fixed-width physical type is serialized as. -/
def fixedWidth : PhysicalType → Option Nat
  | .BOOL | .INT8 | .UINT8 => some 1
  | .INT16 | .UINT16 => some 2
  | .INT32 | .UINT32 | .FLOAT => some 4
  | .INT64 | .UINT64 | .DOUBLE | .HASH => some 8
  | .INT128 | .INTERVAL => some 16
  | _ => none

/-- Address inside the buffer of a block: the block is named by its position in `blocks`,
the offset is counted in bytes from `handle.node->buffer`. -/
structure Pointer where
  block : Nat
  offset : Nat
  deriving DecidableEq, Repr

structure RowDataBlock where
  CAPACITY : Nat
  count : Nat
  deriving DecidableEq, Repr

structure BlockAppendEntry where
  baseptr : Pointer
  count : Nat
  deriving DecidableEq, Repr

/-- The allocator part of a `RowChunk`; `count` is an `idx_t`. -/
structure Allocator where
  count : Nat
  block_capacity : Nat
  entry_size : Nat
  blocks : List RowDataBlock
  deriving DecidableEq, Repr

/-- The constructor `RowChunk::RowChunk(buffer_manager, block_capacity, entry_size)`. -/
def Allocator.new (block_capacity entry_size : Nat) : Allocator :=
  { count := 0, block_capacity := block_capacity, entry_size := entry_size, blocks := [] }

/-- Function `RowChunk::AppendToBlock`; `handle` is the position of the pinned block. It gives
the updated block, the extended `append_entries` and the returned `append_count`. -/
def AppendToBlock (entry_size : Nat) (block : RowDataBlock) (handle : Nat)
    (append_entries : List BlockAppendEntry) (remaining : Nat) :
    RowDataBlock × List BlockAppendEntry × Nat :=
  let append_count := min remaining (block.CAPACITY - block.count)
  let dataptr : Pointer := ⟨handle, block.count * entry_size⟩
  let append_entries := append_entries ++ [⟨dataptr, append_count⟩]
  ({ block with count := block.count + append_count }, append_entries, append_count)

/-- The loop `while (remaining > 0)` of `RowChunk::Build`; `none` when the fuel runs out. -/
def buildLoop (block_capacity entry_size : Nat) :
    Nat → List RowDataBlock → List BlockAppendEntry → Nat →
      Option (List RowDataBlock × List BlockAppendEntry)
  | fuel, blocks, append_entries, remaining =>
    if remaining > 0 then
      match fuel with
      | 0 => none
      | fuel + 1 =>
        let new_block : RowDataBlock := ⟨block_capacity, 0⟩
        let r := AppendToBlock entry_size new_block blocks.length append_entries remaining
        buildLoop block_capacity entry_size fuel (blocks ++ [r.1]) r.2.1 (remaining - r.2.2)
    else some (blocks, append_entries)

/-- The pointers one append entry expands to: `count` pointers, `entry_size` bytes apart. -/
def expandEntry (entry_size : Nat) (append_entry : BlockAppendEntry) : List Pointer :=
  (List.range append_entry.count).map
    (fun i => ⟨append_entry.baseptr.block, append_entry.baseptr.offset + i * entry_size⟩)

/-- Result of `RowChunk::Build`: the allocator afterwards, the returned `starting_count`
and the pointers written to `key_locations[0 ..]`, in order. -/
structure BuildResult where
  chunk : Allocator
  starting_count : Nat
  key_locations : List Pointer
  deriving DecidableEq, Repr

/-- The block `if (!blocks.empty()) { ... }` of `RowChunk::Build`, which first appends to the
last block when it has space: it gives the block list, the append entries and what remains. -/
def appendToLastBlock (rc : Allocator) (remaining : Nat) :
    List RowDataBlock × List BlockAppendEntry × Nat :=
  match rc.blocks.getLast? with
  | some last_block =>
    if last_block.count < last_block.CAPACITY then
      let r := AppendToBlock rc.entry_size last_block (rc.blocks.length - 1) [] remaining
      (rc.blocks.dropLast ++ [r.1], r.2.1, remaining - r.2.2)
    else (rc.blocks, [], remaining)
  | none => (rc.blocks, [], remaining)

/-- Function `RowChunk::Build`; `none` when the allocation loop runs out of fuel. -/
def Build (fuel : Nat) (rc : Allocator) (added_count : Nat) : Option BuildResult :=
  let remaining := added_count
  let starting_count := rc.count
  let count := (rc.count + added_count) % 2 ^ 64
  let first := appendToLastBlock rc remaining
  match buildLoop rc.block_capacity rc.entry_size fuel first.1 first.2.1 first.2.2 with
  | none => none
  | some (blocks, append_entries) =>
    -- now set up the key_locations based on the append entries
    some { chunk := { rc with count := count, blocks := blocks },
           starting_count := starting_count,
           key_locations := (append_entries.map (expandEntry rc.entry_size)).flatten }

/-- A sequence of `Build` calls; `none` when one of them runs out of fuel. -/
def buildAll (fuel : Nat) : Allocator → List Nat → Option Allocator
  | rc, [] => some rc
  | rc, n :: rest =>
    match Build fuel rc n with
    | none => none
    | some r => buildAll fuel r.chunk rest

end RowChunk

namespace Checkpoint

open RowChunk (Exception PhysicalType)

/-- The sentinel block id meaning that no bytes were written. -/
def INVALID_BLOCK : Int := -1

/-- Compression kinds. -/
inductive CompressionType
  | COMPRESSION_AUTO
  | COMPRESSION_UNCOMPRESSED
  | COMPRESSION_CONSTANT
  | COMPRESSION_RLE
  | COMPRESSION_DICTIONARY
  | COMPRESSION_BITPACKING
  deriving DecidableEq, Repr

structure CompressionFunction where
  type : CompressionType
  data_type : PhysicalType
  deriving DecidableEq, Repr

/-- Modelled from the spec: the compression-function registry `GetCompressionFunction`, which
is keyed by (compression kind, physical type); the entry found under a key is the function of
that kind for that type. -/
def GetCompressionFunction (type : CompressionType) (data_type : PhysicalType) :
    CompressionFunction :=
  ⟨type, data_type⟩

/-- Statistics of a segment or of a column: `is_constant` is what `IsConstant()` reports,
`contents` stands for everything else the statistics hold. -/
structure BaseStatistics where
  is_constant : Bool
  contents : Nat
  deriving DecidableEq, Repr

/-- The fields of a column segment that `FlushSegment` reads or writes; `id` names the
object and `segment_size` is what `SegmentSize()` returns. -/
structure ColumnSegment where
  id : Nat
  count : Nat
  stats : BaseStatistics
  function : CompressionFunction
  type : PhysicalType
  segment_size : Nat
  block : Nat
  deriving DecidableEq, Repr

structure PartialBlockState where
  block_id : Int
  offset_in_block : Nat
  block_use_count : Nat
  deriving DecidableEq, Repr

/-- A tail member: the column (`data`) and the segment are held by reference, here by name. -/
structure PartialColumnSegment where
  data : Nat
  segment : Nat
  offset_in_block : Nat
  deriving DecidableEq, Repr

structure UninitializedRegion where
  start : Nat
  stop : Nat
  deriving DecidableEq, Repr

structure PartialBlockForCheckpoint where
  state : PartialBlockState
  block : Option Nat
  uninitialized_regions : List UninitializedRegion
  segments : List PartialColumnSegment
  deriving DecidableEq, Repr

/-- Function `PartialBlockForCheckpoint::AddSegmentToTail`; the parameter `offset_in_block`
is a `uint32_t`. -/
def PartialBlockForCheckpoint.AddSegmentToTail (p : PartialBlockForCheckpoint) (data : Nat)
    (segment : Nat) (offset_in_block : Nat) : PartialBlockForCheckpoint :=
  { p with segments := p.segments ++ [⟨data, segment, offset_in_block % 2 ^ 32⟩] }

/-- The constructor of `PartialBlockForCheckpoint`. -/
def PartialBlockForCheckpoint.new (data : Nat) (segment : ColumnSegment)
    (state : PartialBlockState) : PartialBlockForCheckpoint :=
  PartialBlockForCheckpoint.AddSegmentToTail
    { state := state, block := some segment.block, uninitialized_regions := [], segments := [] }
    data segment.id 0

/-- Function `PartialBlockForCheckpoint::IsFlushed`. -/
def PartialBlockForCheckpoint.IsFlushed (p : PartialBlockForCheckpoint) : Bool :=
  p.segments.isEmpty

structure PartialBlockAllocation where
  state : PartialBlockState
  partial_block : Option PartialBlockForCheckpoint
  deriving DecidableEq, Repr

structure DataPointer where
  statistics : BaseStatistics
  block_id : Int
  offset : Nat
  row_start : Nat
  tuple_count : Nat
  compression_type : CompressionType
  deriving DecidableEq, Repr

/-- Calls `FlushSegment` makes on its collaborators (the partial block manager, the buffer
manager, the segment), in the order they are made. -/
inductive Call
  | GetBlockAllocation (segment_size : Nat)
  | RegisterPartialBlock (allocation : PartialBlockAllocation)
  | memcpy (target_block : Option Nat) (target_offset : Nat) (source_block : Nat) (size : Nat)
  | Resize (segment : Nat) (size : Nat)
  | ConvertToPersistent (segment : Nat) (block_manager : Bool) (block_id : Int)
  deriving DecidableEq, Repr

/-- What surrounds the checkpoint state: whether `D_ASSERT` is compiled in, the constant
`Storage::BLOCK_SIZE`, the statistics merge (which may raise) and the answer of the partial
block manager to `GetBlockAllocation`, given the calls made so far. -/
structure Environment where
  DEBUG : Bool
  BLOCK_SIZE : Nat
  Merge : BaseStatistics → BaseStatistics → Except Exception BaseStatistics
  GetBlockAllocation : List Call → Nat → PartialBlockAllocation

structure ColumnCheckpointState where
  row_group_start : Nat
  column_data : Nat
  global_stats : BaseStatistics
  new_tree : List ColumnSegment
  data_pointers : List DataPointer
  calls : List Call
  deriving DecidableEq, Repr

/-- Whether execution goes on past `D_ASSERT(condition)`; where it does not, the assertion
raises an `InternalException`. -/
def D_ASSERT (env : Environment) (condition : Bool) : Bool :=
  !env.DEBUG || condition

/-- The part of `FlushSegment` from the comment "construct the data pointer" on. -/
def constructDataPointer (st : ColumnCheckpointState) (segment : ColumnSegment)
    (block_id : Int) (offset_in_block : Nat) (tuple_count : Nat) : ColumnCheckpointState :=
  let row_start :=
    match st.data_pointers.getLast? with
    | some last_pointer => (last_pointer.row_start + last_pointer.tuple_count) % 2 ^ 64
    | none => st.row_group_start
  let data_pointer : DataPointer :=
    { statistics := segment.stats
      block_id := block_id
      offset := offset_in_block
      row_start := row_start
      tuple_count := tuple_count
      compression_type := segment.function.type }
  -- append the segment to the new segment tree
  { st with new_tree := st.new_tree ++ [segment],
            data_pointers := st.data_pointers ++ [data_pointer] }

/-- Function `ColumnCheckpointState::FlushSegment`: the state afterwards and how the call
ended. A raised exception leaves the state as it was when raised. -/
def FlushSegment (env : Environment) (st : ColumnCheckpointState) (segment : ColumnSegment)
    (segment_size : Nat) : ColumnCheckpointState × Except Exception Unit :=
  if !D_ASSERT env (decide (segment_size ≤ env.BLOCK_SIZE)) then (st, .error Exception.InternalException)
  else
  let tuple_count := segment.count
  if tuple_count = 0 then (st, .ok ())
  else
  -- merge the segment stats into the global stats
  match env.Merge st.global_stats segment.stats with
  | .error e => (st, .error e)
  | .ok merged =>
    let st := { st with global_stats := merged }
    if !segment.stats.is_constant then
      -- non-constant block
      let allocation := env.GetBlockAllocation st.calls segment_size
      let st := { st with calls := st.calls ++ [Call.GetBlockAllocation segment_size] }
      let block_id := allocation.state.block_id
      let offset_in_block := allocation.state.offset_in_block % 2 ^ 32
      match allocation.partial_block with
      | some pstate =>
        -- Use an existing block.
        if !D_ASSERT env (decide (offset_in_block > 0)) then (st, .error Exception.InternalException)
        else
        let st := { st with calls := st.calls ++
          [Call.memcpy pstate.block offset_in_block segment.block segment_size] }
        let pstate := pstate.AddSegmentToTail st.column_data segment.id offset_in_block
        let allocation := { allocation with partial_block := some pstate }
        let st := { st with calls := st.calls ++ [Call.RegisterPartialBlock allocation] }
        (constructDataPointer st segment block_id offset_in_block tuple_count, .ok ())
      | none =>
        -- Create a new block for future reuse.
        if segment.segment_size ≠ env.BLOCK_SIZE ∧
            !D_ASSERT env (decide (segment.segment_size < env.BLOCK_SIZE)) then
          (st, .error Exception.InternalException)
        else
        let resized := decide (segment.segment_size ≠ env.BLOCK_SIZE)
        let st := if resized then
          { st with calls := st.calls ++ [Call.Resize segment.id env.BLOCK_SIZE] } else st
        let segment := if resized then
          { segment with segment_size := env.BLOCK_SIZE } else segment
        if !D_ASSERT env (decide (offset_in_block = 0)) then (st, .error Exception.InternalException)
        else
        let pstate := PartialBlockForCheckpoint.new st.column_data segment allocation.state
        let allocation := { allocation with partial_block := some pstate }
        let st := { st with calls := st.calls ++ [Call.RegisterPartialBlock allocation] }
        (constructDataPointer st segment block_id offset_in_block tuple_count, .ok ())
    else
      -- constant block: no need to write anything to disk besides the stats
      let constant := GetCompressionFunction .COMPRESSION_CONSTANT segment.type
      let segment := { segment with function := constant }
      let st := { st with calls := st.calls ++
        [Call.ConvertToPersistent segment.id false INVALID_BLOCK] }
      (constructDataPointer st segment INVALID_BLOCK 0 tuple_count, .ok ())

/-- A sequence of `FlushSegment` calls on one column, stopped by the first exception. -/
def flushAll (env : Environment) :
    ColumnCheckpointState → List (ColumnSegment × Nat) → ColumnCheckpointState × Except Exception Unit
  | st, [] => (st, .ok ())
  | st, (segment, segment_size) :: rest =>
    match FlushSegment env st segment segment_size with
    | (st1, .ok ()) => flushAll env st1 rest
    | (st1, .error e) => (st1, .error e)

end Checkpoint

namespace RowChunk

/-- Magnitude bits (exponent and fraction fields) of a bit pattern. -/
def magBits (f : FloatFormat) (x : Nat) : Nat := x % 2 ^ (f.ebits + f.mbits)

/-- Sign-and-magnitude reading of a bit pattern as an integer. -/
def signedKey (f : FloatFormat) (x : Nat) : Int :=
  if f.signBit x then -(magBits f x : Int) else magBits f x

/-- Magnitude as a function of the magnitude bits. -/
def magOf (M m : Nat) : Nat := if m / M = 0 then m % M else (M + m % M) * 2 ^ (m / M - 1)

/-- Serialization of `count` rows into row slots with `SerializeVectorData`, followed by
`DeserializeIntoVectorData` from the same start positions into the vector `v`. -/
def rowRoundTrip (little_endian : Bool) (vdata : VectorData) (type : PhysicalType)
    (sel : Nat → Nat) (count col_idx : Nat) (key_locations validitymask_locations : Nat → Nat)
    (mem : Memory) (v : Vector) : Except Exception Vector :=
  match SerializeVectorData little_endian vdata type sel count col_idx key_locations
      (some validitymask_locations) mem with
  | .ok (mem1, _) =>
    match DeserializeIntoVectorData little_endian v type count col_idx key_locations
        validitymask_locations mem1 with
    | .ok (v1, _) => .ok v1
    | .error e => .error e
  | .error e => .error e

/-- Address of the row slot with global index `g`. -/
def slotPointer (cap entry_size g : Nat) : Pointer := ⟨g / cap, (g % cap) * entry_size⟩

/-- Block list holding `c` rows in blocks of capacity `cap`, every block but the last full. -/
def packedBlocks (cap c : Nat) : List RowDataBlock :=
  List.replicate (c / cap) ⟨cap, cap⟩ ++ (if c % cap = 0 then [] else [⟨cap, c % cap⟩])

end RowChunk

namespace Checkpoint

open RowChunk (Exception PhysicalType)

/-- Starting row `FlushSegment` gives to the next index entry. -/
def nextRowStart (st : ColumnCheckpointState) : Nat :=
  match st.data_pointers.getLast? with
  | some last_pointer => (last_pointer.row_start + last_pointer.tuple_count) % 2 ^ 64
  | none => st.row_group_start

/-- Row ranges `(row_start, tuple_count)` of consecutive segments with the given counts. -/
def rowRanges : Nat → List Nat → List (Nat × Nat)
  | _, [] => []
  | start, c :: cs => (start, c) :: rowRanges (start + c) cs

/-- Environment of the witnesses: debug build, blocks of 262144 bytes, a statistics merge
that always succeeds, and a partial block manager that has no block to reuse. -/
def witnessEnv : Environment :=
  { DEBUG := true
    BLOCK_SIZE := 262144
    Merge := fun a b => .ok ⟨false, a.contents + b.contents⟩
    GetBlockAllocation := fun _ _ => ⟨⟨7, 0, 1⟩, none⟩ }

/-- Segment of the witnesses, with the given name, row count and constant flag. -/
def witnessSegment (id count : Nat) (is_constant : Bool) : ColumnSegment :=
  ⟨id, count, ⟨is_constant, id⟩, ⟨.COMPRESSION_RLE, .INT32⟩, .INT32, 100, 50 + id⟩

/-- Checkpoint state of the witnesses: row group starting at row 1000, nothing flushed. -/
def witnessState : ColumnCheckpointState := ⟨1000, 3, ⟨false, 0⟩, [], [], []⟩

end Checkpoint

namespace RowChunk

/-- The value `source[source_idx]` of an unsigned integer type of `n` bytes, read natively
from its object representation. -/
def loadUnsigned (little_endian : Bool) (n : Nat) (object : List Nat) : Nat :=
  wordOfBytes little_endian (objectBytes n object)

/-- The value `source[source_idx]` of a signed (two's complement) integer type of `n` bytes,
read natively from its object representation. -/
def loadSigned (little_endian : Bool) (n : Nat) (object : List Nat) : Int :=
  let u := loadUnsigned little_endian n object
  if u < 2 ^ (8 * n - 1) then (u : Int) else (u : Int) - 2 ^ (8 * n)

/-- Function `RowChunk::TemplatedSerializeVectorSortable<T>` with `sizeof(T) = size`;
`EncodeData` is the specialization of `RowChunk::EncodeData` for `T`, applied to the object
representation of the value, giving the bytes it writes or the exception it raises. -/
def TemplatedSerializeVectorSortable (size : Nat)
    (EncodeData : List Nat → Except Exception (List Nat)) (vdata : VectorData)
    (sel : Nat → Nat) (add_count : Nat) (key_locations : Nat → Nat) (has_null invert : Bool)
    (mem : Memory) : Except Exception (Memory × (Nat → Nat)) :=
  let source := vdata.data
  if has_null then
    let valid : Nat := if invert then 0 else 1
    let invalid : Nat := if invert then 0 else 1
    forLoopM add_count (fun i (s : Memory × (Nat → Nat)) =>
      let idx := sel i
      let source_idx := vdata.sel idx
      -- write validity
      let mem1 : Memory :=
        setAt s.1 (s.2 i) (if vdata.validity source_idx then valid else invalid)
      let key_locations1 := setAt s.2 i (s.2 i + 1)
      -- write value
      match EncodeData (source source_idx) with
      | .ok bytes =>
        .ok (mem1.write (key_locations1 i) bytes,
          setAt key_locations1 i (key_locations1 i + size))
      | .error e => .error e) (mem, key_locations)
  else
    forLoopM add_count (fun i (s : Memory × (Nat → Nat)) =>
      let idx := sel i
      let source_idx := vdata.sel idx
      -- write value
      match EncodeData (source source_idx) with
      | .ok bytes => .ok (s.1.write (s.2 i) bytes, setAt s.2 i (s.2 i + size))
      | .error e => .error e) (mem, key_locations)

/-- Function `RowChunk::SerializeVectorSortable`, on the orrified vector. The primary template
of `EncodeData`, which is what `interval_t` gets, is declared in a header outside the source
file embedded here and is the parameter `EncodeData_interval`; `hash_t` is `uint64_t`. -/
def SerializeVectorSortable (little_endian : Bool)
    (EncodeData_interval : List Nat → Except Exception (List Nat)) (vdata : VectorData)
    (type : PhysicalType) (sel : Nat → Nat) (ser_count : Nat) (key_locations : Nat → Nat)
    (has_null invert : Bool) (mem : Memory) : Except Exception (Memory × (Nat → Nat)) :=
  match type with
  | .BOOL | .INT8 =>
    TemplatedSerializeVectorSortable 1
      (fun value => .ok (EncodeData_int8 (loadSigned little_endian 1 value)))
      vdata sel ser_count key_locations has_null invert mem
  | .INT16 =>
    TemplatedSerializeVectorSortable 2
      (fun value => .ok (EncodeData_int16 little_endian (loadSigned little_endian 2 value)))
      vdata sel ser_count key_locations has_null invert mem
  | .INT32 =>
    TemplatedSerializeVectorSortable 4
      (fun value => .ok (EncodeData_int32 little_endian (loadSigned little_endian 4 value)))
      vdata sel ser_count key_locations has_null invert mem
  | .INT64 =>
    TemplatedSerializeVectorSortable 8
      (fun value => .ok (EncodeData_int64 little_endian (loadSigned little_endian 8 value)))
      vdata sel ser_count key_locations has_null invert mem
  | .UINT8 =>
    TemplatedSerializeVectorSortable 1
      (fun value => .ok (EncodeData_uint8 (loadUnsigned little_endian 1 value)))
      vdata sel ser_count key_locations has_null invert mem
  | .UINT16 =>
    TemplatedSerializeVectorSortable 2
      (fun value => .ok (EncodeData_uint16 little_endian (loadUnsigned little_endian 2 value)))
      vdata sel ser_count key_locations has_null invert mem
  | .UINT32 =>
    TemplatedSerializeVectorSortable 4
      (fun value => .ok (EncodeData_uint32 little_endian (loadUnsigned little_endian 4 value)))
      vdata sel ser_count key_locations has_null invert mem
  | .UINT64 =>
    TemplatedSerializeVectorSortable 8
      (fun value => .ok (EncodeData_uint64 little_endian (loadUnsigned little_endian 8 value)))
      vdata sel ser_count key_locations has_null invert mem
  | .INT128 =>
    TemplatedSerializeVectorSortable 16
      (fun _ => .error Exception.NotImplementedException)
      vdata sel ser_count key_locations has_null invert mem
  | .FLOAT =>
    TemplatedSerializeVectorSortable 4
      (fun value => .ok (EncodeData_float little_endian (loadUnsigned little_endian 4 value)))
      vdata sel ser_count key_locations has_null invert mem
  | .DOUBLE =>
    TemplatedSerializeVectorSortable 8
      (fun value => .ok (EncodeData_double little_endian (loadUnsigned little_endian 8 value)))
      vdata sel ser_count key_locations has_null invert mem
  | .HASH =>
    TemplatedSerializeVectorSortable 8
      (fun value => .ok (EncodeData_uint64 little_endian (loadUnsigned little_endian 8 value)))
      vdata sel ser_count key_locations has_null invert mem
  | .INTERVAL =>
    TemplatedSerializeVectorSortable 16 EncodeData_interval
      vdata sel ser_count key_locations has_null invert mem
  | _ => .error Exception.NotImplementedException

/-- The vector of the sortable examples: row `i` holds the byte `i mod 2`, row 1 is NULL and
every other row is valid; `vdata.sel` is the identity. -/
def witnessVector : VectorData := ⟨fun i => [i % 2], fun i => i, fun i => decide (i ≠ 1)⟩

/-- A vector without NULL: row `i` holds the byte `i mod 2`, that is the bool false in the
even rows and true in the odd rows; `vdata.sel` is the identity. -/
def witnessBools : VectorData := ⟨fun i => [i % 2], fun i => i, fun _ => true⟩

/-- An `EncodeData` for `interval_t` that raises, for the examples that do not use it. -/
def witnessEncodeInterval : List Nat → Except Exception (List Nat) :=
  fun _ => .error Exception.NotImplementedException

end RowChunk

namespace Checkpoint

open RowChunk (Exception PhysicalType Memory setAt)

/-- Calls `Flush` makes on the block manager and on the members of the tail, in the order
they are made. -/
inductive BlockCall
  | GetFreeBlockId
  | IncrementVersion (data : Nat)
  | ConvertToPersistent (segment : Nat) (block_id : Int)
  | MarkAsPersistent (segment : Nat) (block : Option Nat) (offset_in_block : Nat)
  deriving DecidableEq, Repr

/-- What `Flush` and `Merge` act on besides the records: the bytes of every block, addressed
from `handle.Ptr()`, the calls made so far and, for every `ConvertToPersistent` made on a
tail member so far, the block id it was given and the bytes of every block at the time of the
call. -/
structure BlockWorld where
  buffers : Nat → Memory
  calls : List BlockCall
  persisted : List (Int × (Nat → Memory))

/-- Answers of the block manager: the id `GetFreeBlockId` returns, given the calls made so
far, and the block handle a segment holds once `ConvertToPersistent(&block_manager, block_id)`
has been called on it. -/
structure BlockManager where
  GetFreeBlockId : List BlockCall → Int
  ConvertToPersistent : Nat → Int → Nat

/-- The call `memset(ptr + p, 0, n)` on a buffer. -/
def memset (mem : Memory) (p n : Nat) : Memory :=
  fun a => if p ≤ a ∧ a < p + n then 0 else mem a

/-- Function `PartialBlockForCheckpoint::AddUninitializedRegion`. -/
def PartialBlockForCheckpoint.AddUninitializedRegion (p : PartialBlockForCheckpoint)
    (start stop : Nat) : PartialBlockForCheckpoint :=
  { p with uninitialized_regions := p.uninitialized_regions ++ [⟨start, stop⟩] }

/-- Function `PartialBlockForCheckpoint::Clear`. -/
def PartialBlockForCheckpoint.Clear (p : PartialBlockForCheckpoint) :
    PartialBlockForCheckpoint :=
  { p with uninitialized_regions := [], block := none, segments := [] }

/-- The zero-initialization at the start of `Flush`: the buffer of the pinned block after the
`memset` of every uninitialized region (of `end - start` bytes, an `idx_t`) and of the free
space at the end of the block. -/
def zeroFill (env : Environment) (p : PartialBlockForCheckpoint) (buffer : Memory)
    (free_space_left : Nat) : Memory :=
  let buffer := p.uninitialized_regions.foldl
    (fun b uninitialized =>
      memset b uninitialized.start ((uninitialized.stop + 2 ^ 64 - uninitialized.start) % 2 ^ 64))
    buffer
  memset buffer (env.BLOCK_SIZE - free_space_left) free_space_left

/-- The loop `for (idx_t i = 0; i < segments.size(); i++)` of `Flush`, from index `i` on, over
the members that are left. A failed `D_ASSERT` on the first member raises an
`InternalException`; the `ConvertToPersistent` of the first member is recorded with the bytes
of the blocks at that time. -/
def flushSegments (env : Environment) (bm : BlockManager) :
    Nat → List PartialColumnSegment → PartialBlockForCheckpoint × BlockWorld →
      (PartialBlockForCheckpoint × BlockWorld) × Except Exception Unit
  | _, [], s => (s, .ok ())
  | i, segment :: rest, (p, w) =>
    let w : BlockWorld := { w with calls := w.calls ++ [BlockCall.IncrementVersion segment.data] }
    if i = 0 then
      -- the first segment is converted to persistent
      if !D_ASSERT env (decide (segment.offset_in_block = 0)) then
        ((p, w), .error Exception.InternalException)
      else
        let w : BlockWorld := { w with calls := w.calls ++
          [BlockCall.ConvertToPersistent segment.segment p.state.block_id] }
        let w : BlockWorld := { w with persisted := w.persisted ++ [(p.state.block_id, w.buffers)] }
        -- update the block after it has been converted to a persistent segment
        let block := bm.ConvertToPersistent segment.segment p.state.block_id
        flushSegments env bm (i + 1) rest ({ p with block := some block }, w)
    else
      -- subsequent segments are MARKED as persistent
      let w : BlockWorld := { w with calls := w.calls ++
        [BlockCall.MarkAsPersistent segment.segment p.block segment.offset_in_block] }
      flushSegments env bm (i + 1) rest (p, w)

/-- Function `PartialBlockForCheckpoint::Flush`: the record and the world afterwards, and how
the call ended. A raised exception leaves them as they were when it was raised; pinning a
null block handle is `NullPointerDereference`. -/
def PartialBlockForCheckpoint.Flush (env : Environment) (bm : BlockManager)
    (p : PartialBlockForCheckpoint) (w : BlockWorld) (free_space_left : Nat) :
    (PartialBlockForCheckpoint × BlockWorld) × Except Exception Unit :=
  if p.IsFlushed then ((p, w), .error Exception.InternalException)
  else
  -- if we have any free space or uninitialized regions we need to zero-initialize them
  let zeroed : Option BlockWorld :=
    if free_space_left > 0 ∨ ¬ p.uninitialized_regions.isEmpty then
      match p.block with
      | some block =>
        let zeroed_buffer := zeroFill env p (w.buffers block) free_space_left
        some { w with buffers := setAt w.buffers block zeroed_buffer }
      | none => none
    else some w
  match zeroed with
  | none => ((p, w), .error Exception.NullPointerDereference)
  | some w =>
    let fresh := decide (p.state.block_id = INVALID_BLOCK)
    let block_id := if fresh then bm.GetFreeBlockId w.calls else p.state.block_id
    let w : BlockWorld :=
      if fresh then { w with calls := w.calls ++ [BlockCall.GetFreeBlockId] } else w
    let p : PartialBlockForCheckpoint := { p with state := { p.state with block_id := block_id } }
    match flushSegments env bm 0 p.segments (p, w) with
    | ((p, w), .ok ()) => ((p.Clear, w), .ok ())
    | ((p, w), .error e) => ((p, w), .error e)

/-- Function `PartialBlockForCheckpoint::Merge`, called on `this` with the record `other`:
the two records and the world afterwards, and how the call ended. The offsets are `idx_t`. -/
def PartialBlockForCheckpoint.Merge (this other : PartialBlockForCheckpoint) (w : BlockWorld)
    (offset other_size : Nat) :
    (PartialBlockForCheckpoint × PartialBlockForCheckpoint × BlockWorld) ×
      Except Exception Unit :=
  match other.block, this.block with
  | some old_block, some new_block =>
    -- memcpy the contents of the old block to the new block
    let copied := (w.buffers new_block).write offset ((w.buffers old_block).read 0 other_size)
    let w : BlockWorld := { w with buffers := setAt w.buffers new_block copied }
    -- move over the uninitialized regions
    let regions := other.uninitialized_regions.map
      (fun region => (⟨(region.start + offset) % 2 ^ 64, (region.stop + offset) % 2 ^ 64⟩ :
        UninitializedRegion))
    let other := { other with uninitialized_regions := regions }
    let this := { this with uninitialized_regions := this.uninitialized_regions ++ regions }
    -- move over the segments
    let this := other.segments.foldl
      (fun (t : PartialBlockForCheckpoint) segment =>
        t.AddSegmentToTail segment.data segment.segment
          ((segment.offset_in_block + offset) % 2 ^ 64))
      this
    let other := { other with uninitialized_regions := [] }
    ((this.Clear, other, w), .ok ())
  | _, _ => ((this, other, w), .error Exception.NullPointerDereference)

/-- Block manager of the witnesses: the free block id is 42, and a persisted segment holds
the block handle 900. -/
def witnessBlockManager : BlockManager := ⟨fun _ => 42, fun _ _ => 900⟩

/-- World of the witnesses: every byte of every block is 7, no call made, nothing persisted. -/
def witnessWorld : BlockWorld := ⟨fun _ _ => 7, [], []⟩

/-- Record A of the witnesses: block handle 1, no block id yet, one uninitialized region
and the tail members (segment 10 at offset 0, segment 11 at offset 100). -/
def witnessRecordA : PartialBlockForCheckpoint :=
  ⟨⟨INVALID_BLOCK, 0, 1⟩, some 1, [⟨200, 256⟩], [⟨3, 10, 0⟩, ⟨4, 11, 100⟩]⟩

/-- Record B of the witnesses: block handle 2, one uninitialized region and the tail member
(segment 20 at offset 0). -/
def witnessRecordB : PartialBlockForCheckpoint :=
  ⟨⟨INVALID_BLOCK, 0, 1⟩, some 2, [⟨50, 64⟩], [⟨5, 20, 0⟩]⟩

/-- The calls made for the tail members after the first one. -/
def markCalls (block : Option Nat) (rest : List PartialColumnSegment) : List BlockCall :=
  rest.flatMap (fun m =>
    [BlockCall.IncrementVersion m.data, BlockCall.MarkAsPersistent m.segment block m.offset_in_block])

end Checkpoint

namespace RowChunk

/-- Function `RowChunk::SkipOverType`: the `key_locations` array afterwards. The helpers
`TypeIsConstantSize` and `GetTypeIdSize` are defined outside the source file embedded here
and are parameters. -/
def SkipOverType (little_endian : Bool) (TypeIsConstantSize : PhysicalType → Bool)
    (GetTypeIdSize : PhysicalType → Nat) (type : PhysicalType) (vcount : Nat)
    (key_locations : Nat → Nat) (mem : Memory) : Except Exception (Nat → Nat) :=
  if TypeIsConstantSize type then
    let size := GetTypeIdSize type
    .ok (forLoop vcount (fun i (key_locations : Nat → Nat) =>
      setAt key_locations i (key_locations i + size)) key_locations)
  else
    match type with
    | .VARCHAR =>
      .ok (forLoop vcount (fun i (key_locations : Nat → Nat) =>
        setAt key_locations i (key_locations i +
          (PREFIX_LENGTH + wordOfBytes little_endian (Load 4 (key_locations i) mem))))
        key_locations)
    | _ => .error .NotImplementedException

/-- Modelled from the spec: the helper `TypeIsConstantSize`, which is not part of the embedded
sources. The fixed-width physical types are the ones stored on a fixed number of bytes; text
is variable-length, and every other type is unsupported on the byte-skip path. -/
def TypeIsConstantSize (type : PhysicalType) : Bool := (fixedWidth type).isSome

/-- Modelled from the spec: the helper `GetTypeIdSize`, which is not part of the embedded
sources: the fixed width, in bytes, of a fixed-width physical type. -/
def GetTypeIdSize (type : PhysicalType) : Nat := (fixedWidth type).getD 0

/-- Number of free slots in the last existing block, 0 if there is no block. -/
def spare (rc : Allocator) : Nat :=
  match rc.blocks.getLast? with
  | some last_block => last_block.CAPACITY - last_block.count
  | none => 0

/-- Allocator of the witnesses: blocks of 4 slots of 8 bytes, 6 rows in two blocks. -/
def witnessAllocator : Allocator := ⟨6, 4, 8, [⟨4, 4⟩, ⟨4, 2⟩]⟩

/-- Number of bytes a serialized value takes in row mode: the fixed size of a fixed-width type,
the length prefix plus the length of the string for VARCHAR. -/
def serializedSize (type : PhysicalType) (value : List Nat) : Nat :=
  match fixedWidth type with
  | some size => size
  | none => PREFIX_LENGTH + value.length

/-- Vector of strings of the witnesses: row `i` holds `i + 1` bytes; row 1 is NULL. -/
def witnessStrings : VectorData :=
  ⟨fun i => List.replicate (i + 1) 65, fun i => i, fun i => decide (i ≠ 1)⟩

/-- One round of the VARCHAR loop of `SerializeVectorData` when a validity mask is given: the
memory and the positions after row `i`. -/
def varcharRound (little_endian : Bool) (vdata : VectorData) (col_idx : Nat) (vm : Nat → Nat)
    (i : Nat) (s : Memory × (Nat → Nat)) : Memory × (Nat → Nat) :=
  let string_entry := vdata.data (vdata.sel i)
  let mem2 := (s.1.write (s.2 i) (storeNative little_endian 4 (string_entry.length % 2 ^ 32))).write
    (s.2 i + PREFIX_LENGTH) string_entry
  (if !vdata.validity i then clearValidityBit mem2 (vm i + col_idx / 8) (col_idx % 8) else mem2,
    setAt s.2 i (s.2 i + (PREFIX_LENGTH + string_entry.length)))

end RowChunk

namespace Checkpoint

open RowChunk (Exception PhysicalType Memory setAt)

/-- The bytes of every block after the zero-initialization at the start of `Flush`, which
changes the block the record holds. -/
def zeroFilled (env : Environment) (p : PartialBlockForCheckpoint) (w : BlockWorld)
    (free_space_left : Nat) : Nat → Memory :=
  match p.block with
  | some block => setAt w.buffers block (zeroFill env p (w.buffers block) free_space_left)
  | none => w.buffers

/-- The block id `Flush` persists the record under: the id already assigned, or else the
one `GetFreeBlockId` returns. -/
def flushBlockId (bm : BlockManager) (p : PartialBlockForCheckpoint) (w : BlockWorld) : Int :=
  if p.state.block_id = INVALID_BLOCK then bm.GetFreeBlockId w.calls else p.state.block_id

/-- The calls `Flush` makes before the loop over the tail. -/
def freshIdCalls (p : PartialBlockForCheckpoint) : List BlockCall :=
  if p.state.block_id = INVALID_BLOCK then [BlockCall.GetFreeBlockId] else []

end Checkpoint

namespace JsonDeserializer

/-- A `yyjson_val`, a JSON value of the yyjson library: `uint` and `sint` are the two kinds of
integer the library tells apart, `real` holds the bit pattern of a double. -/
inductive yyjson_val
  | null
  | bool (b : Bool)
  | uint (n : Nat)
  | sint (n : Int)
  | real (bits : Nat)
  | str (s : String)
  | arr (elements : List yyjson_val)
  | obj (members : List (String × yyjson_val))

/-- Exceptions raised by the deserializer; `NullPointerDereference` stands for the undefined
behaviour of building a string from a null `const char *`. -/
inductive Exception
  | InternalException (message : String)
  | SerializationException (message : String)
  | NullPointerDereference

/-- The members of a `JsonDeserializer`: the stack of values being read, the current tag and
the array iterator, held as the elements it has yet to return. -/
structure State where
  stack : List yyjson_val
  current_tag : String
  arr_iter : List yyjson_val

/-- What the yyjson getters return, whatever the type of the value they are given, and the
conversions applied to what they return; `FromString` is `Interval::FromString`. -/
structure Getters where
  yyjson_get_bool : yyjson_val → Bool
  yyjson_get_sint : yyjson_val → Int
  yyjson_get_uint : yyjson_val → Nat
  yyjson_get_real : yyjson_val → Nat
  yyjson_get_str : yyjson_val → Option String
  toFloat : Nat → Nat
  FromString : String → Option (Int × Int × Int)

def yyjson_is_obj : Option yyjson_val → Bool
  | some (.obj _) => true
  | _ => false

def yyjson_is_arr : Option yyjson_val → Bool
  | some (.arr _) => true
  | _ => false

def yyjson_is_null : Option yyjson_val → Bool
  | some .null => true
  | _ => false

def yyjson_is_bool : Option yyjson_val → Bool
  | some (.bool _) => true
  | _ => false

def yyjson_is_sint : Option yyjson_val → Bool
  | some (.sint _) => true
  | _ => false

def yyjson_is_uint : Option yyjson_val → Bool
  | some (.uint _) => true
  | _ => false

def yyjson_is_real : Option yyjson_val → Bool
  | some (.real _) => true
  | _ => false

def yyjson_is_str : Option yyjson_val → Bool
  | some (.str _) => true
  | _ => false

/-- The value of the first member of an object with the given key, null if there is none. -/
def yyjson_obj_get (obj : Option yyjson_val) (key : String) : Option yyjson_val :=
  match obj with
  | some (.obj members) => (members.find? (fun member => member.1 == key)).map (fun m => m.2)
  | _ => none

/-- The iterator over the elements of an array; empty on a value that is not an array. -/
def yyjson_arr_iter_init : yyjson_val → List yyjson_val
  | .arr elements => elements
  | _ => []

/-- The next element of the iterator, null at the end, and the iterator afterwards. -/
def yyjson_arr_iter_next : List yyjson_val → Option yyjson_val × List yyjson_val
  | [] => (none, [])
  | val :: rest => (some val, rest)

def yyjson_arr_size : yyjson_val → Nat
  | .arr elements => elements.length
  | _ => 0

/-- Conversion of an integer to a signed type of `w` bits. -/
def toSigned (w : Nat) (v : Int) : Int := (v + 2 ^ (w - 1)) % 2 ^ w - 2 ^ (w - 1)

/-- Member `Current()`, declared with the class, outside the source file embedded here: the
value on top of the stack, null when the stack is empty. -/
def Current (d : State) : Option yyjson_val := d.stack.getLast?

/-- Function `JsonDeserializer::GetNextValue`: inside an object the value of the property
named by the current tag, inside an array the next element. -/
def GetNextValue (d : State) : Except Exception (yyjson_val × State) :=
  let parent_val := Current d
  if yyjson_is_obj parent_val then
    match yyjson_obj_get parent_val d.current_tag with
    | some val => .ok (val, d)
    | none => .error (.InternalException "Value/Array empty")
  else if yyjson_is_arr parent_val then
    match yyjson_arr_iter_next d.arr_iter with
    | (some val, arr_iter) => .ok (val, { d with arr_iter := arr_iter })
    | (none, _) => .error (.InternalException "Value/Array empty")
  else
    .error (.InternalException "Cannot get value from non-array/object")

/-- Function `JsonDeserializer::ThrowTypeError`: inside an object and inside an array the
message is formatted into a local variable and the function returns. -/
def ThrowTypeError (d : State) (val : yyjson_val) (expected : String) : Except Exception Unit :=
  let parent := Current d
  if yyjson_is_obj parent then .ok ()
  else if yyjson_is_arr parent then .ok ()
  else .error (.InternalException "cannot get nested value from non object or array-type")

/-- The statements `auto val = GetNextValue(); if (!is(val)) { ThrowTypeError(val, expected); }`
every reader starts with. -/
def nextValueOfType (is : Option yyjson_val → Bool) (expected : String) (d : State) :
    Except Exception (yyjson_val × State) :=
  match GetNextValue d with
  | .error e => .error e
  | .ok (val, d) =>
    if !is (some val) then
      match ThrowTypeError d val expected with
      | .error e => .error e
      | .ok () => .ok (val, d)
    else .ok (val, d)

def OnObjectBegin (d : State) : Except Exception State :=
  match nextValueOfType yyjson_is_obj "object" d with
  | .error e => .error e
  | .ok (val, d) => .ok { d with stack := d.stack ++ [val] }

def OnListBegin (d : State) : Except Exception (Nat × State) :=
  match nextValueOfType yyjson_is_arr "array" d with
  | .error e => .error e
  | .ok (val, d) =>
    .ok (yyjson_arr_size val,
      { d with arr_iter := yyjson_arr_iter_init val, stack := d.stack ++ [val] })

def OnMapBegin (d : State) : Except Exception (Nat × State) :=
  match nextValueOfType yyjson_is_arr "array" d with
  | .error e => .error e
  | .ok (val, d) =>
    .ok (yyjson_arr_size val,
      { d with arr_iter := yyjson_arr_iter_init val, stack := d.stack ++ [val] })

def OnMapEntryBegin (d : State) : Except Exception State :=
  match nextValueOfType yyjson_is_obj "object" d with
  | .error e => .error e
  | .ok (val, d) => .ok { d with stack := d.stack ++ [val] }

def ReadBool (lib : Getters) (d : State) : Except Exception (Bool × State) :=
  match nextValueOfType yyjson_is_bool "bool" d with
  | .error e => .error e
  | .ok (val, d) => .ok (lib.yyjson_get_bool val, d)

def ReadSignedInt8 (lib : Getters) (d : State) : Except Exception (Int × State) :=
  match nextValueOfType yyjson_is_sint "int8_t" d with
  | .error e => .error e
  | .ok (val, d) => .ok (toSigned 8 (lib.yyjson_get_sint val), d)

def ReadUnsignedInt8 (lib : Getters) (d : State) : Except Exception (Nat × State) :=
  match nextValueOfType yyjson_is_uint "uint8_t" d with
  | .error e => .error e
  | .ok (val, d) => .ok (lib.yyjson_get_uint val % 2 ^ 8, d)

def ReadSignedInt16 (lib : Getters) (d : State) : Except Exception (Int × State) :=
  match nextValueOfType yyjson_is_sint "int16_t" d with
  | .error e => .error e
  | .ok (val, d) => .ok (toSigned 16 (lib.yyjson_get_sint val), d)

def ReadUnsignedInt16 (lib : Getters) (d : State) : Except Exception (Nat × State) :=
  match nextValueOfType yyjson_is_uint "uint16_t" d with
  | .error e => .error e
  | .ok (val, d) => .ok (lib.yyjson_get_uint val % 2 ^ 16, d)

def ReadSignedInt32 (lib : Getters) (d : State) : Except Exception (Int × State) :=
  match nextValueOfType yyjson_is_sint "int32_t" d with
  | .error e => .error e
  | .ok (val, d) => .ok (toSigned 32 (lib.yyjson_get_sint val), d)

def ReadUnsignedInt32 (lib : Getters) (d : State) : Except Exception (Nat × State) :=
  match nextValueOfType yyjson_is_uint "uint32_t" d with
  | .error e => .error e
  | .ok (val, d) => .ok (lib.yyjson_get_uint val % 2 ^ 32, d)

def ReadSignedInt64 (lib : Getters) (d : State) : Except Exception (Int × State) :=
  match nextValueOfType yyjson_is_sint "int64_t" d with
  | .error e => .error e
  | .ok (val, d) => .ok (toSigned 64 (lib.yyjson_get_sint val), d)

def ReadUnsignedInt64 (lib : Getters) (d : State) : Except Exception (Nat × State) :=
  match nextValueOfType yyjson_is_uint "uint64_t" d with
  | .error e => .error e
  | .ok (val, d) => .ok (lib.yyjson_get_uint val % 2 ^ 64, d)

def ReadFloat (lib : Getters) (d : State) : Except Exception (Nat × State) :=
  match nextValueOfType yyjson_is_real "float" d with
  | .error e => .error e
  | .ok (val, d) => .ok (lib.toFloat (lib.yyjson_get_real val), d)

def ReadDouble (lib : Getters) (d : State) : Except Exception (Nat × State) :=
  match nextValueOfType yyjson_is_real "double" d with
  | .error e => .error e
  | .ok (val, d) => .ok (lib.yyjson_get_real val, d)

def ReadString (lib : Getters) (d : State) : Except Exception (String × State) :=
  match nextValueOfType yyjson_is_str "string" d with
  | .error e => .error e
  | .ok (val, d) =>
    match lib.yyjson_get_str val with
    | some str => .ok (str, d)
    | none => .error .NullPointerDereference

def ReadInterval (lib : Getters) (d : State) : Except Exception ((Int × Int × Int) × State) :=
  match nextValueOfType yyjson_is_str "interval" d with
  | .error e => .error e
  | .ok (val, d) =>
    match lib.yyjson_get_str val with
    | none => .error .NullPointerDereference
    | some str =>
      match lib.FromString str with
      | some result => .ok (result, d)
      | none => .error (.SerializationException ("Invalid interval format: " ++ str))

/-- Deserializer of the witnesses, inside the object `{"a": "x"}` with the tag `a`. -/
def witnessInObject : State := ⟨[.obj [("a", .str "x")]], "a", []⟩

/-- Deserializer of the witnesses, inside the array `["x", 2]` before its first element. -/
def witnessInArray : State := ⟨[.arr [.str "x", .uint 2]], "", [.str "x", .uint 2]⟩

end JsonDeserializer

namespace ExpressionBinder

/-- A `ColumnRefExpression`: the fields `BindExpression` reads and writes. -/
structure ColumnRefExpression where
  column_name : String
  table_name : String
  deriving DecidableEq, Repr

/-- A `BindResult`, declared outside the source file embedded here: a bound expression (held
by name, null when absent) and an error message. -/
structure BindResult where
  expression : Option Nat
  error : String
  deriving DecidableEq, Repr

/-- The constructor `BindResult(string error)`: no expression, the given message. -/
def BindResult.ofError (error : String) : BindResult := ⟨none, error⟩

/-- Member `BindResult::HasError`: the error message is not empty. -/
def BindResult.HasError (result : BindResult) : Bool := !result.error.isEmpty

/-- Calls `BindExpression` makes on the binder, in the order they are made. -/
inductive BinderCall
  | HasMatchingBinding (column_name : String)
  | Bind (colref : ColumnRefExpression) (depth : Nat)
  | GetMatchingBinding (column_name : String)
  | GetSimilarBindings (column_name : String)
  | BindColumn (colref : ColumnRefExpression) (depth : Nat)
  | FormatError (colref : ColumnRefExpression) (message : String)
  deriving DecidableEq, Repr

/-- The macro binding of a binder: its member `alias` (a reserved word here, hence the name
`alias_name`) and the answers of its methods. -/
structure MacroBinding where
  alias_name : String
  HasMatchingBinding : String → Bool
  Bind : ColumnRefExpression → Nat → BindResult

/-- The binder of an `ExpressionBinder`: whether `D_ASSERT` is compiled in, the macro binding
(null when absent), the answers of the bind context and of `FormatError`, and
`StringUtil::CandidatesMessage`. -/
structure Binder where
  DEBUG : Bool
  macro_binding : Option MacroBinding
  GetMatchingBinding : String → String
  GetSimilarBindings : String → List String
  BindColumn : ColumnRefExpression → Nat → BindResult
  FormatError : ColumnRefExpression → String → String
  CandidatesMessage : List String → String → String

/-- What a call of `BindExpression` leaves: the returned result, the column reference (which
it may qualify), the flag `bound_columns` and the calls made on the binder. -/
structure Outcome where
  result : BindResult
  colref : ColumnRefExpression
  bound_columns : Bool
  calls : List BinderCall
  deriving DecidableEq, Repr

/-- The end of `BindExpression`, from `if (!result.HasError())` on. -/
def finish (binder : Binder) (bound_columns : Bool) (result : BindResult)
    (colref : ColumnRefExpression) (calls : List BinderCall) : Outcome :=
  if !result.HasError then
    ⟨result, colref, true, calls⟩
  else
    ⟨{ result with error := binder.FormatError colref result.error }, colref, bound_columns,
      calls ++ [BinderCall.FormatError colref result.error]⟩

/-- Function `ExpressionBinder::BindExpression(ColumnRefExpression &colref, idx_t depth)`. -/
def BindExpression (binder : Binder) (bound_columns : Bool) (colref : ColumnRefExpression)
    (depth : Nat) : Except RowChunk.Exception Outcome :=
  if binder.DEBUG && colref.column_name.isEmpty then .error RowChunk.Exception.InternalException
  else
  -- individual column reference
  let result := BindResult.ofError ""
  if colref.table_name.isEmpty then
    -- no table name: find a binding that contains this
    match binder.macro_binding with
    | some macro_binding =>
      if macro_binding.HasMatchingBinding colref.column_name then
        let colref := { colref with table_name := macro_binding.alias_name }
        .ok (finish binder bound_columns (macro_binding.Bind colref depth) colref
          [BinderCall.HasMatchingBinding colref.column_name, BinderCall.Bind colref depth])
      else
        let calls := [BinderCall.HasMatchingBinding colref.column_name,
          BinderCall.GetMatchingBinding colref.column_name]
        let colref := { colref with table_name := binder.GetMatchingBinding colref.column_name }
        if colref.table_name.isEmpty then
          let similar_bindings := binder.GetSimilarBindings colref.column_name
          let candidate_str := binder.CandidatesMessage similar_bindings "Candidate bindings"
          let message := "Referenced column \"" ++ colref.column_name ++
            "\" not found in FROM clause!" ++ candidate_str
          .ok ⟨BindResult.ofError (binder.FormatError colref message), colref, bound_columns,
            calls ++ [BinderCall.GetSimilarBindings colref.column_name,
              BinderCall.FormatError colref message]⟩
        else
          .ok (finish binder bound_columns (binder.BindColumn colref depth) colref
            (calls ++ [BinderCall.BindColumn colref depth]))
    | none =>
      let calls := [BinderCall.GetMatchingBinding colref.column_name]
      let colref := { colref with table_name := binder.GetMatchingBinding colref.column_name }
      if colref.table_name.isEmpty then
        let similar_bindings := binder.GetSimilarBindings colref.column_name
        let candidate_str := binder.CandidatesMessage similar_bindings "Candidate bindings"
        let message := "Referenced column \"" ++ colref.column_name ++
          "\" not found in FROM clause!" ++ candidate_str
        .ok ⟨BindResult.ofError (binder.FormatError colref message), colref, bound_columns,
          calls ++ [BinderCall.GetSimilarBindings colref.column_name,
            BinderCall.FormatError colref message]⟩
      else
        .ok (finish binder bound_columns (binder.BindColumn colref depth) colref
          (calls ++ [BinderCall.BindColumn colref depth]))
  else
    .ok (finish binder bound_columns result colref [])

/-- Binder of the witnesses: no macro binding, and a bind context that knows the table `t`
with the column `a`, which it binds to expression 7. -/
def witnessBinder : Binder :=
  { DEBUG := true
    macro_binding := none
    GetMatchingBinding := fun column_name => if column_name = "a" then "t" else ""
    GetSimilarBindings := fun _ => []
    BindColumn := fun colref _ =>
      if colref = ⟨"a", "t"⟩ then ⟨some 7, ""⟩ else BindResult.ofError "column not found"
    FormatError := fun _ message => message
    CandidatesMessage := fun _ _ => "" }

end ExpressionBinder

/-! ## Theorems -/

namespace RowChunk

theorem and_byte_mask (x k m : Nat) (hm : m = 255 * 2 ^ k) :
    x &&& m = (x / 2 ^ k % 256) * 2 ^ k := by
  subst hm
  apply Nat.eq_of_testBit_eq
  intro i
  have h255 : (255 : Nat) = 2 ^ 8 - 1 := by norm_num
  have h256 : (256 : Nat) = 2 ^ 8 := by norm_num
  rw [← Nat.shiftLeft_eq, ← Nat.shiftLeft_eq, ← Nat.shiftRight_eq_div_pow, h256, h255]
  simp only [Nat.testBit_and, Nat.testBit_shiftLeft, Nat.testBit_two_pow_sub_one,
    Nat.testBit_mod_two_pow, Nat.testBit_shiftRight]
  by_cases hk : k ≤ i
  · have : k + (i - k) = i := by omega
    simp [hk, this, Bool.and_comm]
  · simp [hk]

theorem or_eq_add_of_lt (a b i : Nat) (hb : b < 2 ^ i) : b ||| a * 2 ^ i = b + a * 2 ^ i := by
  rw [Nat.or_comm, Nat.mul_comm, ← Nat.mul_add_lt_is_or hb]; omega

theorem bswap16_val (u : Nat) :
    (((u &&& 0xff00) >>> 8) ||| ((u &&& 0x00ff) <<< 8)) = (u / 2^8 % 256) + (u % 256) * 2^8 := by
  rw [and_byte_mask u 8 0xff00 (by norm_num), and_byte_mask u 0 0x00ff (by norm_num)]
  simp only [Nat.shiftRight_eq_div_pow, Nat.shiftLeft_eq, pow_zero, Nat.div_one, mul_one]
  rw [Nat.mul_div_cancel _ (by norm_num : 0 < 2 ^ 8)]
  exact or_eq_add_of_lt _ _ 8 (by omega)

theorem bswap32_val (u : Nat) :
    (((u &&& 0xff000000) >>> 24) ||| ((u &&& 0x00ff0000) >>> 8) |||
    ((u &&& 0x0000ff00) <<< 8) % 2 ^ 32 ||| ((u &&& 0x000000ff) <<< 24) % 2 ^ 32)
     = (u / 2^24 % 256) + (u / 2^16 % 256) * 2^8 + (u / 2^8 % 256) * 2^16 + (u % 256) * 2^24 := by
  rw [and_byte_mask u 24 0xff000000 (by norm_num), and_byte_mask u 16 0x00ff0000 (by norm_num),
    and_byte_mask u 8 0xff00 (by norm_num), and_byte_mask u 0 0x00ff (by norm_num)]
  simp only [Nat.shiftRight_eq_div_pow, Nat.shiftLeft_eq, pow_zero, Nat.div_one, mul_one]
  have e1 : u / 2 ^ 24 % 256 * 2 ^ 24 / 2 ^ 24 = u / 2 ^ 24 % 256 := by omega
  have e2 : u / 2 ^ 16 % 256 * 2 ^ 16 / 2 ^ 8 = (u / 2 ^ 16 % 256) * 2 ^ 8 := by omega
  have e3 : u / 2 ^ 8 % 256 * 2 ^ 8 * 2 ^ 8 % 2 ^ 32 = (u / 2 ^ 8 % 256) * 2 ^ 16 := by omega
  have e4 : u % 256 * 2 ^ 24 % 2 ^ 32 = (u % 256) * 2 ^ 24 := by omega
  rw [e1, e2, e3, e4]
  rw [or_eq_add_of_lt _ _ 8 (by omega), or_eq_add_of_lt _ _ 16 (by omega),
    or_eq_add_of_lt _ _ 24 (by omega)]

theorem bswap64_val (u : Nat) :
    (((u &&& 0xff00000000000000) >>> 56) ||| ((u &&& 0x00ff000000000000) >>> 40) |||
    ((u &&& 0x0000ff0000000000) >>> 24) ||| ((u &&& 0x000000ff00000000) >>> 8) |||
    ((u &&& 0x00000000ff000000) <<< 8) % 2 ^ 64 ||| ((u &&& 0x0000000000ff0000) <<< 24) % 2 ^ 64 |||
    ((u &&& 0x000000000000ff00) <<< 40) % 2 ^ 64 ||| ((u &&& 0x00000000000000ff) <<< 56) % 2 ^ 64)
     = (u / 2^56 % 256) + (u / 2^48 % 256) * 2^8 + (u / 2^40 % 256) * 2^16
        + (u / 2^32 % 256) * 2^24 + (u / 2^24 % 256) * 2^32 + (u / 2^16 % 256) * 2^40
        + (u / 2^8 % 256) * 2^48 + (u % 256) * 2^56 := by
  rw [and_byte_mask u 56 0xff00000000000000 (by norm_num),
    and_byte_mask u 48 0x00ff000000000000 (by norm_num),
    and_byte_mask u 40 0x0000ff0000000000 (by norm_num),
    and_byte_mask u 32 0x000000ff00000000 (by norm_num),
    and_byte_mask u 24 0xff000000 (by norm_num), and_byte_mask u 16 0x00ff0000 (by norm_num),
    and_byte_mask u 8 0xff00 (by norm_num), and_byte_mask u 0 0x00ff (by norm_num)]
  simp only [Nat.shiftRight_eq_div_pow, Nat.shiftLeft_eq, pow_zero, Nat.div_one, mul_one]
  have e1 : u / 2 ^ 56 % 256 * 2 ^ 56 / 2 ^ 56 = u / 2 ^ 56 % 256 := by omega
  have e2 : u / 2 ^ 48 % 256 * 2 ^ 48 / 2 ^ 40 = (u / 2 ^ 48 % 256) * 2 ^ 8 := by omega
  have e3 : u / 2 ^ 40 % 256 * 2 ^ 40 / 2 ^ 24 = (u / 2 ^ 40 % 256) * 2 ^ 16 := by omega
  have e4 : u / 2 ^ 32 % 256 * 2 ^ 32 / 2 ^ 8 = (u / 2 ^ 32 % 256) * 2 ^ 24 := by omega
  have e5 : u / 2 ^ 24 % 256 * 2 ^ 24 * 2 ^ 8 % 2 ^ 64 = (u / 2 ^ 24 % 256) * 2 ^ 32 := by omega
  have e6 : u / 2 ^ 16 % 256 * 2 ^ 16 * 2 ^ 24 % 2 ^ 64 = (u / 2 ^ 16 % 256) * 2 ^ 40 := by omega
  have e7 : u / 2 ^ 8 % 256 * 2 ^ 8 * 2 ^ 40 % 2 ^ 64 = (u / 2 ^ 8 % 256) * 2 ^ 48 := by omega
  have e8 : u % 256 * 2 ^ 56 % 2 ^ 64 = (u % 256) * 2 ^ 56 := by omega
  rw [e1, e2, e3, e4, e5, e6, e7, e8]
  rw [or_eq_add_of_lt _ _ 8 (by omega), or_eq_add_of_lt _ _ 16 (by omega),
    or_eq_add_of_lt _ _ 24 (by omega), or_eq_add_of_lt _ _ 32 (by omega),
    or_eq_add_of_lt _ _ 40 (by omega), or_eq_add_of_lt _ _ 48 (by omega),
    or_eq_add_of_lt _ _ 56 (by omega)]

theorem toUnsigned_lt (w : Nat) (v : Int) : toUnsigned w v < 2 ^ w := by
  unfold toUnsigned
  have h : (0 : Int) < 2 ^ w := by positivity
  have h1 := Int.emod_lt_of_pos v h
  have h2 := Int.emod_nonneg v (ne_of_gt h)
  zify
  rw [Int.toNat_of_nonneg h2]
  exact_mod_cast h1

theorem leBytes_step (n b r : Nat) (hb : b < 256) :
    leBytes (n + 1) (b + r * 256) = b :: leBytes n r := by
  have h1 : (b + r * 256) % 256 = b := by omega
  have h2 : (b + r * 256) / 256 = r := by omega
  simp [leBytes, h1, h2]

theorem leBytes2 (b1 b0 : Nat) (h1 : b1 < 256) (h0 : b0 < 256) :
    leBytes 2 ((b1 + b0 * 256) % 65536) = [b1, b0] := by
  have e : (b1 + b0 * 256) % 65536 = b1 + (b0 + 0 * 256) * 256 := by omega
  rw [e, leBytes_step _ _ _ h1, leBytes_step _ _ _ h0]; rfl

theorem leBytes4 (b3 b2 b1 b0 : Nat) (h3 : b3 < 256) (h2 : b2 < 256) (h1 : b1 < 256)
    (h0 : b0 < 256) :
    leBytes 4 ((b3 + b2 * 256 + b1 * 65536 + b0 * 16777216) % 4294967296) = [b3, b2, b1, b0] := by
  have e : (b3 + b2 * 256 + b1 * 65536 + b0 * 16777216) % 4294967296
      = b3 + (b2 + (b1 + (b0 + 0 * 256) * 256) * 256) * 256 := by omega
  rw [e, leBytes_step _ _ _ h3, leBytes_step _ _ _ h2, leBytes_step _ _ _ h1,
    leBytes_step _ _ _ h0]; rfl

theorem leBytes8 (b7 b6 b5 b4 b3 b2 b1 b0 : Nat) (h7 : b7 < 256) (h6 : b6 < 256)
    (h5 : b5 < 256) (h4 : b4 < 256) (h3 : b3 < 256) (h2 : b2 < 256) (h1 : b1 < 256)
    (h0 : b0 < 256) :
    leBytes 8 ((b7 + b6 * 256 + b5 * 65536 + b4 * 16777216 + b3 * 4294967296
      + b2 * 1099511627776 + b1 * 281474976710656 + b0 * 72057594037927936)
        % 18446744073709551616) = [b7, b6, b5, b4, b3, b2, b1, b0] := by
  have e : (b7 + b6 * 256 + b5 * 65536 + b4 * 16777216 + b3 * 4294967296
      + b2 * 1099511627776 + b1 * 281474976710656 + b0 * 72057594037927936)
        % 18446744073709551616
      = b7 + (b6 + (b5 + (b4 + (b3 + (b2 + (b1 + (b0 + 0 * 256) * 256) * 256) * 256) * 256)
          * 256) * 256) * 256 := by omega
  rw [e, leBytes_step _ _ _ h7, leBytes_step _ _ _ h6, leBytes_step _ _ _ h5,
    leBytes_step _ _ _ h4, leBytes_step _ _ _ h3, leBytes_step _ _ _ h2, leBytes_step _ _ _ h1,
    leBytes_step _ _ _ h0]; rfl

theorem beBytes2 (u : Nat) : beBytes 2 u = [u / 256 % 256, u % 256] := by
  simp [beBytes]

theorem beBytes4 (u : Nat) :
    beBytes 4 u = [u / 16777216 % 256, u / 65536 % 256, u / 256 % 256, u % 256] := by
  simp [beBytes]

theorem beBytes8 (u : Nat) :
    beBytes 8 u = [u / 72057594037927936 % 256, u / 281474976710656 % 256,
      u / 1099511627776 % 256, u / 4294967296 % 256,
      u / 16777216 % 256, u / 65536 % 256, u / 256 % 256, u % 256] := by
  simp [beBytes]

theorem store_bswap16 (le : Bool) (v : Int) :
    storeNative le 2 (if le then BSWAP16 v else toUnsigned 16 v) = beBytes 2 (toUnsigned 16 v) := by
  cases le
  · simp [storeNative]
  · simp only [storeNative, if_true, BSWAP16, bswap16_val, beBytes2]
    norm_num
    exact leBytes2 _ _ (Nat.mod_lt _ (by norm_num)) (Nat.mod_lt _ (by norm_num))

theorem store_bswap32 (le : Bool) (v : Int) :
    storeNative le 4 (if le then BSWAP32 v else toUnsigned 32 v) = beBytes 4 (toUnsigned 32 v) := by
  cases le
  · simp [storeNative]
  · simp only [storeNative, if_true, BSWAP32, bswap32_val, beBytes4]
    norm_num
    exact leBytes4 _ _ _ _ (Nat.mod_lt _ (by norm_num)) (Nat.mod_lt _ (by norm_num))
      (Nat.mod_lt _ (by norm_num)) (Nat.mod_lt _ (by norm_num))

theorem store_bswap64 (le : Bool) (v : Int) :
    storeNative le 8 (if le then BSWAP64 v else toUnsigned 64 v) = beBytes 8 (toUnsigned 64 v) := by
  cases le
  · simp [storeNative]
  · simp only [storeNative, if_true, BSWAP64, bswap64_val, beBytes8]
    norm_num
    exact leBytes8 _ _ _ _ _ _ _ _ (Nat.mod_lt _ (by norm_num)) (Nat.mod_lt _ (by norm_num))
      (Nat.mod_lt _ (by norm_num)) (Nat.mod_lt _ (by norm_num)) (Nat.mod_lt _ (by norm_num))
      (Nat.mod_lt _ (by norm_num)) (Nat.mod_lt _ (by norm_num)) (Nat.mod_lt _ (by norm_num))

set_option maxRecDepth 100000 in
theorem FlipSign_eq : ∀ b, b < 256 → FlipSign b = (b + 128) % 256 := by
  unfold FlipSign
  decide

theorem beBytes_mod (n x : Nat) : beBytes n (x % 256 ^ n) = beBytes n x := by
  suffices h : ∀ m k, m ≤ k → beBytes m (x % 256 ^ k) = beBytes m x from h n n le_rfl
  intro m
  induction m with
  | zero => intro k _; rfl
  | succ m ih =>
    intro k hk
    have hd : (256 : Nat) ^ (m + 1) ∣ 256 ^ k := pow_dvd_pow _ hk
    have e : x % 256 ^ k / 256 ^ m % 256 = x / 256 ^ m % 256 := by
      rw [← Nat.mod_mul_right_div_self, ← Nat.mod_mul_right_div_self, ← pow_succ,
        Nat.mod_mod_of_dvd _ hd]
    simp only [beBytes, e, ih k (by omega)]

theorem memcmp_beBytes (n x y : Nat) :
    memcmp (beBytes n x) (beBytes n y) < 0 ↔ x % 256 ^ n < y % 256 ^ n := by
  induction n with
  | zero => simp [beBytes, memcmp, Nat.mod_one]
  | succ n ih =>
    have hP : 0 < 256 ^ n := by positivity
    have hx : x % 256 ^ (n + 1) = (x / 256 ^ n % 256) * 256 ^ n + x % 256 ^ n := by
      rw [pow_succ, Nat.mod_mul, Nat.add_comm, Nat.mul_comm]
    have hy : y % 256 ^ (n + 1) = (y / 256 ^ n % 256) * 256 ^ n + y % 256 ^ n := by
      rw [pow_succ, Nat.mod_mul, Nat.add_comm, Nat.mul_comm]
    have rx := Nat.mod_lt x hP
    have ry := Nat.mod_lt y hP
    simp only [beBytes, memcmp]
    rw [hx, hy]
    generalize x / 256 ^ n % 256 = a at *
    generalize y / 256 ^ n % 256 = b at *
    generalize x % 256 ^ n = r at *
    generalize y % 256 ^ n = s at *
    generalize 256 ^ n = P at *
    rcases Nat.lt_trichotomy a b with h | h | h
    · have : (a + 1) * P ≤ b * P := Nat.mul_le_mul_right P h
      simp only [h, if_true]
      constructor
      · intro _; nlinarith
      · intro _; norm_num
    · subst h
      simp only [lt_irrefl, if_false, ih]
      omega
    · have : (b + 1) * P ≤ a * P := Nat.mul_le_mul_right P h
      simp only [Nat.lt_asymm h, h, if_true, if_false]
      constructor
      · intro h'; norm_num at h'
      · intro _; nlinarith

theorem flipFirst_beBytes (n u : Nat) :
    flipFirst (beBytes (n + 1) u) = beBytes (n + 1) (u + 128 * 256 ^ n) := by
  have hP : 0 < 256 ^ n := by positivity
  have e1 : (u + 128 * 256 ^ n) / 256 ^ n = u / 256 ^ n + 128 := by
    rw [Nat.add_mul_div_right _ _ hP]
  have e2 : beBytes n (u + 128 * 256 ^ n) = beBytes n u := by
    rw [← beBytes_mod n (u + 128 * 256 ^ n), Nat.add_mul_mod_self_right, beBytes_mod]
  simp only [beBytes, flipFirst, e1, e2, FlipSign_eq _ (Nat.mod_lt _ (by norm_num : 0 < 256))]
  congr 1
  omega

theorem toUnsigned_natCast (w v : Nat) (h : v < 2 ^ w) : toUnsigned w (v : Int) = v := by
  unfold toUnsigned
  have : ((v : Int) % 2 ^ w) = ((v % 2 ^ w : Nat) : Int) := by push_cast; rfl
  rw [this, Int.toNat_natCast, Nat.mod_eq_of_lt h]

theorem biased_lt_iff (w : Nat) (H : Nat) (hH : 2 ^ w = 2 * H) (a b : Int)
    (ha : -(H : Int) ≤ a) (ha' : a < H) (hb : -(H : Int) ≤ b) (hb' : b < H) :
    ((toUnsigned w a + H) % 2 ^ w < (toUnsigned w b + H) % 2 ^ w ↔ a < b) := by
  have key : ∀ v : Int, -(H : Int) ≤ v → v < H →
      (((toUnsigned w v + H) % 2 ^ w : Nat) : Int) = v + H := by
    intro v h1 h2
    unfold toUnsigned
    have hpos : (0 : Int) < 2 ^ w := by positivity
    have hnn := Int.emod_nonneg v (ne_of_gt hpos)
    have hlt := Int.emod_lt_of_pos v hpos
    have hH' : ((2 : Int) ^ w) = 2 * (H : Int) := by exact_mod_cast hH
    push_cast
    rw [Int.toNat_of_nonneg hnn]
    rw [Int.emod_add_emod]
    rw [hH']
    rw [Int.emod_eq_of_lt] <;> omega
  have ka := key a ha ha'
  have kb := key b hb hb'
  omega

theorem int16_order (le : Bool) (a b : Int) (ha : -32768 ≤ a) (ha' : a < 32768)
    (hb : -32768 ≤ b) (hb' : b < 32768) :
    (memcmp (EncodeData_int16 le a) (EncodeData_int16 le b) < 0 ↔ a < b) := by
  unfold EncodeData_int16
  rw [store_bswap16, store_bswap16, flipFirst_beBytes, flipFirst_beBytes, memcmp_beBytes]
  have := biased_lt_iff 16 32768 (by norm_num) a b (by simpa using ha) (by simpa using ha')
    (by simpa using hb) (by simpa using hb')
  norm_num at this ⊢
  exact this

theorem expField_eq (f : FloatFormat) (x : Nat) :
    f.expField x = magBits f x / 2 ^ f.mbits := by
  unfold FloatFormat.expField magBits
  rw [Nat.add_comm, pow_add, Nat.mod_mul_right_div_self]

theorem fracField_eq (f : FloatFormat) (x : Nat) :
    f.fracField x = magBits f x % 2 ^ f.mbits := by
  unfold FloatFormat.fracField magBits
  rw [Nat.mod_mod_of_dvd _ (pow_dvd_pow 2 (Nat.le_add_left _ _))]

theorem magnitude_eq (f : FloatFormat) (x : Nat) :
    f.magnitude x = magOf (2 ^ f.mbits) (magBits f x) := by
  unfold FloatFormat.magnitude magOf
  rw [expField_eq, fracField_eq]

theorem magOf_strictMono (M : Nat) (hM : 0 < M) (m1 m2 : Nat) (h : m1 < m2) :
    magOf M m1 < magOf M m2 := by
  have d1 := Nat.div_add_mod m1 M
  have d2 := Nat.div_add_mod m2 M
  have r1 := Nat.mod_lt m1 hM
  have r2 := Nat.mod_lt m2 hM
  have hle : m1 / M ≤ m2 / M := Nat.div_le_div_right (le_of_lt h)
  unfold magOf
  generalize m1 / M = e1 at *
  generalize m2 / M = e2 at *
  generalize m1 % M = f1 at *
  generalize m2 % M = f2 at *
  rcases Nat.eq_or_lt_of_le hle with he | he
  · subst he
    have hf : f1 < f2 := by omega
    split
    · exact hf
    · exact Nat.mul_lt_mul_of_pos_right (by omega) (by positivity)
  · have h2 : ¬ e2 = 0 := by omega
    rw [if_neg h2]
    have hp : 2 ^ e1 ≤ 2 ^ (e2 - 1) := Nat.pow_le_pow_right (by norm_num) (by omega)
    have lb : M * 2 ^ (e2 - 1) ≤ (M + f2) * 2 ^ (e2 - 1) :=
      Nat.mul_le_mul_right _ (by omega)
    have lb2 : M * 2 ^ e1 ≤ M * 2 ^ (e2 - 1) := Nat.mul_le_mul_left _ hp
    split
    · rename_i h0
      have : 1 ≤ 2 ^ e1 := Nat.one_le_two_pow
      nlinarith
    · rename_i h0
      have e1pos : e1 = (e1 - 1) + 1 := by omega
      have : (M + f1) * 2 ^ (e1 - 1) < M * 2 ^ e1 := by
        conv_rhs => rw [e1pos, pow_succ]
        have : 0 < 2 ^ (e1 - 1) := by positivity
        nlinarith
      omega

theorem magOf_zero (M : Nat) : magOf M 0 = 0 := by simp [magOf]

theorem magOf_lt_iff (M : Nat) (hM : 0 < M) (m1 m2 : Nat) :
    magOf M m1 < magOf M m2 ↔ m1 < m2 := by
  constructor
  · intro h
    by_contra hc
    rcases Nat.eq_or_lt_of_le (not_lt.mp hc) with e | e
    · subst e; exact lt_irrefl _ h
    · exact lt_asymm h (magOf_strictMono M hM _ _ e)
  · exact magOf_strictMono M hM _ _

theorem magOf_eq_zero_iff (M : Nat) (hM : 0 < M) (m : Nat) : magOf M m = 0 ↔ m = 0 := by
  constructor
  · intro h
    by_contra hc
    have := magOf_strictMono M hM 0 m (by omega)
    rw [magOf_zero] at this
    omega
  · rintro rfl; exact magOf_zero M

theorem magBits_lt (f : FloatFormat) (x : Nat) : magBits f x < 2 ^ f.ebits * 2 ^ f.mbits := by
  unfold magBits
  rw [← pow_add]
  exact Nat.mod_lt _ (by positivity)

theorem isNaN_false_iff (f : FloatFormat) (x : Nat) :
    f.isNaN x = false ↔ magBits f x ≤ (2 ^ f.ebits - 1) * 2 ^ f.mbits := by
  have hM : 0 < 2 ^ f.mbits := by positivity
  have hE : 0 < 2 ^ f.ebits := by positivity
  have hlt := magBits_lt f x
  have d := Nat.div_add_mod (magBits f x) (2 ^ f.mbits)
  have r := Nat.mod_lt (magBits f x) hM
  unfold FloatFormat.isNaN
  rw [expField_eq, fracField_eq]
  generalize magBits f x = m at *
  generalize 2 ^ f.mbits = M at *
  generalize 2 ^ f.ebits = E at *
  have hq : m / M < E := by
    rw [Nat.div_lt_iff_lt_mul hM]; exact hlt
  generalize m / M = q at *
  generalize m % M = s at *
  simp only [Bool.and_eq_false_iff, decide_eq_false_iff_not, ne_eq, not_not]
  constructor
  · rintro (h | h)
    · have : q + 1 ≤ E - 1 := by omega
      have := Nat.mul_le_mul_left M this
      rw [Nat.mul_comm M (E - 1)] at this
      nlinarith
    · subst h
      have : q ≤ E - 1 := by omega
      have := Nat.mul_le_mul_left M this
      rw [Nat.mul_comm M (E - 1)] at this
      omega
  · intro h
    by_cases hq' : q = E - 1
    · right
      subst hq'
      rw [Nat.mul_comm] at h
      omega
    · left; exact hq'

theorem decode_of_not_nan (f : FloatFormat) (x : Nat) (h : f.isNaN x = false) :
    f.decode x =
      if magBits f x = (2 ^ f.ebits - 1) * 2 ^ f.mbits then
        (if f.signBit x then .negInf else .posInf)
      else if f.signBit x then .finite (-(magOf (2 ^ f.mbits) (magBits f x) : Int))
      else .finite (magOf (2 ^ f.mbits) (magBits f x)) := by
  have hle := (isNaN_false_iff f x).mp h
  have hM : 0 < 2 ^ f.mbits := by positivity
  unfold FloatFormat.isNaN at h
  unfold FloatFormat.decode
  rw [magnitude_eq]
  rw [expField_eq, fracField_eq] at h ⊢
  have d := Nat.div_add_mod (magBits f x) (2 ^ f.mbits)
  by_cases he : magBits f x / 2 ^ f.mbits = 2 ^ f.ebits - 1
  · have hfr : magBits f x % 2 ^ f.mbits = 0 := by simpa [he] using h
    have hm : magBits f x = (2 ^ f.ebits - 1) * 2 ^ f.mbits := by
      rw [he, hfr] at d; rw [← d]; ring
    simp [he, hfr, hm]
  · have hm : magBits f x ≠ (2 ^ f.ebits - 1) * 2 ^ f.mbits := by
      intro hc
      apply he
      rw [hc, Nat.mul_div_cancel _ hM]
    simp [he, hm]

theorem lt_iff_signedKey (f : FloatFormat) (he : 0 < f.ebits) (x y : Nat)
    (hx : f.isNaN x = false) (hy : f.isNaN y = false) :
    (f.decode x).lt (f.decode y) = true ↔ signedKey f x < signedKey f y := by
  have hM : 0 < 2 ^ f.mbits := by positivity
  have lx := (isNaN_false_iff f x).mp hx
  have ly := (isNaN_false_iff f y).mp hy
  have mono := magOf_lt_iff (2 ^ f.mbits) hM
  have zero := magOf_eq_zero_iff (2 ^ f.mbits) hM
  rw [decode_of_not_nan f x hx, decode_of_not_nan f y hy]
  unfold signedKey
  generalize magBits f x = mx at *
  generalize magBits f y = my at *
  have hI : 0 < (2 ^ f.ebits - 1) * 2 ^ f.mbits := by
    have : 2 ≤ 2 ^ f.ebits := by
      calc 2 = 2 ^ 1 := by norm_num
        _ ≤ 2 ^ f.ebits := Nat.pow_le_pow_right (by norm_num) he
    exact Nat.mul_pos (by omega) hM
  generalize (2 ^ f.ebits - 1) * 2 ^ f.mbits = I at *
  have mxy := mono mx my
  have myx := mono my mx
  have zx := zero mx
  have zy := zero my
  generalize magOf (2 ^ f.mbits) mx = gx at *
  generalize magOf (2 ^ f.mbits) my = gy at *
  by_cases ix : mx = I <;> by_cases iy : my = I <;>
    cases f.signBit x <;> cases f.signBit y <;>
    simp only [ix, iy, if_true, if_false, FloatValue.lt, Bool.false_eq_true, decide_eq_true_eq,
      reduceCtorEq, true_iff, false_iff, not_lt] <;>
    omega

theorem decode_zero (f : FloatFormat) (he : 0 < f.ebits) : f.decode 0 = .finite 0 := by
  have : 2 ≤ 2 ^ f.ebits := by
    calc 2 = 2 ^ 1 := by norm_num
      _ ≤ 2 ^ f.ebits := Nat.pow_le_pow_right (by norm_num) he
  have h1 : ¬ (0 = 2 ^ f.ebits - 1) := by omega
  simp [FloatFormat.decode, FloatFormat.expField, FloatFormat.fracField, FloatFormat.signBit,
    FloatFormat.magnitude, h1]

theorem eq_zero_iff (f : FloatFormat) (he : 0 < f.ebits) (x : Nat) (hx : f.isNaN x = false) :
    (f.decode x).eq (f.decode 0) = true ↔ magBits f x = 0 := by
  have hM : 0 < 2 ^ f.mbits := by positivity
  have zero := magOf_eq_zero_iff (2 ^ f.mbits) hM (magBits f x)
  have hI : 0 < (2 ^ f.ebits - 1) * 2 ^ f.mbits := by
    have : 2 ≤ 2 ^ f.ebits := by
      calc 2 = 2 ^ 1 := by norm_num
        _ ≤ 2 ^ f.ebits := Nat.pow_le_pow_right (by norm_num) he
    exact Nat.mul_pos (by omega) hM
  rw [decode_zero f he, decode_of_not_nan f x hx]
  generalize magBits f x = m at *
  generalize (2 ^ f.ebits - 1) * 2 ^ f.mbits = I at *
  generalize magOf (2 ^ f.mbits) m = g at *
  by_cases ix : m = I <;> cases f.signBit x <;>
    simp only [ix, if_true, if_false, FloatValue.eq, Bool.false_eq_true, decide_eq_true_eq,
      reduceCtorEq, true_iff, false_iff] <;>
    omega

theorem and_two_pow_eq_zero_iff (x i : Nat) : x &&& 2 ^ i = 0 ↔ x / 2 ^ i % 2 = 0 := by
  rw [Nat.and_two_pow, Nat.testBit_to_div_mod]
  have hp : 0 < 2 ^ i := by positivity
  by_cases h : x / 2 ^ i % 2 = 1
  · simp [h]
  · have h0 : x / 2 ^ i % 2 = 0 := by omega
    simp [h0]

theorem xor_all_ones (n x : Nat) (hx : x < 2 ^ n) : x ^^^ (2 ^ n - 1) = 2 ^ n - 1 - x := by
  apply Nat.eq_of_testBit_eq
  intro i
  have e : 2 ^ n - 1 - x = 2 ^ n - (x + 1) := by omega
  rw [e, Nat.testBit_two_pow_sub_succ hx, Nat.testBit_xor, Nat.testBit_two_pow_sub_one]
  by_cases hi : i < n
  · simp [hi]
  · have : x.testBit i = false :=
      Nat.testBit_lt_two_pow (lt_of_lt_of_le hx (Nat.pow_le_pow_right (by norm_num) (by omega)))
    simp [hi, this]

theorem EncodeFloat_eq (x : Nat) (hx : x < 2 ^ 32) (hn : binary32.isNaN x = false) :
    (EncodeFloat x : Int) =
      if signedKey binary32 x = 0 then 2147483648
      else if 2139095039 < signedKey binary32 x then 4294967295
      else if signedKey binary32 x < -2139095039 then 0
      else if 0 < signedKey binary32 x then 2147483648 + signedKey binary32 x
      else 2147483647 + signedKey binary32 x := by
  have hle := (isNaN_false_iff binary32 x).mp hn
  have nmax : binary32.isNaN FLT_MAX = false := by decide
  have nmin : binary32.isNaN NEG_FLT_MAX = false := by decide
  have kmax : signedKey binary32 FLT_MAX = 2139095039 := by decide
  have kmin : signedKey binary32 NEG_FLT_MAX = -2139095039 := by decide
  have c1 := eq_zero_iff binary32 (by decide) x hn
  have c2 := lt_iff_signedKey binary32 (by decide) FLT_MAX x nmax hn
  have c3 := lt_iff_signedKey binary32 (by decide) x NEG_FLT_MAX hn nmin
  rw [kmax] at c2
  rw [kmin] at c3
  unfold EncodeFloat
  simp only [c1, c2, c3]
  have hk : signedKey binary32 x = if x / 2147483648 % 2 = 1 then -((x % 2147483648 : Nat) : Int)
      else ((x % 2147483648 : Nat) : Int) := by
    simp [signedKey, magBits, FloatFormat.signBit, binary32]
  have hm : magBits binary32 x = x % 2147483648 := by simp [magBits, binary32]
  have hle' : x % 2147483648 ≤ 2139095040 := by
    rw [hm] at hle; simpa [binary32] using hle
  rw [hm, hk]
  have e31 : (1 : Nat) <<< 31 = 2 ^ 31 := by decide
  have hmod : x % 2 ^ 32 = x := Nat.mod_eq_of_lt hx
  have hxor : x ^^^ (2 ^ 64 - 1) = 2 ^ 64 - 1 - x :=
    xor_all_ones 64 x (lt_of_lt_of_le hx (by norm_num))
  have h0or : 0 ||| 2 ^ 31 = 2 ^ 31 := by simp
  simp only [e31, hmod, and_two_pow_eq_zero_iff, hxor, h0or]
  by_cases hs : x / 2 ^ 31 % 2 = 0
  · have hor : x ||| 2 ^ 31 = x + 2 ^ 31 := by
      have := or_eq_add_of_lt 1 x 31 (by omega)
      simpa using this
    rw [hor]
    simp only [hs, if_true, UINT_MAX]
    norm_num at hs ⊢
    split_ifs <;> omega
  · simp only [hs, if_false, UINT_MAX]
    norm_num at hs ⊢
    split_ifs <;> omega

theorem EncodeDouble_eq (x : Nat) (hx : x < 2 ^ 64) (hn : binary64.isNaN x = false) :
    (EncodeDouble x : Int) =
      if signedKey binary64 x = 0 then 9223372036854775808
      else if 9218868437227405311 < signedKey binary64 x then 18446744073709551615
      else if signedKey binary64 x < -9218868437227405311 then 0
      else if 0 < signedKey binary64 x then 9223372036854775808 + signedKey binary64 x
      else 9223372036854775807 + signedKey binary64 x := by
  have hle := (isNaN_false_iff binary64 x).mp hn
  have nmax : binary64.isNaN DBL_MAX = false := by decide
  have nmin : binary64.isNaN NEG_DBL_MAX = false := by decide
  have kmax : signedKey binary64 DBL_MAX = 9218868437227405311 := by decide
  have kmin : signedKey binary64 NEG_DBL_MAX = -9218868437227405311 := by decide
  have c1 := eq_zero_iff binary64 (by decide) x hn
  have c2 := lt_iff_signedKey binary64 (by decide) DBL_MAX x nmax hn
  have c3 := lt_iff_signedKey binary64 (by decide) x NEG_DBL_MAX hn nmin
  rw [kmax] at c2
  rw [kmin] at c3
  unfold EncodeDouble
  simp only [c1, c2, c3]
  have hk : signedKey binary64 x =
      if x / 9223372036854775808 % 2 = 1 then -((x % 9223372036854775808 : Nat) : Int)
      else ((x % 9223372036854775808 : Nat) : Int) := by
    simp [signedKey, magBits, FloatFormat.signBit, binary64]
  have hm : magBits binary64 x = x % 9223372036854775808 := by simp [magBits, binary64]
  have hle' : x % 9223372036854775808 ≤ 9218868437227405312 := by
    rw [hm] at hle; simpa [binary64] using hle
  rw [hm, hk]
  have e63 : (1 : Nat) <<< 63 = 2 ^ 63 := by decide
  have hmod : x % 2 ^ 64 = x := Nat.mod_eq_of_lt hx
  have hxor : x ^^^ (2 ^ 64 - 1) = 2 ^ 64 - 1 - x := xor_all_ones 64 x hx
  simp only [e63, hmod, hxor, ULLONG_MAX]
  norm_num
  split_ifs <;> omega

theorem signedKey_range (f : FloatFormat) (x : Nat) (hn : f.isNaN x = false) :
    -(((2 ^ f.ebits - 1) * 2 ^ f.mbits : Nat) : Int) ≤ signedKey f x ∧
      signedKey f x ≤ (((2 ^ f.ebits - 1) * 2 ^ f.mbits : Nat) : Int) := by
  have hle := (isNaN_false_iff f x).mp hn
  unfold signedKey
  split <;> constructor <;> omega

theorem EncodeFloat_lt_iff (a b : Nat) (ha : a < 2 ^ 32) (hb : b < 2 ^ 32)
    (na : binary32.isNaN a = false) (nb : binary32.isNaN b = false) :
    EncodeFloat a < EncodeFloat b ↔ (binary32.decode a).lt (binary32.decode b) = true := by
  rw [lt_iff_signedKey binary32 (by decide) a b na nb]
  have ea := EncodeFloat_eq a ha na
  have eb := EncodeFloat_eq b hb nb
  have ra := signedKey_range binary32 a na
  have rb := signedKey_range binary32 b nb
  have eI : (((2 ^ binary32.ebits - 1) * 2 ^ binary32.mbits : Nat) : Int) = 2139095040 := by
    decide
  rw [eI] at ra rb
  zify
  rw [ea, eb]
  split_ifs <;> omega

theorem EncodeDouble_lt_iff (a b : Nat) (ha : a < 2 ^ 64) (hb : b < 2 ^ 64)
    (na : binary64.isNaN a = false) (nb : binary64.isNaN b = false) :
    EncodeDouble a < EncodeDouble b ↔ (binary64.decode a).lt (binary64.decode b) = true := by
  rw [lt_iff_signedKey binary64 (by decide) a b na nb]
  have ea := EncodeDouble_eq a ha na
  have eb := EncodeDouble_eq b hb nb
  have ra := signedKey_range binary64 a na
  have rb := signedKey_range binary64 b nb
  have eI : (((2 ^ binary64.ebits - 1) * 2 ^ binary64.mbits : Nat) : Int)
      = 9218868437227405312 := by decide
  rw [eI] at ra rb
  zify
  rw [ea, eb]
  split_ifs <;> omega

theorem EncodeFloat_lt (x : Nat) : EncodeFloat x < 2 ^ 32 := by
  unfold EncodeFloat
  have h : ∀ n : Nat, n % 2 ^ 32 < 2 ^ 32 := fun n => Nat.mod_lt _ (by norm_num)
  split_ifs <;> first | exact h _ | (simp [UINT_MAX])

theorem EncodeDouble_lt (x : Nat) : EncodeDouble x < 2 ^ 64 := by
  unfold EncodeDouble
  have h : ∀ n : Nat, n % 2 ^ 64 < 2 ^ 64 := fun n => Nat.mod_lt _ (by norm_num)
  have hx : (x % 2 ^ 64) ^^^ (2 ^ 64 - 1) < 2 ^ 64 :=
    Nat.xor_lt_two_pow (h x) (by norm_num)
  dsimp only
  split_ifs <;> first | exact h _ | exact hx | (simp [ULLONG_MAX])

theorem EncodeData_float_eq (le : Bool) (x : Nat) :
    EncodeData_float le x = beBytes 4 (EncodeFloat x) := by
  unfold EncodeData_float
  have := store_bswap32 le (EncodeFloat x : Int)
  rw [toUnsigned_natCast 32 _ (EncodeFloat_lt x)] at this
  exact this

theorem EncodeData_double_eq (le : Bool) (x : Nat) :
    EncodeData_double le x = beBytes 8 (EncodeDouble x) := by
  unfold EncodeData_double
  have := store_bswap64 le (EncodeDouble x : Int)
  rw [toUnsigned_natCast 64 _ (EncodeDouble_lt x)] at this
  exact this

theorem int8_order (a b : Int) (ha : -128 ≤ a) (ha' : a < 128)
    (hb : -128 ≤ b) (hb' : b < 128) :
    (memcmp (EncodeData_int8 a) (EncodeData_int8 b) < 0 ↔ a < b) := by
  unfold EncodeData_int8
  have e : ∀ u, [u] = beBytes 1 u ∨ True := fun _ => Or.inr trivial
  have e1 : ∀ v : Int, [toUnsigned 8 v] = beBytes 1 (toUnsigned 8 v) := by
    intro v
    have := toUnsigned_lt 8 v
    simp only [beBytes, pow_zero, Nat.div_one]
    congr 1
    omega
  rw [e1, e1, flipFirst_beBytes, flipFirst_beBytes, memcmp_beBytes]
  have := biased_lt_iff 8 128 (by norm_num) a b (by simpa using ha) (by simpa using ha')
    (by simpa using hb) (by simpa using hb')
  norm_num at this ⊢
  exact this

theorem int32_order (le : Bool) (a b : Int) (ha : -2147483648 ≤ a) (ha' : a < 2147483648)
    (hb : -2147483648 ≤ b) (hb' : b < 2147483648) :
    (memcmp (EncodeData_int32 le a) (EncodeData_int32 le b) < 0 ↔ a < b) := by
  unfold EncodeData_int32
  rw [store_bswap32, store_bswap32, flipFirst_beBytes, flipFirst_beBytes, memcmp_beBytes]
  have := biased_lt_iff 32 2147483648 (by norm_num) a b (by simpa using ha) (by simpa using ha')
    (by simpa using hb) (by simpa using hb')
  norm_num at this ⊢
  exact this

theorem int64_order (le : Bool) (a b : Int) (ha : -9223372036854775808 ≤ a)
    (ha' : a < 9223372036854775808)
    (hb : -9223372036854775808 ≤ b) (hb' : b < 9223372036854775808) :
    (memcmp (EncodeData_int64 le a) (EncodeData_int64 le b) < 0 ↔ a < b) := by
  unfold EncodeData_int64
  rw [store_bswap64, store_bswap64, flipFirst_beBytes, flipFirst_beBytes, memcmp_beBytes]
  have := biased_lt_iff 64 9223372036854775808 (by norm_num) a b (by simpa using ha)
    (by simpa using ha') (by simpa using hb) (by simpa using hb')
  norm_num at this ⊢
  exact this

theorem uint8_order (a b : Nat) (ha : a < 256) (hb : b < 256) :
    (memcmp (EncodeData_uint8 a) (EncodeData_uint8 b) < 0 ↔ a < b) := by
  unfold EncodeData_uint8
  rw [toUnsigned_natCast 8 a (by simpa using ha), toUnsigned_natCast 8 b (by simpa using hb)]
  simp only [memcmp]
  split_ifs <;> simp_all <;> omega

theorem uint16_order (le : Bool) (a b : Nat) (ha : a < 65536) (hb : b < 65536) :
    (memcmp (EncodeData_uint16 le a) (EncodeData_uint16 le b) < 0 ↔ a < b) := by
  unfold EncodeData_uint16
  rw [store_bswap16, store_bswap16, memcmp_beBytes,
    toUnsigned_natCast 16 a (by simpa using ha), toUnsigned_natCast 16 b (by simpa using hb)]
  norm_num
  rw [Nat.mod_eq_of_lt ha, Nat.mod_eq_of_lt hb]

theorem uint32_order (le : Bool) (a b : Nat) (ha : a < 4294967296) (hb : b < 4294967296) :
    (memcmp (EncodeData_uint32 le a) (EncodeData_uint32 le b) < 0 ↔ a < b) := by
  unfold EncodeData_uint32
  rw [store_bswap32, store_bswap32, memcmp_beBytes,
    toUnsigned_natCast 32 a (by simpa using ha), toUnsigned_natCast 32 b (by simpa using hb)]
  norm_num
  rw [Nat.mod_eq_of_lt ha, Nat.mod_eq_of_lt hb]

theorem uint64_order (le : Bool) (a b : Nat) (ha : a < 18446744073709551616)
    (hb : b < 18446744073709551616) :
    (memcmp (EncodeData_uint64 le a) (EncodeData_uint64 le b) < 0 ↔ a < b) := by
  unfold EncodeData_uint64
  rw [store_bswap64, store_bswap64, memcmp_beBytes,
    toUnsigned_natCast 64 a (by simpa using ha), toUnsigned_natCast 64 b (by simpa using hb)]
  norm_num
  rw [Nat.mod_eq_of_lt ha, Nat.mod_eq_of_lt hb]

theorem float_order (le : Bool) (a b : Nat) (ha : a < 2 ^ 32) (hb : b < 2 ^ 32)
    (na : binary32.isNaN a = false) (nb : binary32.isNaN b = false) :
    (memcmp (EncodeData_float le a) (EncodeData_float le b) < 0 ↔
      (binary32.decode a).lt (binary32.decode b) = true) := by
  rw [EncodeData_float_eq, EncodeData_float_eq, memcmp_beBytes, ← EncodeFloat_lt_iff a b ha hb na nb]
  have h1 := EncodeFloat_lt a
  have h2 := EncodeFloat_lt b
  norm_num at h1 h2 ⊢
  rw [Nat.mod_eq_of_lt h1, Nat.mod_eq_of_lt h2]

theorem double_order (le : Bool) (a b : Nat) (ha : a < 2 ^ 64) (hb : b < 2 ^ 64)
    (na : binary64.isNaN a = false) (nb : binary64.isNaN b = false) :
    (memcmp (EncodeData_double le a) (EncodeData_double le b) < 0 ↔
      (binary64.decode a).lt (binary64.decode b) = true) := by
  rw [EncodeData_double_eq, EncodeData_double_eq, memcmp_beBytes,
    ← EncodeDouble_lt_iff a b ha hb na nb]
  have h1 := EncodeDouble_lt a
  have h2 := EncodeDouble_lt b
  norm_num at h1 h2 ⊢
  rw [Nat.mod_eq_of_lt h1, Nat.mod_eq_of_lt h2]

theorem beBytes_length (n v : Nat) : (beBytes n v).length = n := by
  induction n with
  | zero => rfl
  | succ n ih => simp [beBytes, ih]

theorem flipFirst_length (l : List Nat) : (flipFirst l).length = l.length := by
  cases l <;> rfl

theorem int_lengths (le : Bool) (v : Int) :
    (EncodeData_int8 v).length = 1 ∧ (EncodeData_int16 le v).length = 2 ∧
    (EncodeData_int32 le v).length = 4 ∧ (EncodeData_int64 le v).length = 8 := by
  refine ⟨rfl, ?_, ?_, ?_⟩
  · simp [EncodeData_int16, store_bswap16, flipFirst_length, beBytes_length]
  · simp [EncodeData_int32, store_bswap32, flipFirst_length, beBytes_length]
  · simp [EncodeData_int64, store_bswap64, flipFirst_length, beBytes_length]

theorem uint_lengths (le : Bool) (v : Nat) :
    (EncodeData_uint8 v).length = 1 ∧ (EncodeData_uint16 le v).length = 2 ∧
    (EncodeData_uint32 le v).length = 4 ∧ (EncodeData_uint64 le v).length = 8 := by
  refine ⟨rfl, ?_, ?_, ?_⟩
  · simp [EncodeData_uint16, store_bswap16, beBytes_length]
  · simp [EncodeData_uint32, store_bswap32, beBytes_length]
  · simp [EncodeData_uint64, store_bswap64, beBytes_length]

/-- C1: for each integer type T among int8, int16, int32, int64, uint8, uint16, uint32 and
uint64, on a host of either byte order, `EncodeData` writes `sizeof(T)` bytes, and for all
values a, b of type T the bytes of a come before the bytes of b under `memcmp` exactly when
a < b. -/
theorem EncodeData_integer_order (is_little_endian : Bool) :
    (∀ a b : Int, -128 ≤ a → a < 128 → -128 ≤ b → b < 128 →
      (EncodeData_int8 a).length = 1 ∧
      (memcmp (EncodeData_int8 a) (EncodeData_int8 b) < 0 ↔ a < b)) ∧
    (∀ a b : Int, -32768 ≤ a → a < 32768 → -32768 ≤ b → b < 32768 →
      (EncodeData_int16 is_little_endian a).length = 2 ∧
      (memcmp (EncodeData_int16 is_little_endian a) (EncodeData_int16 is_little_endian b) < 0
        ↔ a < b)) ∧
    (∀ a b : Int, -2147483648 ≤ a → a < 2147483648 → -2147483648 ≤ b → b < 2147483648 →
      (EncodeData_int32 is_little_endian a).length = 4 ∧
      (memcmp (EncodeData_int32 is_little_endian a) (EncodeData_int32 is_little_endian b) < 0
        ↔ a < b)) ∧
    (∀ a b : Int, -9223372036854775808 ≤ a → a < 9223372036854775808 →
      -9223372036854775808 ≤ b → b < 9223372036854775808 →
      (EncodeData_int64 is_little_endian a).length = 8 ∧
      (memcmp (EncodeData_int64 is_little_endian a) (EncodeData_int64 is_little_endian b) < 0
        ↔ a < b)) ∧
    (∀ a b : Nat, a < 256 → b < 256 →
      (EncodeData_uint8 a).length = 1 ∧
      (memcmp (EncodeData_uint8 a) (EncodeData_uint8 b) < 0 ↔ a < b)) ∧
    (∀ a b : Nat, a < 65536 → b < 65536 →
      (EncodeData_uint16 is_little_endian a).length = 2 ∧
      (memcmp (EncodeData_uint16 is_little_endian a) (EncodeData_uint16 is_little_endian b) < 0
        ↔ a < b)) ∧
    (∀ a b : Nat, a < 4294967296 → b < 4294967296 →
      (EncodeData_uint32 is_little_endian a).length = 4 ∧
      (memcmp (EncodeData_uint32 is_little_endian a) (EncodeData_uint32 is_little_endian b) < 0
        ↔ a < b)) ∧
    (∀ a b : Nat, a < 18446744073709551616 → b < 18446744073709551616 →
      (EncodeData_uint64 is_little_endian a).length = 8 ∧
      (memcmp (EncodeData_uint64 is_little_endian a) (EncodeData_uint64 is_little_endian b) < 0
        ↔ a < b)) :=
  ⟨fun a b h1 h2 h3 h4 => ⟨(int_lengths is_little_endian a).1, int8_order a b h1 h2 h3 h4⟩,
   fun a b h1 h2 h3 h4 =>
    ⟨(int_lengths is_little_endian a).2.1, int16_order is_little_endian a b h1 h2 h3 h4⟩,
   fun a b h1 h2 h3 h4 =>
    ⟨(int_lengths is_little_endian a).2.2.1, int32_order is_little_endian a b h1 h2 h3 h4⟩,
   fun a b h1 h2 h3 h4 =>
    ⟨(int_lengths is_little_endian a).2.2.2, int64_order is_little_endian a b h1 h2 h3 h4⟩,
   fun a b h1 h2 => ⟨(uint_lengths is_little_endian a).1, uint8_order a b h1 h2⟩,
   fun a b h1 h2 =>
    ⟨(uint_lengths is_little_endian a).2.1, uint16_order is_little_endian a b h1 h2⟩,
   fun a b h1 h2 =>
    ⟨(uint_lengths is_little_endian a).2.2.1, uint32_order is_little_endian a b h1 h2⟩,
   fun a b h1 h2 =>
    ⟨(uint_lengths is_little_endian a).2.2.2, uint64_order is_little_endian a b h1 h2⟩⟩

/-- Witness of C1: the int32 values -5, 0 and 5 encode in strictly increasing byte order. -/
theorem EncodeData_integer_order_witness :
    memcmp (EncodeData_int32 true (-5)) (EncodeData_int32 true 0) < 0 ∧
    memcmp (EncodeData_int32 true 0) (EncodeData_int32 true 5) < 0 ∧
    EncodeData_int32 true (-5) = [127, 255, 255, 251] ∧
    EncodeData_int32 true 0 = [128, 0, 0, 0] ∧
    EncodeData_int32 true 5 = [128, 0, 0, 5] :=
  ⟨(((EncodeData_integer_order true).2.2.1 (-5) 0 (by decide) (by decide) (by decide)
      (by decide)).2).mpr (by decide),
   (((EncodeData_integer_order true).2.2.1 0 5 (by decide) (by decide) (by decide)
      (by decide)).2).mpr (by decide),
   by decide, by decide, by decide⟩

/-- C2: for non-NaN floats a, b (given by their bit patterns), and likewise for doubles, on a
host of either byte order, the bytes `EncodeData` writes for a come before those for b under
`memcmp` exactly when a < b as IEEE-754 values; -0 and +0 get the same bytes, -infinity the
all-zero bytes and +infinity the all-ones bytes. -/
theorem EncodeData_float_order (is_little_endian : Bool) :
    (∀ a b : Nat, a < 2 ^ 32 → b < 2 ^ 32 → binary32.isNaN a = false →
      binary32.isNaN b = false →
      (memcmp (EncodeData_float is_little_endian a) (EncodeData_float is_little_endian b) < 0
        ↔ (binary32.decode a).lt (binary32.decode b) = true)) ∧
    (∀ a b : Nat, a < 2 ^ 64 → b < 2 ^ 64 → binary64.isNaN a = false →
      binary64.isNaN b = false →
      (memcmp (EncodeData_double is_little_endian a) (EncodeData_double is_little_endian b) < 0
        ↔ (binary64.decode a).lt (binary64.decode b) = true)) ∧
    EncodeData_float is_little_endian 0x80000000 = EncodeData_float is_little_endian 0 ∧
    EncodeData_float is_little_endian 0xff800000 = [0, 0, 0, 0] ∧
    EncodeData_float is_little_endian 0x7f800000 = [255, 255, 255, 255] ∧
    EncodeData_double is_little_endian 0x8000000000000000
      = EncodeData_double is_little_endian 0 ∧
    EncodeData_double is_little_endian 0xfff0000000000000 = [0, 0, 0, 0, 0, 0, 0, 0] ∧
    EncodeData_double is_little_endian 0x7ff0000000000000
      = [255, 255, 255, 255, 255, 255, 255, 255] := by
  refine ⟨fun a b h1 h2 h3 h4 => float_order is_little_endian a b h1 h2 h3 h4,
    fun a b h1 h2 h3 h4 => double_order is_little_endian a b h1 h2 h3 h4, ?_, ?_, ?_, ?_, ?_, ?_⟩
    <;> cases is_little_endian <;> decide

/-- Witness of C2: the doubles -1.0, -0.0, 0.0 and 1.0 satisfy
encode(-1.0) < encode(-0.0) == encode(0.0) < encode(1.0). -/
theorem EncodeData_float_order_witness :
    memcmp (EncodeData_double true 0xbff0000000000000)
      (EncodeData_double true 0x8000000000000000) < 0 ∧
    EncodeData_double true 0x8000000000000000 = EncodeData_double true 0 ∧
    memcmp (EncodeData_double true 0) (EncodeData_double true 0x3ff0000000000000) < 0 :=
  ⟨((EncodeData_float_order true).2.1 0xbff0000000000000 0x8000000000000000 (by decide)
      (by decide) (by decide) (by decide)).mpr
      ((lt_iff_signedKey binary64 (by decide) _ _ (by decide) (by decide)).mpr (by decide)),
   (EncodeData_float_order true).2.2.2.2.2.1,
   ((EncodeData_float_order true).2.1 0 0x3ff0000000000000 (by decide)
      (by decide) (by decide) (by decide)).mpr
      ((lt_iff_signedKey binary64 (by decide) _ _ (by decide) (by decide)).mpr (by decide))⟩

theorem forLoop_zero {σ : Type} (body : Nat → σ → σ) (init : σ) : forLoop 0 body init = init := rfl

theorem forLoop_succ {σ : Type} (n : Nat) (body : Nat → σ → σ) (init : σ) :
    forLoop (n + 1) body init = body n (forLoop n body init) := by
  simp [forLoop, List.range_succ, List.foldl_append]

theorem objectBytes_length (size : Nat) (value : List Nat) :
    (objectBytes size value).length = size := by
  simp [objectBytes]

theorem objectBytes_self (value : List Nat) : objectBytes value.length value = value := by
  apply List.ext_getElem
  · simp [objectBytes]
  · intro i h1 h2
    simp [objectBytes, List.getD_eq_getElem _ _ h2, List.getElem?_eq_getElem h2]

theorem forLoop_induction {σ : Type} (P : Nat → σ → Prop) (n : Nat) (body : Nat → σ → σ)
    (init : σ) (h0 : P 0 init) (hstep : ∀ k, k < n → ∀ s, P k s → P (k + 1) (body k s)) :
    P n (forLoop n body init) := by
  induction n with
  | zero => exact h0
  | succ n ih =>
    rw [forLoop_succ]
    exact hstep n (Nat.lt_succ_self n) _
      (ih (fun k hk s hs => hstep k (Nat.lt_succ_of_lt hk) s hs))

theorem read_write_same (mem : Memory) (p : Nat) (bs : List Nat) :
    (mem.write p bs).read p bs.length = bs := by
  apply List.ext_getElem
  · simp [Memory.read]
  · intro i h1 h2
    simp [Memory.read, Memory.write, h2, List.getD_eq_getElem _ _ h2]

theorem read_write_other (mem : Memory) (p q n : Nat) (bs : List Nat)
    (h : q + n ≤ p ∨ p + bs.length ≤ q) : (mem.write p bs).read q n = mem.read q n := by
  unfold Memory.read
  apply List.map_congr_left
  intro i hi
  have hi' : i < n := List.mem_range.mp hi
  unfold Memory.write
  rw [if_neg]
  omega

theorem read_setAt_other (mem : Memory) (a x q n : Nat) (h : a < q ∨ q + n ≤ a) :
    Memory.read (setAt mem a x) q n = mem.read q n := by
  unfold Memory.read
  apply List.map_congr_left
  intro i hi
  have hi' : i < n := List.mem_range.mp hi
  unfold setAt
  rw [if_neg]
  omega

theorem Load_Store_same (size : Nat) (value : List Nat) (p : Nat) (mem : Memory) :
    Load size p (Store size value p mem) = objectBytes size value := by
  unfold Load Store
  have := read_write_same mem p (objectBytes size value)
  rwa [objectBytes_length] at this

theorem Load_Store_other (size : Nat) (value : List Nat) (p q : Nat) (mem : Memory)
    (h : q + size ≤ p ∨ p + size ≤ q) :
    Load size q (Store size value p mem) = Load size q mem := by
  unfold Load Store
  apply read_write_other
  rwa [objectBytes_length]

theorem Load_clearValidityBit (size : Nat) (mem : Memory) (a k q : Nat)
    (h : a < q ∨ q + size ≤ a) :
    Load size q (clearValidityBit mem a k) = Load size q mem := by
  unfold Load clearValidityBit
  exact read_setAt_other _ _ _ _ _ h

theorem setAt_advance (kl key_locations : Nat → Nat) (size k : Nat)
    (h : ∀ j, kl j = if j < k then key_locations j + size else key_locations j) :
    ∀ j, setAt kl k (kl k + size) j =
      if j < k + 1 then key_locations j + size else key_locations j := by
  intro j
  unfold setAt
  by_cases hj : j = k
  · subst hj; simp [h]
  · rw [if_neg hj, h]
    by_cases hj' : j < k
    · simp [hj', Nat.lt_succ_of_lt hj']
    · have : ¬ j < k + 1 := by omega
      simp [hj', this]

/-- State of the serialization loop after all rows. -/
theorem serialize_invariant (size : Nat) (vdata : VectorData) (sel : Nat → Nat) (count : Nat)
    (col_idx : Nat) (key_locations : Nat → Nat) (vm : Option (Nat → Nat)) (mem : Memory)
    (hslots : ∀ i, i < count → ∀ j, j < count → i ≠ j →
      key_locations i + size ≤ key_locations j ∨ key_locations j + size ≤ key_locations i)
    (hmask : ∀ m, vm = some m → ∀ i, i < count → ∀ j, j < count →
      m i + col_idx / 8 < key_locations j ∨ key_locations j + size ≤ m i + col_idx / 8) :
    ∀ j, j < count →
      Load size (key_locations j)
        (TemplatedSerializeVData size vdata sel count col_idx key_locations vm mem).1
      = objectBytes size (vdata.data (vdata.sel (sel j))) := by
  have main : (fun (k : Nat) (s : Memory × (Nat → Nat)) =>
      (∀ j, s.2 j = if j < k then key_locations j + size else key_locations j) ∧
      (∀ j, j < k → Load size (key_locations j) s.1
        = objectBytes size (vdata.data (vdata.sel (sel j))))) count
      (TemplatedSerializeVData size vdata sel count col_idx key_locations vm mem) := by
    have hstore : ∀ k, k < count → ∀ s : Memory × (Nat → Nat),
        (∀ j, s.2 j = if j < k then key_locations j + size else key_locations j) →
        (∀ j, j < k → Load size (key_locations j) s.1
          = objectBytes size (vdata.data (vdata.sel (sel j)))) →
        ∀ j, j < k + 1 → Load size (key_locations j)
          (Store size (vdata.data (vdata.sel (sel k))) (s.2 k) s.1)
          = objectBytes size (vdata.data (vdata.sel (sel j))) := by
      intro k hk s h1 h2 j hj
      have e : s.2 k = key_locations k := by rw [h1]; simp
      rw [e]
      by_cases hjk : j = k
      · subst hjk
        exact Load_Store_same _ _ _ _
      · rw [Load_Store_other _ _ _ _ _ (hslots j (by omega) k (by omega) hjk)]
        exact h2 j (by omega)
    cases vm with
    | none =>
      unfold TemplatedSerializeVData
      apply forLoop_induction
      · simp
      · rintro k hk s ⟨h1, h2⟩
        exact ⟨setAt_advance _ _ _ _ h1, hstore k hk s h1 h2⟩
    | some m =>
      unfold TemplatedSerializeVData
      apply forLoop_induction
      · simp
      · rintro k hk s ⟨h1, h2⟩
        have hm := hmask m rfl
        dsimp only
        split
        · refine ⟨setAt_advance _ _ _ _ h1, ?_⟩
          intro j hj
          dsimp only
          rw [Load_clearValidityBit _ _ _ _ _ (hm k (by omega) j (by omega))]
          exact hstore k hk s h1 h2 j hj
        · exact ⟨setAt_advance _ _ _ _ h1, hstore k hk s h1 h2⟩
  exact main.2

theorem deserialize_invariant (size : Nat) (v : Vector) (count col_idx : Nat)
    (key_locations : Nat → Nat) (vm : Nat → Nat) (mem : Memory) :
    ∀ j, j < count →
      (TemplatedDeserializeIntoVector size v count col_idx key_locations vm mem).1.data j
        = Load size (key_locations j) mem := by
  have main : (fun (k : Nat) (s : Vector × (Nat → Nat)) =>
      (∀ j, s.2 j = if j < k then key_locations j + size else key_locations j) ∧
      (∀ j, j < k → s.1.data j = Load size (key_locations j) mem)) count
      (TemplatedDeserializeIntoVector size v count col_idx key_locations vm mem) := by
    unfold TemplatedDeserializeIntoVector
    refine forLoop_induction (fun (k : Nat) (s : Vector × (Nat → Nat)) =>
      (∀ j, s.2 j = if j < k then key_locations j + size else key_locations j) ∧
      (∀ j, j < k → s.1.data j = Load size (key_locations j) mem)) count _ _ ?_ ?_
    · simp
    · rintro k hk s ⟨h1, h2⟩
      refine ⟨setAt_advance _ _ _ _ h1, ?_⟩
      intro j hj
      have e : s.2 k = key_locations k := by rw [h1]; simp
      dsimp only
      unfold setAt
      by_cases hjk : j = k
      · subst hjk; simp [e]
      · rw [if_neg hjk]
        exact h2 j (by omega)
  exact main.2

theorem templated_roundtrip (size : Nat) (vdata : VectorData) (sel : Nat → Nat) (count : Nat)
    (col_idx : Nat) (key_locations : Nat → Nat) (vm : Option (Nat → Nat)) (mem : Memory)
    (v : Vector) (vm2 : Nat → Nat)
    (htyped : ∀ i, i < count → (vdata.data (vdata.sel (sel i))).length = size)
    (hslots : ∀ i, i < count → ∀ j, j < count → i ≠ j →
      key_locations i + size ≤ key_locations j ∨ key_locations j + size ≤ key_locations i)
    (hmask : ∀ m, vm = some m → ∀ i, i < count → ∀ j, j < count →
      m i + col_idx / 8 < key_locations j ∨ key_locations j + size ≤ m i + col_idx / 8) :
    ∀ i, i < count →
      (TemplatedDeserializeIntoVector size v count col_idx key_locations vm2
        (TemplatedSerializeVData size vdata sel count col_idx key_locations vm mem).1).1.data i
      = vdata.data (vdata.sel (sel i)) := by
  intro i hi
  rw [deserialize_invariant _ _ _ _ _ _ _ i hi,
    serialize_invariant size vdata sel count col_idx key_locations vm mem hslots hmask i hi]
  have := htyped i hi
  rw [← this]
  exact objectBytes_self _

/-- C3: for every fixed-width physical type handled by `SerializeVectorData`, every source
vector whose selected values have the type's size, every `sel`, `vdata.sel` and `count`, and
row slots that overlap neither each other nor the validity bytes, serializing and then
deserializing from the same start positions succeeds and gives
`target[i] == source[vdata.sel[sel[i]]]` for every `i < count`. -/
theorem row_roundtrip_fixed_width (little_endian : Bool) (type : PhysicalType) (size : Nat)
    (vdata : VectorData) (sel : Nat → Nat) (count col_idx : Nat) (key_locations : Nat → Nat)
    (validitymask_locations : Option (Nat → Nat)) (mem : Memory) (v : Vector)
    (read_validitymask_locations : Nat → Nat)
    (hsize : fixedWidth type = some size)
    (htyped : ∀ i, i < count → (vdata.data (vdata.sel (sel i))).length = size)
    (hslots : ∀ i, i < count → ∀ j, j < count → i ≠ j →
      key_locations i + size ≤ key_locations j ∨ key_locations j + size ≤ key_locations i)
    (hmask : ∀ m, validitymask_locations = some m → ∀ i, i < count → ∀ j, j < count →
      m i + col_idx / 8 < key_locations j ∨ key_locations j + size ≤ m i + col_idx / 8) :
    ∃ mem1 kl1 v1 kl2,
      SerializeVectorData little_endian vdata type sel count col_idx key_locations
        validitymask_locations mem = .ok (mem1, kl1) ∧
      DeserializeIntoVectorData little_endian v type count col_idx key_locations
        read_validitymask_locations mem1 = .ok (v1, kl2) ∧
      ∀ i, i < count → v1.data i = vdata.data (vdata.sel (sel i)) := by
  have key := templated_roundtrip size vdata sel count col_idx key_locations
    validitymask_locations mem v read_validitymask_locations htyped hslots hmask
  cases type <;> simp only [fixedWidth, Option.some.injEq, reduceCtorEq] at hsize <;> subst hsize <;>
    exact ⟨_, _, _, _, rfl, rfl, key⟩

/-- Witness of C3: two INT32 rows, selected in reverse order, written to the slots at
addresses 16 and 32 with the validity bytes at addresses 0 and 1. -/
theorem row_roundtrip_fixed_width_witness :
    ∃ mem1 kl1 v1 kl2,
      SerializeVectorData true
        ⟨fun i => if i = 0 then [1, 2, 3, 4] else [5, 6, 7, 8], fun i => i, fun _ => true⟩
        .INT32 (fun i => 1 - i) 2 0 (fun i => 16 + 16 * i) (some (fun i => i)) (fun _ => 255)
        = .ok (mem1, kl1) ∧
      DeserializeIntoVectorData true ⟨fun _ => [], fun _ => false⟩ .INT32 2 0
        (fun i => 16 + 16 * i) (fun i => i) mem1 = .ok (v1, kl2) ∧
      ∀ i, i < 2 → v1.data i
        = (fun i => if i = 0 then [1, 2, 3, 4] else [5, 6, 7, 8]) ((fun i => i) ((fun i => 1 - i) i)) :=
  row_roundtrip_fixed_width true .INT32 4
    ⟨fun i => if i = 0 then [1, 2, 3, 4] else [5, 6, 7, 8], fun i => i, fun _ => true⟩
    (fun i => 1 - i) 2 0 (fun i => 16 + 16 * i) (some (fun i => i)) (fun _ => 255)
    ⟨fun _ => [], fun _ => false⟩ (fun i => i) rfl
    (by intro i hi; dsimp only; split <;> rfl)
    (by intro i hi j hj hij; dsimp only; omega)
    (by intro m hm i hi j hj; cases hm; dsimp only; omega)

/-- C4, evaluated on a failing input: an INT8 vector whose row 0 is valid and whose row 1 is
NULL, with `sel` selecting row 1 for output row 0. The value written for output row 0 is the
one of source row 1, which is NULL, but the output row is marked valid, because the code
tests the validity of row `i` where it serialized row `vdata.sel[sel[i]]`. -/
theorem validity_of_unselected_row :
    (rowRoundTrip true ⟨fun i => [10 + i], fun i => i, fun i => decide (i ≠ 1)⟩ .INT8
        (fun _ => 1) 1 0 (fun _ => 8) (fun _ => 0) (fun _ => 255)
        ⟨fun _ => [], fun _ => false⟩).map (fun v => (v.data 0, v.validity 0))
      = .ok ([11], true) ∧
    (⟨fun i => [10 + i], fun i => i, fun i => decide (i ≠ 1)⟩ : VectorData).validity
      ((fun i => i) ((fun _ => 1) 0)) = false := by
  constructor
  · rfl
  · rfl

/-- C5, evaluated on a failing input: a VARCHAR vector holding "a" in row 0 and "b" in row 1,
with `sel` selecting row 1 for output row 0. The string serialized and recovered for output
row 0 is "a", the one at source index `vdata.sel[0]`, not "b", the one at
`vdata.sel[sel[0]]`: the VARCHAR case never reads `sel`. -/
theorem varchar_ignores_sel :
    (rowRoundTrip true ⟨fun i => if i = 0 then [97] else [98], fun i => i, fun _ => true⟩
        .VARCHAR (fun _ => 1) 1 0 (fun _ => 8) (fun _ => 0) (fun _ => 255)
        ⟨fun _ => [], fun _ => false⟩).map (fun v => v.data 0)
      = .ok [97] ∧
    (⟨fun i => if i = 0 then [97] else [98], fun i => i, fun _ => true⟩ : VectorData).data
      ((fun i => i) ((fun _ => 1) 0)) = [98] := by
  constructor
  · rfl
  · rfl

theorem range_map_split (f : Nat → Pointer) (a r : Nat) (h : a ≤ r) :
    (List.range a).map f ++ (List.range (r - a)).map (fun i => f (a + i)) = (List.range r).map f := by
  have e : r = a + (r - a) := by omega
  conv_rhs => rw [e, List.range_add, List.map_append, List.map_map]
  rfl

theorem packedBlocks_aligned (cap c : Nat) (h : c % cap = 0) :
    packedBlocks cap c = List.replicate (c / cap) ⟨cap, cap⟩ := by
  simp [packedBlocks, h]

theorem packedBlocks_length_aligned (cap c : Nat) (h : c % cap = 0) :
    (packedBlocks cap c).length = c / cap := by
  simp [packedBlocks_aligned cap c h]

/-- Filling a block of an aligned allocator with `a` rows, `1 ≤ a ≤ cap`. -/
theorem packedBlocks_extend (cap c a : Nat) (hcap : 1 ≤ cap) (h : c % cap = 0) (ha : 1 ≤ a)
    (ha' : a ≤ cap) :
    List.replicate (c / cap) (⟨cap, cap⟩ : RowDataBlock) ++ [⟨cap, a⟩] = packedBlocks cap (c + a) := by
  unfold packedBlocks
  rcases Nat.eq_or_lt_of_le ha' with e | e
  · subst e
    have h1 : (c + a) / a = c / a + 1 := by
      rw [Nat.add_div_right _ (by omega)]
    have h2 : (c + a) % a = 0 := by
      rw [Nat.add_mod_right]; exact h
    rw [h1, h2, if_pos rfl, List.append_nil, List.replicate_succ']
  · have h1 : (c + a) / cap = c / cap := by
      have := Nat.div_add_mod c cap
      rw [h] at this
      have hc : c = cap * (c / cap) := by omega
      conv_lhs => rw [hc]
      rw [Nat.mul_add_div (by omega), Nat.div_eq_of_lt e]; simp
    have h2 : (c + a) % cap = a := by
      rw [Nat.add_mod, h, Nat.zero_add, Nat.mod_mod, Nat.mod_eq_of_lt e]
    rw [h1, h2, if_neg (by omega)]

theorem expandEntry_aligned (cap es c a : Nat) (hcap : 1 ≤ cap) (h : c % cap = 0) (ha' : a ≤ cap) :
    expandEntry es ⟨⟨c / cap, 0 * es⟩, a⟩ = (List.range a).map (fun i => slotPointer cap es (c + i)) := by
  unfold expandEntry
  apply List.map_congr_left
  intro i hi
  have hi' : i < a := List.mem_range.mp hi
  have hc : c = cap * (c / cap) := by
    have := Nat.div_add_mod c cap
    omega
  have h1 : (c + i) / cap = c / cap := by
    conv_lhs => rw [hc]
    rw [Nat.mul_add_div (by omega), Nat.div_eq_of_lt (show i < cap by omega)]; simp
  have h2 : (c + i) % cap = i := by
    rw [Nat.add_mod, h, Nat.zero_add, Nat.mod_mod, Nat.mod_eq_of_lt (by omega)]
  simp [slotPointer, h1, h2]

theorem buildLoop_packed (cap es : Nat) (hcap : 1 ≤ cap) :
    ∀ (fuel c r : Nat) (entries : List BlockAppendEntry), r ≤ fuel → (r = 0 ∨ c % cap = 0) →
      ∃ E, buildLoop cap es fuel (packedBlocks cap c) entries r
          = some (packedBlocks cap (c + r), entries ++ E) ∧
        (E.map (expandEntry es)).flatten
          = (List.range r).map (fun i => slotPointer cap es (c + i)) ∧
        E.length = (r + cap - 1) / cap := by
  intro fuel
  induction fuel with
  | zero =>
    intro c r entries hr _
    have : r = 0 := by omega
    subst this
    refine ⟨[], ?_, ?_, ?_⟩
    · simp [buildLoop]
    · simp
    · exact (Nat.div_eq_of_lt (by omega)).symm
  | succ fuel ih =>
    intro c r entries hr hal
    by_cases hr0 : r = 0
    · subst hr0
      refine ⟨[], ?_, ?_, ?_⟩
      · simp [buildLoop]
      · simp
      · exact (Nat.div_eq_of_lt (by omega)).symm
    · have hc : c % cap = 0 := by omega
      have ha1 : 1 ≤ min r cap := by omega
      have ha2 : min r cap ≤ cap := by omega
      have hnext : r - min r cap = 0 ∨ (c + min r cap) % cap = 0 := by
        by_cases hrc : r ≤ cap
        · left; omega
        · right
          have : min r cap = cap := by omega
          rw [this, Nat.add_mod_right]; exact hc
      obtain ⟨E, hE, hP, hL⟩ := ih (c + min r cap) (r - min r cap)
        (entries ++ [⟨⟨c / cap, 0 * es⟩, min r cap⟩]) (by omega) hnext
      refine ⟨⟨⟨c / cap, 0 * es⟩, min r cap⟩ :: E, ?_, ?_, ?_⟩
      · rw [buildLoop]
        simp only [gt_iff_lt, Nat.pos_of_ne_zero hr0, if_true, AppendToBlock, Nat.sub_zero,
          Nat.zero_add, packedBlocks_length_aligned cap c hc]
        rw [packedBlocks_aligned cap c hc, packedBlocks_extend cap c _ hcap hc ha1 ha2, hE]
        have : c + min r cap + (r - min r cap) = c + r := by omega
        rw [this]
        simp
      · simp only [List.map_cons, List.flatten_cons, hP,
          expandEntry_aligned cap es c _ hcap hc ha2]
        have := range_map_split (fun i => slotPointer cap es (c + i)) (min r cap) r (by omega)
        simp only [← this, Nat.add_assoc]
      · simp only [List.length_cons, hL]
        by_cases hrc : r ≤ cap
        · have e1 : min r cap = r := by omega
          rw [e1]
          have : (r + cap - 1) / cap = 1 := by
            apply Nat.div_eq_of_lt_le <;> omega
          rw [this]
          simp
          apply Nat.div_eq_of_lt; omega
        · have e1 : min r cap = cap := by omega
          rw [e1]
          have : r + cap - 1 = (r - cap + cap - 1) + cap := by omega
          rw [this, Nat.add_div_right _ (by omega)]

theorem div_mod_of_lt (cap q x : Nat) (hx : x < cap) :
    (cap * q + x) / cap = q ∧ (cap * q + x) % cap = x := by
  constructor
  · rw [Nat.mul_add_div (by omega), Nat.div_eq_of_lt hx]; simp
  · rw [Nat.mul_add_mod, Nat.mod_eq_of_lt hx]

/-- Topping up the partly filled last block with `a` rows. -/
theorem packedBlocks_top_up (cap c a : Nat) (hcap : 1 ≤ cap) (hm : c % cap ≠ 0)
    (ha : a ≤ cap - c % cap) :
    List.replicate (c / cap) (⟨cap, cap⟩ : RowDataBlock) ++ [⟨cap, c % cap + a⟩]
      = packedBlocks cap (c + a) := by
  have hml := Nat.mod_lt c (show 0 < cap by omega)
  have hc := Nat.div_add_mod c cap
  unfold packedBlocks
  generalize c / cap = q at *
  generalize c % cap = m at *
  subst hc
  rcases Nat.eq_or_lt_of_le ha with e | e
  · have e' : cap * q + m + a = cap * (q + 1) + 0 := by
      rw [Nat.mul_add, Nat.mul_one]; omega
    have h := div_mod_of_lt cap (q + 1) 0 (by omega)
    rw [e', h.1, h.2, if_pos rfl, List.append_nil, List.replicate_succ']
    have : m + a = cap := by omega
    rw [this]
  · have e' : cap * q + m + a = cap * q + (m + a) := by omega
    have h := div_mod_of_lt cap q (m + a) (by omega)
    rw [e', h.1, h.2, if_neg (by omega)]

theorem expandEntry_top_up (cap es c a : Nat) (hcap : 1 ≤ cap) (ha : a ≤ cap - c % cap) :
    expandEntry es ⟨⟨c / cap, c % cap * es⟩, a⟩
      = (List.range a).map (fun i => slotPointer cap es (c + i)) := by
  unfold expandEntry
  apply List.map_congr_left
  intro i hi
  have hi' : i < a := List.mem_range.mp hi
  have hml := Nat.mod_lt c (show 0 < cap by omega)
  have hc := Nat.div_add_mod c cap
  have h := div_mod_of_lt cap (c / cap) (c % cap + i) (by omega)
  have e' : c + i = cap * (c / cap) + (c % cap + i) := by omega
  simp only [slotPointer]
  rw [e', h.1, h.2, Nat.add_mul]

theorem Build_packed (cap es fuel c n : Nat) (hcap : 1 ≤ cap) (hfuel : n ≤ fuel) :
    Build fuel ⟨c, cap, es, packedBlocks cap c⟩ n
      = some ⟨⟨(c + n) % 2 ^ 64, cap, es, packedBlocks cap (c + n)⟩, c,
          (List.range n).map (fun i => slotPointer cap es (c + i))⟩ := by
  by_cases hm : c % cap = 0
  · -- the last block, if any, is full
    obtain ⟨E, hE, hP, _⟩ := buildLoop_packed cap es hcap fuel c n [] hfuel (Or.inr hm)
    have hfirst : appendToLastBlock ⟨c, cap, es, packedBlocks cap c⟩ n
        = (packedBlocks cap c, [], n) := by
      unfold appendToLastBlock
      simp only [packedBlocks_aligned cap c hm, List.getLast?_replicate]
      by_cases hq : c / cap = 0
      · simp [hq]
      · simp [hq]
    unfold Build
    simp only [hfirst, hE, List.nil_append, hP]
  · have hml := Nat.mod_lt c (show 0 < cap by omega)
    have ha : min n (cap - c % cap) ≤ cap - c % cap := Nat.min_le_right _ _
    have hnext : n - min n (cap - c % cap) = 0 ∨ (c + min n (cap - c % cap)) % cap = 0 := by
      by_cases hn : n ≤ cap - c % cap
      · left; omega
      · right
        have e1 : min n (cap - c % cap) = cap - c % cap := by omega
        have hc := Nat.div_add_mod c cap
        have e2 : c + (cap - c % cap) = cap * (c / cap + 1) + 0 := by
          rw [Nat.mul_add, Nat.mul_one]; omega
        rw [e1, e2]
        exact (div_mod_of_lt cap _ 0 (by omega)).2
    obtain ⟨E, hE, hP, _⟩ := buildLoop_packed cap es hcap fuel (c + min n (cap - c % cap))
      (n - min n (cap - c % cap)) [⟨⟨c / cap, c % cap * es⟩, min n (cap - c % cap)⟩]
      (by omega) hnext
    have hshape : packedBlocks cap c
        = List.replicate (c / cap) ⟨cap, cap⟩ ++ [⟨cap, c % cap⟩] := by
      simp [packedBlocks, hm]
    have hfirst : appendToLastBlock ⟨c, cap, es, packedBlocks cap c⟩ n
        = (packedBlocks cap (c + min n (cap - c % cap)),
            [⟨⟨c / cap, c % cap * es⟩, min n (cap - c % cap)⟩],
            n - min n (cap - c % cap)) := by
      unfold appendToLastBlock
      simp only [hshape, List.getLast?_concat]
      simp only [hml, if_true, AppendToBlock, List.dropLast_concat, List.length_append,
        List.length_replicate, List.length_singleton, Nat.add_sub_cancel, List.nil_append]
      rw [packedBlocks_top_up cap c _ hcap hm ha]
    unfold Build
    simp only [hfirst, hE]
    have e3 : c + min n (cap - c % cap) + (n - min n (cap - c % cap)) = c + n := by omega
    simp only [List.map_append, List.flatten_append, List.map_cons, List.map_nil,
      List.flatten_cons, List.flatten_nil, List.append_nil, hP,
      expandEntry_top_up cap es c _ hcap ha, e3]
    have := range_map_split (fun i => slotPointer cap es (c + i)) (min n (cap - c % cap)) n
      (by omega)
    simp only [← this, Nat.add_assoc]

theorem buildLoop_fuel_mono (cap es : Nat) :
    ∀ (fuel : Nat) (blocks : List RowDataBlock) (entries : List BlockAppendEntry) (r : Nat)
      (x : List RowDataBlock × List BlockAppendEntry),
      buildLoop cap es fuel blocks entries r = some x →
      ∀ fuel2, fuel ≤ fuel2 → buildLoop cap es fuel2 blocks entries r = some x := by
  intro fuel
  induction fuel with
  | zero =>
    intro blocks entries r x h fuel2 _
    unfold buildLoop at h ⊢
    by_cases hr : r > 0
    · simp [hr] at h
    · simpa [hr] using h
  | succ fuel ih =>
    intro blocks entries r x h fuel2 hle
    by_cases hr : r > 0
    · obtain ⟨f2, rfl⟩ : ∃ f2, fuel2 = f2 + 1 := ⟨fuel2 - 1, by omega⟩
      unfold buildLoop at h ⊢
      simp only [hr, if_true] at h ⊢
      exact ih _ _ _ _ h f2 (by omega)
    · unfold buildLoop at h ⊢
      simpa [hr] using h

theorem Build_fuel_mono (fuel fuel2 : Nat) (rc : Allocator) (n : Nat) (r : BuildResult)
    (h : Build fuel rc n = some r) (hle : fuel ≤ fuel2) : Build fuel2 rc n = some r := by
  unfold Build at h ⊢
  dsimp only at h ⊢
  cases hl : buildLoop rc.block_capacity rc.entry_size fuel (appendToLastBlock rc n).1
      (appendToLastBlock rc n).2.1 (appendToLastBlock rc n).2.2 with
  | none => rw [hl] at h; simp at h
  | some x =>
    rw [hl] at h
    rw [buildLoop_fuel_mono _ _ _ _ _ _ _ hl fuel2 hle]
    exact h

theorem packedBlocks_zero (cap : Nat) : packedBlocks cap 0 = [] := by
  simp [packedBlocks]

theorem packedBlocks_sum (cap c : Nat) :
    ((packedBlocks cap c).map RowDataBlock.count).sum = c := by
  unfold packedBlocks
  have := Nat.div_add_mod c cap
  by_cases h : c % cap = 0
  · simp only [h, if_true, List.append_nil, List.map_replicate, List.sum_replicate,
      smul_eq_mul]
    rw [h] at this
    rw [Nat.mul_comm]; omega
  · simp only [h, if_false, List.map_append, List.map_replicate, List.sum_append,
      List.sum_replicate, smul_eq_mul, List.map_cons, List.map_nil, List.sum_cons, List.sum_nil]
    rw [Nat.mul_comm]; omega

theorem packedBlocks_le (cap c : Nat) (hcap : 1 ≤ cap) :
    ∀ b ∈ packedBlocks cap c, b.CAPACITY = cap ∧ b.count ≤ b.CAPACITY := by
  intro b hb
  unfold packedBlocks at hb
  rw [List.mem_append] at hb
  rcases hb with hb | hb
  · rw [List.eq_of_mem_replicate hb]; exact ⟨rfl, le_rfl⟩
  · split at hb
    · simp at hb
    · simp only [List.mem_singleton] at hb
      subst hb
      exact ⟨rfl, le_of_lt (Nat.mod_lt _ (by omega))⟩

theorem packedBlocks_full (cap c : Nat) :
    ∀ b ∈ (packedBlocks cap c).dropLast, b.count = b.CAPACITY := by
  intro b hb
  unfold packedBlocks at hb
  split at hb
  · rw [List.append_nil] at hb
    have := List.mem_of_mem_dropLast hb
    rw [List.eq_of_mem_replicate this]
  · rw [List.dropLast_concat] at hb
    rw [List.eq_of_mem_replicate hb]

/-- State reached from a packed allocator by a sequence of `Build` calls. -/
theorem buildAll_packed (cap es fuel : Nat) (hcap : 1 ≤ cap) :
    ∀ (ns : List Nat) (c : Nat) (rc : Allocator), c + ns.sum < 2 ^ 64 →
      buildAll fuel ⟨c, cap, es, packedBlocks cap c⟩ ns = some rc →
      rc = ⟨c + ns.sum, cap, es, packedBlocks cap (c + ns.sum)⟩ := by
  intro ns
  induction ns with
  | nil =>
    intro c rc _ h
    simp only [buildAll, Option.some.injEq] at h
    simp [← h]
  | cons n rest ih =>
    intro c rc hsum h
    simp only [List.sum_cons] at hsum
    simp only [buildAll] at h
    cases hb : Build fuel ⟨c, cap, es, packedBlocks cap c⟩ n with
    | none => rw [hb] at h; simp at h
    | some r =>
      rw [hb] at h
      have h2 := Build_fuel_mono fuel (max fuel n) _ n r hb (le_max_left _ _)
      rw [Build_packed cap es (max fuel n) c n hcap (le_max_right _ _)] at h2
      simp only [Option.some.injEq] at h2
      subst h2
      simp only [Nat.mod_eq_of_lt (show c + n < 2 ^ 64 by omega)] at h
      have := ih (c + n) rc (by omega) h
      rw [this]
      simp [Nat.add_assoc]

theorem buildAll_packed_some (cap es fuel : Nat) (hcap : 1 ≤ cap) :
    ∀ (ns : List Nat) (c : Nat), c + ns.sum < 2 ^ 64 → (∀ n ∈ ns, n ≤ fuel) →
      buildAll fuel ⟨c, cap, es, packedBlocks cap c⟩ ns
        = some ⟨c + ns.sum, cap, es, packedBlocks cap (c + ns.sum)⟩ := by
  intro ns
  induction ns with
  | nil => intro c _ _; simp [buildAll]
  | cons n rest ih =>
    intro c hsum hfuel
    simp only [List.sum_cons] at hsum
    simp only [buildAll]
    rw [Build_packed cap es fuel c n hcap (hfuel n (List.mem_cons_self _ _))]
    simp only [Nat.mod_eq_of_lt (show c + n < 2 ^ 64 by omega)]
    rw [ih (c + n) (by omega) (fun m hm => hfuel m (List.mem_cons_of_mem _ hm))]
    simp [Nat.add_assoc]

/-- C6: for every `block_capacity >= 1` and every sequence of calls `Build(n_1)`,
`Build(n_2)`, ... on a freshly constructed RowChunk whose total stays in the range of
`idx_t`, after each call (that is, after the first `k` calls, for every `k`) the calls have
returned, `count` equals the sum of the `n_i` requested so far and the sum of `block.count`
over all blocks, and every block satisfies `block.count <= block.CAPACITY`. -/
theorem Build_conservation (block_capacity entry_size fuel : Nat) (ns : List Nat) (k : Nat)
    (hcap : 1 ≤ block_capacity) (hfuel : ∀ n ∈ ns, n ≤ fuel) (hrange : ns.sum < 2 ^ 64) :
    ∃ rc, buildAll fuel (Allocator.new block_capacity entry_size) (ns.take k) = some rc ∧
      rc.count = (ns.take k).sum ∧
      (rc.blocks.map RowDataBlock.count).sum = (ns.take k).sum ∧
      ∀ b ∈ rc.blocks, b.count ≤ b.CAPACITY := by
  have hsum : 0 + (ns.take k).sum < 2 ^ 64 := by
    have := List.sum_take_add_sum_drop ns k
    omega
  have hnew : Allocator.new block_capacity entry_size
      = ⟨0, block_capacity, entry_size, packedBlocks block_capacity 0⟩ := by
    simp [Allocator.new, packedBlocks_zero]
  refine ⟨⟨0 + (ns.take k).sum, block_capacity, entry_size,
    packedBlocks block_capacity (0 + (ns.take k).sum)⟩, ?_, ?_, ?_, ?_⟩
  · rw [hnew]
    exact buildAll_packed_some block_capacity entry_size fuel hcap (ns.take k) 0 hsum
      (fun n hn => hfuel n (List.mem_of_mem_take hn))
  · simp
  · simp [packedBlocks_sum]
  · intro b hb
    exact (packedBlocks_le block_capacity _ hcap b hb).2

/-- Witness of C6: capacity 4 and the calls Build(6), Build(0), Build(3). -/
theorem Build_conservation_witness :
    ∃ rc, buildAll 6 (Allocator.new 4 8) ([6, 0, 3].take 3) = some rc ∧
      rc.count = ([6, 0, 3].take 3).sum ∧
      (rc.blocks.map RowDataBlock.count).sum = ([6, 0, 3].take 3).sum ∧
      ∀ b ∈ rc.blocks, b.count ≤ b.CAPACITY :=
  Build_conservation 4 8 6 [6, 0, 3] 3 (by decide) (by decide) (by decide)

/-- C7: on a RowChunk with `block_capacity = cap >= 1` reached from empty by `Build` calls
only (the total staying in the range of `idx_t`), `Build(n)` returns the row counter before
the call and writes exactly `n` pointers, pointer `i` addressing block number
`(start + i) / cap` at byte offset `((start + i) mod cap) * entry_size`; afterwards every
block except possibly the last is full. -/
theorem Build_layout (cap entry_size fuel : Nat) (ns : List Nat) (n : Nat) (rc : Allocator)
    (hcap : 1 ≤ cap) (hreach : buildAll fuel (Allocator.new cap entry_size) ns = some rc)
    (hfuel : n ≤ fuel) (hrange : ns.sum + n < 2 ^ 64) :
    ∃ r, Build fuel rc n = some r ∧
      r.starting_count = rc.count ∧
      r.key_locations.length = n ∧
      r.key_locations = (List.range n).map
        (fun i => (⟨(rc.count + i) / cap, (rc.count + i) % cap * entry_size⟩ : Pointer)) ∧
      ∀ b ∈ r.chunk.blocks.dropLast, b.count = b.CAPACITY := by
  have hnew : Allocator.new cap entry_size = ⟨0, cap, entry_size, packedBlocks cap 0⟩ := by
    simp [Allocator.new, packedBlocks_zero]
  rw [hnew] at hreach
  have hrc := buildAll_packed cap entry_size fuel hcap ns 0 rc (by omega) hreach
  subst hrc
  refine ⟨_, Build_packed cap entry_size fuel _ n hcap hfuel, rfl, by simp, rfl, ?_⟩
  exact packedBlocks_full cap _

/-- Witness of C7: capacity 4 and entry size 8; `Build(6)` on an empty allocator returns 0,
makes two blocks holding 4 and 2 rows, and gives 6 pointers 8 bytes apart within their
block. -/
theorem Build_layout_witness :
    (∃ r, Build 6 (Allocator.new 4 8) 6 = some r ∧
      r.starting_count = (Allocator.new 4 8).count ∧
      r.key_locations.length = 6 ∧
      r.key_locations = (List.range 6).map
        (fun i => (⟨((Allocator.new 4 8).count + i) / 4,
          ((Allocator.new 4 8).count + i) % 4 * 8⟩ : Pointer)) ∧
      ∀ b ∈ r.chunk.blocks.dropLast, b.count = b.CAPACITY) ∧
    Build 6 (Allocator.new 4 8) 6
      = some ⟨⟨6, 4, 8, [⟨4, 4⟩, ⟨4, 2⟩]⟩, 0,
          [⟨0, 0⟩, ⟨0, 8⟩, ⟨0, 16⟩, ⟨0, 24⟩, ⟨1, 0⟩, ⟨1, 8⟩]⟩ :=
  ⟨Build_layout 4 8 6 [] 6 (Allocator.new 4 8) (by decide) rfl (by decide) (by decide),
   by decide⟩

end RowChunk

namespace Checkpoint

open RowChunk (Exception PhysicalType)

theorem constructDataPointer_spec (st : ColumnCheckpointState) (segment : ColumnSegment)
    (block_id : Int) (offset tuple_count : Nat) :
    constructDataPointer st segment block_id offset tuple_count
      = { st with
          new_tree := st.new_tree ++ [segment]
          data_pointers := st.data_pointers ++ [⟨segment.stats, block_id, offset,
            nextRowStart st, tuple_count, segment.function.type⟩] } := by
  unfold constructDataPointer nextRowStart
  rfl

/-- How a completed `FlushSegment` call ends: the segment was empty and nothing changed, or
the index entry was built on a state with the same index list. -/
theorem FlushSegment_cases (env : Environment) (st st1 : ColumnCheckpointState)
    (segment : ColumnSegment) (segment_size : Nat)
    (h : FlushSegment env st segment segment_size = (st1, .ok ())) :
    (segment.count = 0 ∧ st1 = st) ∨
    (segment.count ≠ 0 ∧ ∃ (st2 : ColumnCheckpointState) (seg2 : ColumnSegment) (b : Int)
      (o : Nat), st1 = constructDataPointer st2 seg2 b o segment.count ∧
        st2.row_group_start = st.row_group_start ∧ st2.data_pointers = st.data_pointers) := by
  unfold FlushSegment at h
  by_cases ha : D_ASSERT env (decide (segment_size ≤ env.BLOCK_SIZE)) = true
  swap
  · simp [ha] at h
  by_cases h0 : segment.count = 0
  · simp only [ha, h0, Bool.not_true, Bool.false_eq_true, if_false, if_true, Prod.mk.injEq,
      and_true] at h
    exact Or.inl ⟨h0, h.symm⟩
  right
  refine ⟨h0, ?_⟩
  simp only [ha, h0, Bool.not_true, Bool.false_eq_true, if_false] at h
  cases hm : env.Merge st.global_stats segment.stats with
  | error e => simp [hm] at h
  | ok merged =>
    simp only [hm] at h
    by_cases hc : segment.stats.is_constant = true
    · simp only [hc, Bool.not_true, Bool.false_eq_true, if_false, Prod.mk.injEq, and_true] at h
      exact ⟨_, _, _, _, h.symm, rfl, rfl⟩
    · simp only [hc, Bool.not_false, if_true] at h
      cases hp : (env.GetBlockAllocation st.calls segment_size).partial_block with
      | some pstate =>
        simp only [hp] at h
        split at h
        · simp at h
        · simp only [Prod.mk.injEq, and_true] at h
          exact ⟨_, _, _, _, h.symm, rfl, rfl⟩
      | none =>
        simp only [hp] at h
        split at h
        · simp at h
        · split at h
          · simp at h
          · simp only [Prod.mk.injEq, and_true] at h
            refine ⟨_, _, _, _, h.symm, ?_, ?_⟩
            · simp only; split <;> rfl
            · simp only; split <;> rfl

theorem rowRanges_append (start : Nat) (cs : List Nat) (c : Nat) :
    rowRanges start (cs ++ [c]) = rowRanges start cs ++ [(start + cs.sum, c)] := by
  induction cs generalizing start with
  | nil => simp [rowRanges]
  | cons x xs ih => simp [rowRanges, ih, Nat.add_assoc]

theorem rowRanges_snd (start : Nat) (cs : List Nat) :
    (rowRanges start cs).map Prod.snd = cs := by
  induction cs generalizing start with
  | nil => rfl
  | cons x xs ih => simp [rowRanges, ih]

theorem rowRanges_chain (start : Nat) (cs : List Nat) (hpos : ∀ c ∈ cs, 0 < c) :
    List.Chain' (fun a b : Nat × Nat => b.1 = a.1 + a.2 ∧ a.1 < b.1) (rowRanges start cs) := by
  induction cs generalizing start with
  | nil => simp [rowRanges]
  | cons x xs ih =>
    cases xs with
    | nil => simp [rowRanges]
    | cons y ys =>
      have h1 := ih (start + x) (fun c hc => hpos c (List.mem_cons_of_mem _ hc))
      have hx := hpos x (List.mem_cons_self _ _)
      simp only [rowRanges] at h1 ⊢
      exact List.Chain'.cons ⟨rfl, by omega⟩ h1

theorem chain_getElem? {α : Type} (R : α → α → Prop) (l : List α) (h : List.Chain' R l) :
    ∀ (i : Nat) (p q : α), l[i]? = some p → l[i + 1]? = some q → R p q := by
  induction l with
  | nil => intro i p q hp; simp at hp
  | cons x xs ih =>
    intro i p q hp hq
    cases xs with
    | nil => simp at hq
    | cons y ys =>
      rw [List.chain'_cons] at h
      cases i with
      | zero =>
        simp at hp hq
        subst hp; subst hq
        exact h.1
      | succ i =>
        rw [List.getElem?_cons_succ] at hp hq
        exact ih h.2 i p q hp hq

theorem nextRowStart_of_ranges (st : ColumnCheckpointState) (cs : List Nat)
    (h : st.data_pointers.map (fun p => (p.row_start, p.tuple_count))
      = rowRanges st.row_group_start cs)
    (hrange : st.row_group_start + cs.sum < 2 ^ 64) :
    nextRowStart st = st.row_group_start + cs.sum := by
  unfold nextRowStart
  rcases List.eq_nil_or_concat cs with hcs | ⟨cs1, c, hcs⟩
  · subst hcs
    simp only [rowRanges, List.map_eq_nil_iff] at h
    simp [h]
  · subst hcs
    rw [List.concat_eq_append] at h hrange ⊢
    rw [rowRanges_append] at h
    rcases List.eq_nil_or_concat st.data_pointers with hd | ⟨d1, p, hd⟩
    · rw [hd] at h; simp at h
    · rw [List.concat_eq_append] at hd
      rw [hd] at h ⊢
      simp only [List.map_append, List.map_cons, List.map_nil] at h
      have h2 := List.append_inj' h (by simp)
      simp only [List.cons.injEq, Prod.mk.injEq, and_true] at h2
      simp only [List.getLast?_concat, List.sum_append, List.sum_cons, List.sum_nil] at hrange ⊢
      rw [h2.2.1, h2.2.2, Nat.mod_eq_of_lt (by omega)]
      omega

theorem flushAll_ranges (env : Environment) :
    ∀ (segs : List (ColumnSegment × Nat)) (st st1 : ColumnCheckpointState) (cs : List Nat),
      st.data_pointers.map (fun p => (p.row_start, p.tuple_count))
        = rowRanges st.row_group_start cs →
      flushAll env st segs = (st1, .ok ()) →
      st.row_group_start + cs.sum + (segs.map (fun s => s.1.count)).sum < 2 ^ 64 →
      st1.row_group_start = st.row_group_start ∧
      st1.data_pointers.map (fun p => (p.row_start, p.tuple_count))
        = rowRanges st.row_group_start
            (cs ++ (segs.map (fun s => s.1.count)).filter (fun c => c ≠ 0)) := by
  intro segs
  induction segs with
  | nil =>
    intro st st1 cs h hrun _
    simp only [flushAll, Prod.mk.injEq, and_true] at hrun
    subst hrun
    simpa using h
  | cons s rest ih =>
    intro st st1 cs h hrun hrange
    obtain ⟨segment, segment_size⟩ := s
    simp only [flushAll] at hrun
    simp only [List.map_cons, List.sum_cons] at hrange
    cases hf : FlushSegment env st segment segment_size with
    | mk st2 res =>
      rw [hf] at hrun
      cases res with
      | error e => simp at hrun
      | ok u =>
        simp only at hrun
        rcases FlushSegment_cases env st st2 segment segment_size hf with ⟨h0, he⟩ | ⟨h0, hx⟩
        · subst he
          have := ih st2 st1 cs h hrun (by omega)
          simpa [h0] using this
        · obtain ⟨st3, seg3, b, o, he, hs, hd⟩ := hx
          have hn := nextRowStart_of_ranges st cs h (by omega)
          have hn3 : nextRowStart st3 = nextRowStart st := by
            simp only [nextRowStart, hd, hs]
          have hst2 : st2.row_group_start = st.row_group_start := by
            rw [he, constructDataPointer_spec]; exact hs
          have hmap : st2.data_pointers.map (fun p => (p.row_start, p.tuple_count))
              = rowRanges st2.row_group_start (cs ++ [segment.count]) := by
            rw [hst2, rowRanges_append, he, constructDataPointer_spec]
            simp only [List.map_append, List.map_cons, List.map_nil, hd, h, hn3, hn]
          have := ih st2 st1 (cs ++ [segment.count]) hmap hrun (by
            rw [hst2]; simp only [List.sum_append, List.sum_cons, List.sum_nil]; omega)
          rw [hst2] at this
          refine ⟨this.1, ?_⟩
          rw [this.2]
          simp [h0]

/-- C8: after any sequence of completed `FlushSegment` calls on one column that starts from
an empty index and stays in the range of row numbers, `data_pointers` has exactly one entry
per flushed segment with non-zero row count, in flush order, with `tuple_count` equal to that
segment's count; `row_start` of entry 0 equals `row_group.start`, and entry `i + 1` starts at
`row_start[i] + tuple_count[i]`, which is strictly above `row_start[i]`. -/
theorem FlushSegment_index_contiguity (env : Environment) (st st1 : ColumnCheckpointState)
    (segs : List (ColumnSegment × Nat))
    (hempty : st.data_pointers = [])
    (hrun : flushAll env st segs = (st1, .ok ()))
    (hrange : st.row_group_start + (segs.map (fun s => s.1.count)).sum < 2 ^ 64) :
    st1.data_pointers.map DataPointer.tuple_count
      = (segs.map (fun s => s.1.count)).filter (fun c => c ≠ 0) ∧
    (∀ p, st1.data_pointers[0]? = some p → p.row_start = st.row_group_start) ∧
    (∀ i p q, st1.data_pointers[i]? = some p → st1.data_pointers[i + 1]? = some q →
      q.row_start = p.row_start + p.tuple_count ∧ p.row_start < q.row_start) := by
  have h0 : st.data_pointers.map (fun p => (p.row_start, p.tuple_count))
      = rowRanges st.row_group_start [] := by
    simp [hempty, rowRanges]
  obtain ⟨_, hmap⟩ := flushAll_ranges env segs st st1 [] h0 hrun (by simpa using hrange)
  rw [List.nil_append] at hmap
  have hpos : ∀ c ∈ (segs.map (fun s => s.1.count)).filter (fun c => c ≠ 0), 0 < c := by
    intro c hc
    have := (List.mem_filter.mp hc).2
    simp at this
    omega
  refine ⟨?_, ?_, ?_⟩
  · have := congrArg (List.map Prod.snd) hmap
    rw [rowRanges_snd, List.map_map] at this
    exact this
  · intro p hp
    have h1 : (st1.data_pointers.map (fun p => (p.row_start, p.tuple_count)))[0]?
        = some (p.row_start, p.tuple_count) := by
      rw [List.getElem?_map, hp]; rfl
    rw [hmap] at h1
    cases hc : (segs.map (fun s => s.1.count)).filter (fun c => c ≠ 0) with
    | nil => rw [hc] at h1; simp [rowRanges] at h1
    | cons c cs =>
      rw [hc] at h1
      simp only [rowRanges, List.getElem?_cons_zero, Option.some.injEq, Prod.mk.injEq] at h1
      exact h1.1.symm
  · intro i p q hp hq
    have hchain := rowRanges_chain st.row_group_start _ hpos
    rw [← hmap] at hchain
    have h1 : (st1.data_pointers.map (fun p => (p.row_start, p.tuple_count)))[i]?
        = some (p.row_start, p.tuple_count) := by
      rw [List.getElem?_map, hp]; rfl
    have h2 : (st1.data_pointers.map (fun p => (p.row_start, p.tuple_count)))[i + 1]?
        = some (q.row_start, q.tuple_count) := by
      rw [List.getElem?_map, hq]; rfl
    exact chain_getElem? _ _ hchain i _ _ h1 h2

/-- Witness of C8: segments of 10, 0, 5 and 7 rows, the third one constant. -/
theorem FlushSegment_index_contiguity_witness :
    (flushAll witnessEnv witnessState
      [(witnessSegment 1 10 false, 100), (witnessSegment 2 0 false, 100),
       (witnessSegment 3 5 true, 100), (witnessSegment 4 7 false, 100)]).1.data_pointers.map
        DataPointer.tuple_count
      = ([(witnessSegment 1 10 false, 100), (witnessSegment 2 0 false, 100),
          (witnessSegment 3 5 true, 100), (witnessSegment 4 7 false, 100)].map
            (fun s => s.1.count)).filter (fun c => c ≠ 0) ∧
    (flushAll witnessEnv witnessState
      [(witnessSegment 1 10 false, 100), (witnessSegment 2 0 false, 100),
       (witnessSegment 3 5 true, 100), (witnessSegment 4 7 false, 100)]).1.data_pointers.map
        DataPointer.row_start = [1000, 1010, 1015] :=
  ⟨(FlushSegment_index_contiguity witnessEnv witnessState _
      [(witnessSegment 1 10 false, 100), (witnessSegment 2 0 false, 100),
       (witnessSegment 3 5 true, 100), (witnessSegment 4 7 false, 100)] rfl rfl
      (by decide)).1, by decide⟩

/-- C9: for every segment with non-zero row count whose statistics report a constant value,
`FlushSegment` makes no call other than `ConvertToPersistent(nullptr, INVALID_BLOCK)` (so
neither `GetBlockAllocation` nor `RegisterPartialBlock`, and no `memcpy`); when the entry
assertion holds and the statistics merge succeeds, it returns normally, having set the
segment's compression function to the constant-compression function and appended an index
entry with block id `INVALID_BLOCK`, offset 0 and the constant compression tag. -/
theorem FlushSegment_constant (env : Environment) (st : ColumnCheckpointState)
    (segment : ColumnSegment) (segment_size : Nat)
    (hcount : segment.count ≠ 0) (hconst : segment.stats.is_constant = true) :
    (∀ c, c ∈ (FlushSegment env st segment segment_size).1.calls →
      c ∈ st.calls ∨ c = Call.ConvertToPersistent segment.id false INVALID_BLOCK) ∧
    (∀ merged, (env.DEBUG = false ∨ segment_size ≤ env.BLOCK_SIZE) →
      env.Merge st.global_stats segment.stats = .ok merged →
      ∃ st1 p, FlushSegment env st segment segment_size = (st1, .ok ()) ∧
        st1.calls = st.calls ++ [Call.ConvertToPersistent segment.id false INVALID_BLOCK] ∧
        st1.new_tree = st.new_tree ++ [{ segment with
          function := GetCompressionFunction .COMPRESSION_CONSTANT segment.type }] ∧
        st1.data_pointers = st.data_pointers ++ [p] ∧
        p.block_id = INVALID_BLOCK ∧ p.offset = 0 ∧
        p.compression_type = .COMPRESSION_CONSTANT ∧ p.tuple_count = segment.count ∧
        p.statistics = segment.stats) := by
  constructor
  · intro c hc
    unfold FlushSegment at hc
    simp only [hcount, hconst, constructDataPointer_spec, Bool.not_true, Bool.false_eq_true,
      if_false] at hc
    split at hc
    · exact Or.inl hc
    · split at hc
      · exact Or.inl hc
      · simp only [List.mem_append, List.mem_singleton] at hc
        exact hc
  · intro merged hassert hmerge
    have ha : D_ASSERT env (decide (segment_size ≤ env.BLOCK_SIZE)) = true := by
      unfold D_ASSERT
      rcases hassert with h | h
      · simp [h]
      · simp [h]
    have hF : FlushSegment env st segment segment_size
        = ({ st with
              global_stats := merged
              calls := st.calls ++ [Call.ConvertToPersistent segment.id false INVALID_BLOCK]
              new_tree := st.new_tree ++ [{ segment with
                function := GetCompressionFunction .COMPRESSION_CONSTANT segment.type }]
              data_pointers := st.data_pointers ++ [⟨segment.stats, INVALID_BLOCK, 0,
                nextRowStart st, segment.count, .COMPRESSION_CONSTANT⟩] }, .ok ()) := by
      unfold FlushSegment
      simp only [ha, hcount, hconst, hmerge, constructDataPointer_spec, Bool.not_true,
        Bool.false_eq_true, if_false]
      rfl
    exact ⟨_, _, hF, rfl, rfl, rfl, rfl, rfl, rfl, rfl, rfl⟩

/-- Witness of C9: a constant segment of 5 rows flushed into the witness state. -/
theorem FlushSegment_constant_witness :
    ∃ st1 p, FlushSegment witnessEnv witnessState (witnessSegment 3 5 true) 100
        = (st1, .ok ()) ∧
      st1.calls = witnessState.calls ++ [Call.ConvertToPersistent 3 false INVALID_BLOCK] ∧
      st1.data_pointers = witnessState.data_pointers ++ [p] ∧
      p.block_id = INVALID_BLOCK ∧ p.offset = 0 ∧
      p.compression_type = .COMPRESSION_CONSTANT :=
  match (FlushSegment_constant witnessEnv witnessState (witnessSegment 3 5 true) 100
      (by decide) rfl).2 ⟨false, 3⟩ (Or.inr (by decide)) rfl with
  | ⟨st1, p, h1, h2, _, h4, h5, h6, h7, _, _⟩ => ⟨st1, p, h1, h2, h4, h5, h6, h7⟩

/-- C10: for every segment whose row count is zero, `FlushSegment` leaves the checkpoint
state unchanged: `data_pointers`, the new segment tree, the global statistics and the list of
calls made to the partial block manager are as before; the call returns normally whenever
its entry assertion holds. -/
theorem FlushSegment_empty (env : Environment) (st : ColumnCheckpointState)
    (segment : ColumnSegment) (segment_size : Nat) (hcount : segment.count = 0) :
    (FlushSegment env st segment segment_size).1 = st ∧
    ((env.DEBUG = false ∨ segment_size ≤ env.BLOCK_SIZE) →
      FlushSegment env st segment segment_size = (st, .ok ())) := by
  unfold FlushSegment
  constructor
  · simp only [hcount, if_true]
    split <;> rfl
  · intro hassert
    have ha : D_ASSERT env (decide (segment_size ≤ env.BLOCK_SIZE)) = true := by
      unfold D_ASSERT
      rcases hassert with h | h
      · simp [h]
      · simp [h]
    simp [ha, hcount]

/-- Witness of C10: an empty segment flushed into the witness state. -/
theorem FlushSegment_empty_witness :
    (FlushSegment witnessEnv witnessState (witnessSegment 2 0 false) 100).1 = witnessState ∧
    FlushSegment witnessEnv witnessState (witnessSegment 2 0 false) 100
      = (witnessState, .ok ()) :=
  ⟨(FlushSegment_empty witnessEnv witnessState (witnessSegment 2 0 false) 100 rfl).1,
   (FlushSegment_empty witnessEnv witnessState (witnessSegment 2 0 false) 100 rfl).2
     (Or.inr (by decide))⟩

end Checkpoint

namespace RowChunk

theorem forLoopM_ok {σ : Type} (n : Nat) (body : Nat → σ → Except Exception σ)
    (f : Nat → σ → σ) (init : σ) (h : ∀ i s, body i s = .ok (f i s)) :
    forLoopM n body init = .ok (forLoop n f init) := by
  unfold forLoopM forLoop
  induction n with
  | zero => rfl
  | succ n ih =>
    rw [List.range_succ, List.foldlM_append, ih, List.foldl_append]
    simp only [List.foldlM_cons, List.foldlM_nil, List.foldl_cons, List.foldl_nil, h]
    rfl

theorem forLoopM_first_error {σ : Type} (n : Nat) (body : Nat → σ → Except Exception σ)
    (init : σ) (e : Exception) (hn : 1 ≤ n) (h : body 0 init = .error e) :
    forLoopM n body init = .error e := by
  obtain ⟨m, rfl⟩ : ∃ m, n = m + 1 := ⟨n - 1, by omega⟩
  unfold forLoopM
  rw [List.range_succ_eq_map, List.foldlM_cons, h]
  rfl

theorem decode_nan (f : FloatFormat) (x : Nat) (h : f.isNaN x = true) : f.decode x = .nan := by
  unfold FloatFormat.isNaN at h
  simp only [Bool.and_eq_true, decide_eq_true_eq] at h
  unfold FloatFormat.decode
  simp [h.1, h.2]

theorem lt_nan_right (a : FloatValue) : a.lt .nan = false := by
  cases a <;> rfl

theorem lt_nan_left (a : FloatValue) : FloatValue.lt .nan a = false := by
  cases a <;> rfl

theorem not_nan_of_lt_right (f : FloatFormat) (a : FloatValue) (x : Nat)
    (h : a.lt (f.decode x) = true) : f.isNaN x = false := by
  by_contra hn
  have hn' : f.isNaN x = true := by simpa using hn
  rw [decode_nan f x hn', lt_nan_right] at h
  exact Bool.false_ne_true h

theorem not_nan_of_lt_left (f : FloatFormat) (a : FloatValue) (x : Nat)
    (h : (f.decode x).lt a = true) : f.isNaN x = false := by
  by_contra hn
  have hn' : f.isNaN x = true := by simpa using hn
  rw [decode_nan f x hn', lt_nan_left] at h
  exact Bool.false_ne_true h

theorem EncodeFloat_clamp_high (x : Nat) (hx : x < 2 ^ 32)
    (h : (binary32.decode FLT_MAX).lt (binary32.decode x) = true) :
    EncodeFloat x = 0xffffffff := by
  have hn := not_nan_of_lt_right binary32 _ x h
  have hk := (lt_iff_signedKey binary32 (by decide) FLT_MAX x (by decide) hn).mp h
  have kmax : signedKey binary32 FLT_MAX = 2139095039 := by decide
  rw [kmax] at hk
  have := EncodeFloat_eq x hx hn
  rw [if_neg (by omega), if_pos hk] at this
  exact_mod_cast this

theorem EncodeFloat_clamp_low (x : Nat) (hx : x < 2 ^ 32)
    (h : (binary32.decode x).lt (binary32.decode NEG_FLT_MAX) = true) :
    EncodeFloat x = 0 := by
  have hn := not_nan_of_lt_left binary32 _ x h
  have hk := (lt_iff_signedKey binary32 (by decide) x NEG_FLT_MAX hn (by decide)).mp h
  have kmin : signedKey binary32 NEG_FLT_MAX = -2139095039 := by decide
  rw [kmin] at hk
  have := EncodeFloat_eq x hx hn
  rw [if_neg (by omega), if_neg (by omega), if_pos hk] at this
  exact_mod_cast this

theorem EncodeDouble_clamp_high (x : Nat) (hx : x < 2 ^ 64)
    (h : (binary64.decode DBL_MAX).lt (binary64.decode x) = true) :
    EncodeDouble x = 0xffffffffffffffff := by
  have hn := not_nan_of_lt_right binary64 _ x h
  have hk := (lt_iff_signedKey binary64 (by decide) DBL_MAX x (by decide) hn).mp h
  have kmax : signedKey binary64 DBL_MAX = 9218868437227405311 := by decide
  rw [kmax] at hk
  have := EncodeDouble_eq x hx hn
  rw [if_neg (by omega), if_pos hk] at this
  exact_mod_cast this

theorem EncodeDouble_clamp_low (x : Nat) (hx : x < 2 ^ 64)
    (h : (binary64.decode x).lt (binary64.decode NEG_DBL_MAX) = true) :
    EncodeDouble x = 0 := by
  have hn := not_nan_of_lt_left binary64 _ x h
  have hk := (lt_iff_signedKey binary64 (by decide) x NEG_DBL_MAX hn (by decide)).mp h
  have kmin : signedKey binary64 NEG_DBL_MAX = -9218868437227405311 := by decide
  rw [kmin] at hk
  have := EncodeDouble_eq x hx hn
  rw [if_neg (by omega), if_neg (by omega), if_pos hk] at this
  exact_mod_cast this

theorem EncodeDouble_max : EncodeDouble DBL_MAX = 0xffefffffffffffff ∧
    EncodeDouble NEG_DBL_MAX = 0x0010000000000000 := by
  have h1 := EncodeDouble_eq DBL_MAX (by decide) (by decide)
  have h2 := EncodeDouble_eq NEG_DBL_MAX (by decide) (by decide)
  have kmax : signedKey binary64 DBL_MAX = 9218868437227405311 := by decide
  have kmin : signedKey binary64 NEG_DBL_MAX = -9218868437227405311 := by decide
  rw [kmax] at h1
  rw [kmin] at h2
  norm_num at h1 h2
  constructor
  · exact_mod_cast h1
  · exact_mod_cast h2

/-- C17 as stated fails at the finite maximum: `EncodeFloat(FLT_MAX)` is `0xFF7FFFFF`, not the
maximum pattern `0xFFFFFFFF`, and `EncodeFloat(-FLT_MAX)` is `0x00800000`, not 0; likewise
`EncodeDouble(DBL_MAX)` and `EncodeDouble(-DBL_MAX)`. -/
theorem EncodeFloat_max_not_clamped :
    EncodeFloat FLT_MAX = 0xff7fffff ∧ EncodeFloat FLT_MAX ≠ 0xffffffff ∧
    EncodeFloat NEG_FLT_MAX = 0x00800000 ∧ EncodeFloat NEG_FLT_MAX ≠ 0 ∧
    EncodeDouble DBL_MAX = 0xffefffffffffffff ∧ EncodeDouble DBL_MAX ≠ 0xffffffffffffffff ∧
    EncodeDouble NEG_DBL_MAX = 0x0010000000000000 ∧ EncodeDouble NEG_DBL_MAX ≠ 0 := by
  have hd := EncodeDouble_max
  refine ⟨by decide, by decide, by decide, by decide, hd.1, ?_, hd.2, ?_⟩
  · rw [hd.1]; decide
  · rw [hd.2]; decide

/-- C17, amended: for every float `x` beyond the finite maximum, that is `x > FLT_MAX` or
`x < -FLT_MAX` (the infinities), `EncodeFloat(x)` is the maximum pattern `0xFFFFFFFF` when `x`
is positive and the minimum pattern 0 when `x` is negative; likewise `EncodeDouble` with
`DBL_MAX` and the 64-bit patterns. The finite maxima are not clamped: `FLT_MAX` encodes to
`0xFF7FFFFF` and `-FLT_MAX` to `0x00800000`, `DBL_MAX` to `0xFFEFFFFFFFFFFFFF` and `-DBL_MAX`
to `0x0010000000000000`. -/
theorem EncodeFloat_clamps_beyond_max :
    (∀ x, x < 2 ^ 32 → (binary32.decode FLT_MAX).lt (binary32.decode x) = true →
      EncodeFloat x = 0xffffffff) ∧
    (∀ x, x < 2 ^ 32 → (binary32.decode x).lt (binary32.decode NEG_FLT_MAX) = true →
      EncodeFloat x = 0) ∧
    (∀ x, x < 2 ^ 64 → (binary64.decode DBL_MAX).lt (binary64.decode x) = true →
      EncodeDouble x = 0xffffffffffffffff) ∧
    (∀ x, x < 2 ^ 64 → (binary64.decode x).lt (binary64.decode NEG_DBL_MAX) = true →
      EncodeDouble x = 0) ∧
    EncodeFloat 0x7f800000 = 0xffffffff ∧ EncodeFloat 0xff800000 = 0 ∧
    EncodeDouble 0x7ff0000000000000 = 0xffffffffffffffff ∧
    EncodeDouble 0xfff0000000000000 = 0 ∧
    EncodeFloat FLT_MAX = 0xff7fffff ∧ EncodeFloat NEG_FLT_MAX = 0x00800000 ∧
    EncodeDouble DBL_MAX = 0xffefffffffffffff ∧
    EncodeDouble NEG_DBL_MAX = 0x0010000000000000 :=
  ⟨EncodeFloat_clamp_high, EncodeFloat_clamp_low, EncodeDouble_clamp_high,
    EncodeDouble_clamp_low, by decide, by decide, by decide, by decide, by decide, by decide,
    EncodeDouble_max.1, EncodeDouble_max.2⟩

/-- Witness of C17: the clamping applied to the bit patterns of +infinity and -infinity. -/
theorem EncodeFloat_clamps_beyond_max_witness :
    EncodeFloat 0x7f800000 = 0xffffffff ∧ EncodeFloat 0xff800000 = 0 ∧
    EncodeDouble 0x7ff0000000000000 = 0xffffffffffffffff ∧
    EncodeDouble 0xfff0000000000000 = 0 :=
  ⟨EncodeFloat_clamps_beyond_max.1 0x7f800000 (by decide)
      ((lt_iff_signedKey binary32 (by decide) _ _ (by decide) (by decide)).mpr (by decide)),
   EncodeFloat_clamps_beyond_max.2.1 0xff800000 (by decide)
      ((lt_iff_signedKey binary32 (by decide) _ _ (by decide) (by decide)).mpr (by decide)),
   EncodeFloat_clamps_beyond_max.2.2.1 0x7ff0000000000000 (by decide)
      ((lt_iff_signedKey binary64 (by decide) _ _ (by decide) (by decide)).mpr (by decide)),
   EncodeFloat_clamps_beyond_max.2.2.2.1 0xfff0000000000000 (by decide)
      ((lt_iff_signedKey binary64 (by decide) _ _ (by decide) (by decide)).mpr (by decide))⟩

/-- C18 as stated fails: for the BOOL rows false (row 0) and true (row 1), written to the
addresses 0 and 8, `SerializeVectorSortable` with `has_null = false` writes the value bytes
`0x80` and `0x81`, while `EncodeData(bool)` produces `0x00` and `0x01`. -/
theorem bool_sortable_sign_flipped :
    (SerializeVectorSortable true witnessEncodeInterval witnessBools .BOOL (fun i => i) 2
        (fun i => 8 * i) false false (fun _ => 255)).map (fun r => (r.1 0, r.1 8))
      = .ok (0x80, 0x81) ∧
    EncodeData_bool false = [0x00] ∧ EncodeData_bool true = [0x01] := by
  refine ⟨rfl, rfl, rfl⟩

theorem write_singleton (mem : Memory) (p b : Nat) : mem.write p [b] = setAt mem p b := by
  funext a
  unfold Memory.write setAt
  by_cases h : a = p
  · subst h; simp
  · have : ¬ (p ≤ a ∧ a < p + [b].length) := by
      simp only [List.length_singleton]; omega
    rw [if_neg this, if_neg h]

theorem EncodeData_int8_bool (le : Bool) (b : Bool) :
    EncodeData_int8 (loadSigned le 1 [if b then 1 else 0]) = [if b then 0x81 else 0x80] := by
  cases le <;> cases b <;> decide

/-- C18, amended: for every BOOL column, whose rows hold the byte 1 for true and 0 for false,
and rows written to distinct addresses, `SerializeVectorSortable` with `has_null = false`
returns normally, writes for each row exactly one value byte and advances its key location by
one; the byte is the `int8_t` encoding of the value, `0x80` for false and `0x81` for true (so
false still sorts before true), not the byte `EncodeData(bool)` produces. -/
theorem bool_sortable_bytes (little_endian : Bool)
    (EncodeData_interval : List Nat → Except Exception (List Nat)) (vdata : VectorData)
    (value : Nat → Bool) (sel : Nat → Nat) (ser_count : Nat) (key_locations : Nat → Nat)
    (invert : Bool) (mem : Memory)
    (hbool : ∀ i, i < ser_count →
      vdata.data (vdata.sel (sel i)) = [if value i then 1 else 0])
    (hslots : ∀ i, i < ser_count → ∀ j, j < ser_count → i ≠ j →
      key_locations i ≠ key_locations j) :
    ∃ mem1 kl1,
      SerializeVectorSortable little_endian EncodeData_interval vdata .BOOL sel ser_count
        key_locations false invert mem = .ok (mem1, kl1) ∧
      (∀ i, i < ser_count →
        mem1 (key_locations i) = (if value i then 0x81 else 0x80) ∧
        kl1 i = key_locations i + 1) ∧
      (∀ a, (∀ i, i < ser_count → a ≠ key_locations i) → mem1 a = mem a) := by
  unfold SerializeVectorSortable TemplatedSerializeVectorSortable
  simp only [Bool.false_eq_true, if_false]
  rw [forLoopM_ok ser_count _ (fun i (s : Memory × (Nat → Nat)) =>
    (s.1.write (s.2 i) (EncodeData_int8 (loadSigned little_endian 1
      (vdata.data (vdata.sel (sel i))))), setAt s.2 i (s.2 i + 1))) _ (fun i s => rfl)]
  have main := forLoop_induction
    (fun (k : Nat) (s : Memory × (Nat → Nat)) =>
      (∀ j, s.2 j = if j < k then key_locations j + 1 else key_locations j) ∧
      (∀ j, j < k → s.1 (key_locations j) = (if value j then 0x81 else 0x80)) ∧
      (∀ a, (∀ i, i < k → a ≠ key_locations i) → s.1 a = mem a))
    ser_count
    (fun i (s : Memory × (Nat → Nat)) =>
      (s.1.write (s.2 i) (EncodeData_int8 (loadSigned little_endian 1
        (vdata.data (vdata.sel (sel i))))), setAt s.2 i (s.2 i + 1)))
    (mem, key_locations) (by simp) (by
      rintro k hk s ⟨h1, h2, h3⟩
      have e : s.2 k = key_locations k := by rw [h1]; simp
      refine ⟨setAt_advance _ _ _ _ h1, ?_, ?_⟩
      · intro j hj
        simp only [e, hbool k hk, EncodeData_int8_bool, write_singleton]
        unfold setAt
        by_cases hjk : j = k
        · subst hjk; simp
        · have hne := hslots j (by omega) k hk hjk
          rw [if_neg hne]
          exact h2 j (by omega)
      · intro a ha
        simp only [e, hbool k hk, EncodeData_int8_bool, write_singleton]
        unfold setAt
        rw [if_neg (ha k (by omega))]
        exact h3 a (fun i hi => ha i (by omega)))
  obtain ⟨h1, h2, h3⟩ := main
  exact ⟨_, _, rfl, fun i hi => ⟨h2 i hi, (h1 i).trans (if_pos hi)⟩, h3⟩

/-- Witness of C18: the BOOL rows false and true written to the addresses 0 and 8. -/
theorem bool_sortable_bytes_witness :
    ∃ mem1 kl1,
      SerializeVectorSortable true witnessEncodeInterval witnessBools .BOOL (fun i => i) 2
        (fun i => 8 * i) false false (fun _ => 255) = .ok (mem1, kl1) ∧
      (∀ i, i < 2 →
        mem1 ((fun i => 8 * i) i) = (if (fun i => decide (i = 1)) i then 0x81 else 0x80) ∧
        kl1 i = (fun i => 8 * i) i + 1) ∧
      (∀ a, (∀ i, i < 2 → a ≠ (fun i => 8 * i) i) → mem1 a = (fun _ => 255) a) :=
  bool_sortable_bytes true witnessEncodeInterval witnessBools (fun i => decide (i = 1))
    (fun i => i) 2 (fun i => 8 * i) false (fun _ => 255)
    (by
      intro i hi
      have : i = 0 ∨ i = 1 := by omega
      rcases this with h | h <;> subst h <;> rfl)
    (by intro i hi j hj hij; dsimp only; omega)

/-- C19, evaluated on a failing input: an INT8 vector whose row 0 is valid and whose row 1 is
NULL, serialized with `has_null = true` to the addresses 0 and 8. The flag byte written for
the valid row equals the one written for the NULL row: both are 1 with `invert = false` and
both are 0 with `invert = true`, because `valid` and `invalid` are initialized by the same
expression `invert ? 0 : 1`. -/
theorem validity_flag_same_for_null :
    witnessVector.validity 0 = true ∧ witnessVector.validity 1 = false ∧
    (SerializeVectorSortable true witnessEncodeInterval witnessVector .INT8 (fun i => i) 2
        (fun i => 8 * i) true false (fun _ => 255)).map (fun r => (r.1 0, r.1 8))
      = .ok (1, 1) ∧
    (SerializeVectorSortable true witnessEncodeInterval witnessVector .INT8 (fun i => i) 2
        (fun i => 8 * i) true true (fun _ => 255)).map (fun r => (r.1 0, r.1 8))
      = .ok (0, 0) := by
  refine ⟨rfl, rfl, rfl, rfl⟩

/-- C20 as stated fails: with `ser_count = 0` the INT128 case of `SerializeVectorSortable`
returns normally, with `has_null` set or not. -/
theorem int128_zero_rows_returns :
    (SerializeVectorSortable true witnessEncodeInterval witnessVector .INT128 (fun i => i) 0
        (fun i => 8 * i) false false (fun _ => 255)).map (fun r => (r.1 0, r.2 0))
      = .ok (255, 0) ∧
    (SerializeVectorSortable true witnessEncodeInterval witnessVector .INT128 (fun i => i) 0
        (fun i => 8 * i) true false (fun _ => 255)).map (fun r => (r.1 0, r.2 0))
      = .ok (255, 0) := by
  refine ⟨rfl, rfl⟩

/-- C20, amended: for every INT128 vector, every selection and every row count
`ser_count >= 1`, `SerializeVectorSortable` fails with a NotImplementedException, raised by
`EncodeData(hugeint_t)` on the first row; with `ser_count = 0` no row is encoded and the call
returns normally, leaving the memory and the key locations as they were. -/
theorem int128_sortable_rejected (little_endian : Bool)
    (EncodeData_interval : List Nat → Except Exception (List Nat)) (vdata : VectorData)
    (sel : Nat → Nat) (key_locations : Nat → Nat) (has_null invert : Bool) (mem : Memory) :
    (∀ ser_count, 1 ≤ ser_count →
      SerializeVectorSortable little_endian EncodeData_interval vdata .INT128 sel ser_count
        key_locations has_null invert mem = .error Exception.NotImplementedException) ∧
    SerializeVectorSortable little_endian EncodeData_interval vdata .INT128 sel 0
      key_locations has_null invert mem = .ok (mem, key_locations) := by
  constructor
  · intro ser_count hn
    unfold SerializeVectorSortable TemplatedSerializeVectorSortable
    cases has_null
    · simp only [Bool.false_eq_true, if_false]
      exact forLoopM_first_error ser_count _ _ _ hn rfl
    · simp only [if_true]
      exact forLoopM_first_error ser_count _ _ _ hn rfl
  · unfold SerializeVectorSortable TemplatedSerializeVectorSortable
    cases has_null <;> rfl

/-- Witness of C20: one INT128 row is rejected. -/
theorem int128_sortable_rejected_witness :
    SerializeVectorSortable true witnessEncodeInterval witnessVector .INT128 (fun i => i) 1
      (fun i => 8 * i) true false (fun _ => 255) = .error Exception.NotImplementedException :=
  (int128_sortable_rejected true witnessEncodeInterval witnessVector (fun i => i)
    (fun i => 8 * i) true false (fun _ => 255)).1 1 (by decide)

end RowChunk

namespace Checkpoint

open RowChunk (Exception PhysicalType Memory setAt)

theorem flushSegments_rest (env : Environment) (bm : BlockManager) :
    ∀ (rest : List PartialColumnSegment) (i : Nat) (p : PartialBlockForCheckpoint)
      (w : BlockWorld), i ≠ 0 →
      flushSegments env bm i rest (p, w)
        = ((p, { w with calls := w.calls ++ markCalls p.block rest }), .ok ()) := by
  intro rest
  induction rest with
  | nil => intro i p w _; simp [flushSegments, markCalls]
  | cons m rest ih =>
    intro i p w hi
    rw [flushSegments]
    simp only [hi, if_false]
    rw [ih (i + 1) p _ (by omega)]
    simp [markCalls, List.flatMap_cons, List.append_assoc]

theorem flushSegments_first (env : Environment) (bm : BlockManager)
    (m : PartialColumnSegment) (rest : List PartialColumnSegment)
    (p : PartialBlockForCheckpoint) (w : BlockWorld)
    (hassert : env.DEBUG = false ∨ m.offset_in_block = 0) :
    flushSegments env bm 0 (m :: rest) (p, w)
      = (({ p with block := some (bm.ConvertToPersistent m.segment p.state.block_id) },
          ⟨w.buffers,
           w.calls ++
            [BlockCall.IncrementVersion m.data,
             BlockCall.ConvertToPersistent m.segment p.state.block_id] ++
            markCalls (some (bm.ConvertToPersistent m.segment p.state.block_id)) rest,
           w.persisted ++ [(p.state.block_id, w.buffers)]⟩),
         .ok ()) := by
  have ha : D_ASSERT env (decide (m.offset_in_block = 0)) = true := by
    unfold D_ASSERT
    rcases hassert with h | h <;> simp [h]
  rw [flushSegments]
  simp only [ha, if_true, Bool.not_true, Bool.false_eq_true, if_false]
  rw [flushSegments_rest env bm rest 1 _ _ (by omega)]
  simp [List.append_assoc]

/-- The loop over the tail when the assertion on the first member fails: the version of its
column has been incremented, and nothing is persisted. -/
theorem flushSegments_fails (env : Environment) (bm : BlockManager)
    (m : PartialColumnSegment) (rest : List PartialColumnSegment)
    (p : PartialBlockForCheckpoint) (w : BlockWorld)
    (hdebug : env.DEBUG = true) (hoffset : m.offset_in_block ≠ 0) :
    flushSegments env bm 0 (m :: rest) (p, w)
      = ((p, ⟨w.buffers, w.calls ++ [BlockCall.IncrementVersion m.data], w.persisted⟩),
         .error Exception.InternalException) := by
  have ha : D_ASSERT env (decide (m.offset_in_block = 0)) = false := by
    simp [D_ASSERT, hdebug, hoffset]
  rw [flushSegments]
  simp only [ha, if_true, Bool.not_false]

theorem Flush_of_flushed (env : Environment) (bm : BlockManager)
    (p : PartialBlockForCheckpoint) (w : BlockWorld) (free_space_left : Nat)
    (h : p.IsFlushed = true) :
    p.Flush env bm w free_space_left = ((p, w), .error Exception.InternalException) := by
  unfold PartialBlockForCheckpoint.Flush
  simp [h]

/-- The zero-initialization changes nothing when there is neither free space nor an
uninitialized region. -/
theorem zeroFilled_nothing (env : Environment) (p : PartialBlockForCheckpoint) (w : BlockWorld)
    (hnil : p.uninitialized_regions = []) : zeroFilled env p w 0 = w.buffers := by
  unfold zeroFilled
  cases hb : p.block with
  | none => rfl
  | some block =>
    funext b a
    simp only [setAt, zeroFill, hnil, List.foldl_nil, Nat.sub_zero]
    by_cases h : b = block
    · subst h
      simp only [if_true]
      unfold memset
      rw [if_neg (by omega)]
    · simp [h]

/-- What `Flush` does on a Building record that holds the block it pins and whose first tail
member passes the assertion: the record, the world and the outcome. -/
theorem Flush_result (env : Environment) (bm : BlockManager)
    (p : PartialBlockForCheckpoint) (w : BlockWorld) (free_space_left : Nat)
    (m0 : PartialColumnSegment) (rest : List PartialColumnSegment)
    (htail : p.segments = m0 :: rest)
    (hblock : (0 < free_space_left ∨ p.uninitialized_regions ≠ []) →
      ∃ block, p.block = some block)
    (hassert : env.DEBUG = false ∨ m0.offset_in_block = 0) :
    p.Flush env bm w free_space_left
      = ((PartialBlockForCheckpoint.Clear
            { p with state := { p.state with block_id := flushBlockId bm p w } },
          ⟨zeroFilled env p w free_space_left,
           w.calls ++ freshIdCalls p ++
            [BlockCall.IncrementVersion m0.data,
             BlockCall.ConvertToPersistent m0.segment (flushBlockId bm p w)] ++
            markCalls (some (bm.ConvertToPersistent m0.segment (flushBlockId bm p w))) rest,
           w.persisted ++ [(flushBlockId bm p w, zeroFilled env p w free_space_left)]⟩),
         .ok ()) := by
  have hnf : p.IsFlushed = false := by
    simp [PartialBlockForCheckpoint.IsFlushed, htail]
  unfold PartialBlockForCheckpoint.Flush
  simp only [hnf, Bool.false_eq_true, if_false, htail]
  by_cases hz : free_space_left > 0 ∨ ¬ (p.uninitialized_regions.isEmpty = true)
  · obtain ⟨block, hb⟩ := hblock (by
      rcases hz with h | h
      · exact Or.inl h
      · right
        intro hnil
        apply h
        rw [hnil]
        rfl)
    by_cases hid : p.state.block_id = INVALID_BLOCK
    · simp only [hz, if_true, hb, hid, decide_True, flushSegments_first env bm m0 rest _ _ hassert,
        flushBlockId, freshIdCalls, zeroFilled, PartialBlockForCheckpoint.Clear]
    · simp only [hz, if_true, hb, hid, decide_False, flushSegments_first env bm m0 rest _ _ hassert,
        flushBlockId, freshIdCalls, zeroFilled, PartialBlockForCheckpoint.Clear, if_false,
        Bool.false_eq_true, List.append_nil]
  · have h0 : free_space_left = 0 := by
      by_contra h
      exact hz (Or.inl (by omega))
    have hnil : p.uninitialized_regions = [] := by
      by_contra h
      apply hz
      right
      intro he
      exact h (List.isEmpty_iff.mp he)
    subst h0
    rw [zeroFilled_nothing env p w hnil]
    by_cases hid : p.state.block_id = INVALID_BLOCK
    · simp only [hz, if_false, hid, decide_True, flushSegments_first env bm m0 rest _ _ hassert,
        flushBlockId, freshIdCalls, PartialBlockForCheckpoint.Clear, if_true]
    · simp only [hz, if_false, hid, decide_False, flushSegments_first env bm m0 rest _ _ hassert,
        flushBlockId, freshIdCalls, PartialBlockForCheckpoint.Clear,
        Bool.false_eq_true, List.append_nil]

/-- What `Flush` does on a Building record that holds the block it pins and whose first tail
member fails the assertion: the bytes are zero-filled, a block id is assigned and the version
of the member's column is incremented when the exception is raised; nothing is persisted. -/
theorem Flush_assert_fails (env : Environment) (bm : BlockManager)
    (p : PartialBlockForCheckpoint) (w : BlockWorld) (free_space_left : Nat)
    (m0 : PartialColumnSegment) (rest : List PartialColumnSegment)
    (htail : p.segments = m0 :: rest)
    (hblock : (0 < free_space_left ∨ p.uninitialized_regions ≠ []) →
      ∃ block, p.block = some block)
    (hdebug : env.DEBUG = true) (hoffset : m0.offset_in_block ≠ 0) :
    p.Flush env bm w free_space_left
      = (({ p with state := { p.state with block_id := flushBlockId bm p w } },
          ⟨zeroFilled env p w free_space_left,
           w.calls ++ freshIdCalls p ++ [BlockCall.IncrementVersion m0.data],
           w.persisted⟩),
         .error Exception.InternalException) := by
  have hnf : p.IsFlushed = false := by
    simp [PartialBlockForCheckpoint.IsFlushed, htail]
  unfold PartialBlockForCheckpoint.Flush
  simp only [hnf, Bool.false_eq_true, if_false, htail]
  by_cases hz : free_space_left > 0 ∨ ¬ (p.uninitialized_regions.isEmpty = true)
  · obtain ⟨block, hb⟩ := hblock (by
      rcases hz with h | h
      · exact Or.inl h
      · right
        intro hnil
        apply h
        rw [hnil]
        rfl)
    by_cases hid : p.state.block_id = INVALID_BLOCK
    · simp only [hz, if_true, hb, hid, decide_True,
        flushSegments_fails env bm m0 rest _ _ hdebug hoffset,
        flushBlockId, freshIdCalls, zeroFilled]
    · simp only [hz, if_true, hb, hid, decide_False,
        flushSegments_fails env bm m0 rest _ _ hdebug hoffset,
        flushBlockId, freshIdCalls, zeroFilled, if_false, Bool.false_eq_true, List.append_nil]
  · have h0 : free_space_left = 0 := by
      by_contra h
      exact hz (Or.inl (by omega))
    have hnil : p.uninitialized_regions = [] := by
      by_contra h
      apply hz
      right
      intro he
      exact h (List.isEmpty_iff.mp he)
    subst h0
    rw [zeroFilled_nothing env p w hnil]
    by_cases hid : p.state.block_id = INVALID_BLOCK
    · simp only [hz, if_false, hid, decide_True,
        flushSegments_fails env bm m0 rest _ _ hdebug hoffset,
        flushBlockId, freshIdCalls, if_true]
    · simp only [hz, if_false, hid, decide_False,
        flushSegments_fails env bm m0 rest _ _ hdebug hoffset,
        flushBlockId, freshIdCalls, Bool.false_eq_true, List.append_nil]

/-- C13, evaluated on a failing input: `A.Merge(B, 300, 64)` on the records A (tail: segment
10 at offset 0, segment 11 at offset 100; region [200, 256)) and B (tail: segment 20 at offset
0; region [50, 64)). The call returns normally, and afterwards the tail and the region list of
A are empty, instead of holding the former members of A followed by the rebased ones of B:
`Merge` ends with `Clear()` on the record it was called on. -/
theorem Merge_clears_target :
    (witnessRecordA.Merge witnessRecordB witnessWorld 300 64).2 = .ok () ∧
    (witnessRecordA.Merge witnessRecordB witnessWorld 300 64).1.1.segments = [] ∧
    (witnessRecordA.Merge witnessRecordB witnessWorld 300 64).1.1.uninitialized_regions = [] ∧
    witnessRecordA.segments ++ witnessRecordB.segments.map
        (fun m => { m with offset_in_block := m.offset_in_block + 300 })
      = [⟨3, 10, 0⟩, ⟨4, 11, 100⟩, ⟨5, 20, 300⟩] ∧
    witnessRecordA.uninitialized_regions ++ witnessRecordB.uninitialized_regions.map
        (fun r => (⟨r.start + 300, r.stop + 300⟩ : UninitializedRegion))
      = [⟨200, 256⟩, ⟨350, 364⟩] := by
  refine ⟨rfl, rfl, rfl, rfl, rfl⟩

/-- C14, evaluated on a failing input: after `A.Merge(B, 300, 64)` on the records A and B of
C13, the source B still holds its tail member and its block, so `B.IsFlushed()` is false,
while the target A has lost its tail, so `A.IsFlushed()` is true. -/
theorem Merge_keeps_source :
    (witnessRecordA.Merge witnessRecordB witnessWorld 300 64).2 = .ok () ∧
    (witnessRecordA.Merge witnessRecordB witnessWorld 300 64).1.2.1.IsFlushed = false ∧
    (witnessRecordA.Merge witnessRecordB witnessWorld 300 64).1.2.1.segments = [⟨5, 20, 0⟩] ∧
    (witnessRecordA.Merge witnessRecordB witnessWorld 300 64).1.2.1.block = some 2 ∧
    (witnessRecordA.Merge witnessRecordB witnessWorld 300 64).1.1.IsFlushed = true ∧
    witnessRecordA.IsFlushed = false ∧ witnessRecordB.IsFlushed = false := by
  refine ⟨rfl, rfl, rfl, rfl, rfl, rfl, rfl⟩

/-- C15 as stated fails: on the Flushed record obtained by clearing A, `AddSegmentToTail`
gives a record whose `IsFlushed()` is false. -/
theorem AddSegmentToTail_leaves_flushed :
    witnessRecordA.Clear.IsFlushed = true ∧
    (witnessRecordA.Clear.AddSegmentToTail 3 10 100).IsFlushed = false := by
  refine ⟨rfl, rfl⟩

theorem Merge_source_segments (this other : PartialBlockForCheckpoint) (w : BlockWorld)
    (offset other_size : Nat) :
    (this.Merge other w offset other_size).1.2.1.segments = other.segments := by
  unfold PartialBlockForCheckpoint.Merge
  split <;> rfl

/-- C15, amended: once `IsFlushed()` is true, `Flush` (which raises), `Merge` with the record
as source, `AddUninitializedRegion` and `Clear` lead to states in which it is still true;
`AddSegmentToTail` appends to the tail of whatever record it is called on, so after it
`IsFlushed()` is false. -/
theorem flushed_preserved (env : Environment) (bm : BlockManager)
    (p : PartialBlockForCheckpoint) (hflushed : p.IsFlushed = true) :
    (∀ w free_space_left, (p.Flush env bm w free_space_left).1.1.IsFlushed = true) ∧
    (∀ this w offset other_size,
      (PartialBlockForCheckpoint.Merge this p w offset other_size).1.2.1.IsFlushed = true) ∧
    (∀ start stop, (p.AddUninitializedRegion start stop).IsFlushed = true) ∧
    p.Clear.IsFlushed = true ∧
    (∀ (q : PartialBlockForCheckpoint) data segment offset_in_block,
      (q.AddSegmentToTail data segment offset_in_block).IsFlushed = false) := by
  refine ⟨?_, ?_, ?_, ?_, ?_⟩
  · intro w fsl
    rw [Flush_of_flushed env bm p w fsl hflushed]
    exact hflushed
  · intro this w offset other_size
    unfold PartialBlockForCheckpoint.IsFlushed at hflushed ⊢
    rw [Merge_source_segments]
    exact hflushed
  · intro start stop
    exact hflushed
  · rfl
  · intro q data segment offset_in_block
    simp [PartialBlockForCheckpoint.IsFlushed, PartialBlockForCheckpoint.AddSegmentToTail]

/-- Witness of C15: the Flushed record obtained by clearing A stays Flushed under `Flush`,
under `Merge` as the source of B, under `AddUninitializedRegion` and under `Clear`. -/
theorem flushed_preserved_witness :
    witnessRecordA.Clear.IsFlushed = true ∧
    (witnessRecordA.Clear.Flush witnessEnv witnessBlockManager witnessWorld 10).1.1.IsFlushed
      = true ∧
    (PartialBlockForCheckpoint.Merge witnessRecordB witnessRecordA.Clear witnessWorld 300
      64).1.2.1.IsFlushed = true ∧
    (witnessRecordA.Clear.AddUninitializedRegion 0 8).IsFlushed = true ∧
    witnessRecordA.Clear.Clear.IsFlushed = true :=
  ⟨rfl,
   (flushed_preserved witnessEnv witnessBlockManager witnessRecordA.Clear rfl).1 witnessWorld 10,
   (flushed_preserved witnessEnv witnessBlockManager witnessRecordA.Clear rfl).2.1
      witnessRecordB witnessWorld 300 64,
   (flushed_preserved witnessEnv witnessBlockManager witnessRecordA.Clear rfl).2.2.1 0 8,
   (flushed_preserved witnessEnv witnessBlockManager witnessRecordA.Clear rfl).2.2.2.1⟩

end Checkpoint

namespace RowChunk

theorem forLoopM_not_error {σ : Type} (n : Nat) (body : Nat → σ → Except Exception σ)
    (init : σ) (e : Exception) (h : ∀ i s, body i s ≠ .error e) :
    forLoopM n body init ≠ .error e := by
  unfold forLoopM
  induction n with
  | zero => simp [List.foldlM, pure, Except.pure]
  | succ n ih =>
    rw [List.range_succ, List.foldlM_append]
    cases hprev : List.foldlM (fun s i => body i s) init (List.range n) with
    | error e2 =>
      rw [hprev] at ih
      intro hc
      apply ih
      simpa [bind, Except.bind] using hc
    | ok s =>
      simp only [bind, Except.bind, List.foldlM_cons, List.foldlM_nil]
      cases hb : body n s with
      | error e3 =>
        simp only [pure, Except.pure]
        intro hc
        exact h n s (hb.trans hc)
      | ok s2 => simp [pure, Except.pure]

/-- The row-mode serializer fails with NotImplementedException exactly on the types that have
no case in its switch statement. -/
theorem SerializeVectorData_fails_iff (little_endian : Bool) (vdata : VectorData)
    (type : PhysicalType) (sel : Nat → Nat) (ser_count col_idx : Nat) (key_locations : Nat → Nat)
    (validitymask_locations : Option (Nat → Nat)) (mem : Memory) :
    SerializeVectorData little_endian vdata type sel ser_count col_idx key_locations
        validitymask_locations mem = .error Exception.NotImplementedException
      ↔ (fixedWidth type = none ∧ type ≠ PhysicalType.VARCHAR) := by
  cases type
  case VARCHAR =>
    simp only [fixedWidth, ne_eq, not_true_eq_false, and_false, iff_false]
    unfold SerializeVectorData
    apply forLoopM_not_error
    intro i s
    dsimp only
    split
    · split <;> simp
    · simp
  all_goals simp [SerializeVectorData, fixedWidth]

/-- The row-mode deserializer fails with NotImplementedException exactly on the types that
have no case in its switch statement. -/
theorem DeserializeIntoVectorData_fails_iff (little_endian : Bool) (v : Vector)
    (type : PhysicalType) (vcount col_idx : Nat) (key_locations : Nat → Nat)
    (validitymask_locations : Nat → Nat) (mem : Memory) :
    DeserializeIntoVectorData little_endian v type vcount col_idx key_locations
        validitymask_locations mem = .error Exception.NotImplementedException
      ↔ (fixedWidth type = none ∧ type ≠ PhysicalType.VARCHAR) := by
  cases type <;> simp [DeserializeIntoVectorData, fixedWidth]

/-- The byte-skip path fails with NotImplementedException exactly on the types that are
neither of constant size nor VARCHAR. -/
theorem SkipOverType_fails_iff (little_endian : Bool) (TypeIsConstantSize : PhysicalType → Bool)
    (GetTypeIdSize : PhysicalType → Nat) (type : PhysicalType) (vcount : Nat)
    (key_locations : Nat → Nat) (mem : Memory) :
    SkipOverType little_endian TypeIsConstantSize GetTypeIdSize type vcount key_locations mem
        = .error Exception.NotImplementedException
      ↔ (TypeIsConstantSize type = false ∧ type ≠ PhysicalType.VARCHAR) := by
  unfold SkipOverType
  cases hc : TypeIsConstantSize type
  · cases type <;> simp
  · simp

/-- C21: for `SerializeVectorData`, `DeserializeIntoVectorData` and `SkipOverType`, whether a
call fails with NotImplementedException depends on the physical type alone: two calls with the
same type and any vectors, selections, row counts, positions and memory contents both fail or
both do not. `SerializeVectorData` and `DeserializeIntoVectorData` fail for the same types,
and `SerializeVectorSortable` fails on VARCHAR for every input. -/
theorem NotImplemented_by_type (type : PhysicalType) :
    (∀ le1 le2 vdata1 vdata2 sel1 sel2 count1 count2 col1 col2 kl1 kl2 vm1 vm2 mem1 mem2,
      SerializeVectorData le1 vdata1 type sel1 count1 col1 kl1 vm1 mem1
          = .error Exception.NotImplementedException
        ↔ SerializeVectorData le2 vdata2 type sel2 count2 col2 kl2 vm2 mem2
          = .error Exception.NotImplementedException) ∧
    (∀ le1 le2 v1 v2 count1 count2 col1 col2 kl1 kl2 vm1 vm2 mem1 mem2,
      DeserializeIntoVectorData le1 v1 type count1 col1 kl1 vm1 mem1
          = .error Exception.NotImplementedException
        ↔ DeserializeIntoVectorData le2 v2 type count2 col2 kl2 vm2 mem2
          = .error Exception.NotImplementedException) ∧
    (∀ (TypeIsConstantSize : PhysicalType → Bool) (GetTypeIdSize : PhysicalType → Nat)
        le1 le2 count1 count2 kl1 kl2 mem1 mem2,
      SkipOverType le1 TypeIsConstantSize GetTypeIdSize type count1 kl1 mem1
          = .error Exception.NotImplementedException
        ↔ SkipOverType le2 TypeIsConstantSize GetTypeIdSize type count2 kl2 mem2
          = .error Exception.NotImplementedException) ∧
    (∀ le1 le2 vdata v sel count1 count2 col1 col2 kl1 kl2 vm1 vm2 mem1 mem2,
      SerializeVectorData le1 vdata type sel count1 col1 kl1 vm1 mem1
          = .error Exception.NotImplementedException
        ↔ DeserializeIntoVectorData le2 v type count2 col2 kl2 vm2 mem2
          = .error Exception.NotImplementedException) ∧
    (∀ le enc vdata sel count kl has_null invert mem,
      SerializeVectorSortable le enc vdata PhysicalType.VARCHAR sel count kl has_null invert mem
        = .error Exception.NotImplementedException) := by
  refine ⟨?_, ?_, ?_, ?_, ?_⟩
  · intros
    rw [SerializeVectorData_fails_iff, SerializeVectorData_fails_iff]
  · intros
    rw [DeserializeIntoVectorData_fails_iff, DeserializeIntoVectorData_fails_iff]
  · intros
    rw [SkipOverType_fails_iff, SkipOverType_fails_iff]
  · intros
    rw [SerializeVectorData_fails_iff, DeserializeIntoVectorData_fails_iff]
  · intros
    rfl

theorem packedBlocks_cons (cap r : Nat) (hcap : 1 ≤ cap) (hr : 0 < r) :
    (⟨cap, min r cap⟩ : RowDataBlock) :: packedBlocks cap (r - min r cap) = packedBlocks cap r := by
  unfold packedBlocks
  by_cases h : cap ≤ r
  · have hmin : min r cap = cap := Nat.min_eq_right h
    rw [hmin]
    have hd : r / cap = (r - cap) / cap + 1 := by
      conv_lhs => rw [show r = (r - cap) + cap by omega]
      exact Nat.add_div_right _ (by omega)
    have hm : r % cap = (r - cap) % cap := by
      conv_lhs => rw [show r = (r - cap) + cap by omega]
      exact Nat.add_mod_right _ _
    rw [hd, hm, List.replicate_succ]
    rfl
  · have hlt : r < cap := by omega
    have hmin : min r cap = r := Nat.min_eq_left (by omega)
    rw [hmin, Nat.sub_self, Nat.zero_div, Nat.zero_mod, Nat.div_eq_of_lt hlt, Nat.mod_eq_of_lt hlt]
    have : r ≠ 0 := by omega
    simp [this]

theorem packedBlocks_length (cap r : Nat) (hcap : 1 ≤ cap) :
    (packedBlocks cap r).length = (r + cap - 1) / cap := by
  unfold packedBlocks
  have hdm := Nat.div_add_mod r cap
  have e1 : (r / cap) * cap = cap * (r / cap) := Nat.mul_comm _ _
  have e2 : (r / cap + 1) * cap = cap * (r / cap) + cap := by ring
  have e3 : (r / cap + 1 + 1) * cap = cap * (r / cap) + cap + cap := by ring
  have hlt := Nat.mod_lt r (show cap > 0 by omega)
  by_cases h : r % cap = 0
  · simp only [h, if_true, List.append_nil, List.length_replicate]
    symm
    apply Nat.div_eq_of_lt_le
    · rw [e1]; omega
    · rw [e2]; omega
  · simp only [h, if_false, List.length_append, List.length_replicate, List.length_singleton]
    symm
    apply Nat.div_eq_of_lt_le
    · rw [e2]; omega
    · rw [e3]; omega

theorem packedBlocks_dropLast_full (cap r : Nat) :
    ∀ b ∈ (packedBlocks cap r).dropLast, b = (⟨cap, cap⟩ : RowDataBlock) := by
  intro b hb
  unfold packedBlocks at hb
  by_cases h : r % cap = 0
  · simp only [h, if_true, List.append_nil] at hb
    exact (List.mem_replicate.mp (List.dropLast_subset _ hb)).2
  · simp only [h, if_false] at hb
    rw [List.dropLast_concat] at hb
    exact (List.mem_replicate.mp hb).2

/-- The allocation loop from any block list: it appends the packed blocks of the rows that
remain, one append entry per new block. -/
theorem buildLoop_spans (cap es : Nat) (hcap : 1 ≤ cap) :
    ∀ (fuel r : Nat) (blocks : List RowDataBlock) (entries : List BlockAppendEntry), r ≤ fuel →
      ∃ E, buildLoop cap es fuel blocks entries r
          = some (blocks ++ packedBlocks cap r, entries ++ E) ∧
        E.length = (packedBlocks cap r).length := by
  intro fuel
  induction fuel with
  | zero =>
    intro r blocks entries hr
    have : r = 0 := by omega
    subst this
    refine ⟨[], ?_, ?_⟩
    · unfold buildLoop
      simp [packedBlocks_zero]
    · simp [packedBlocks_zero]
  | succ fuel ih =>
    intro r blocks entries hr
    by_cases h0 : r = 0
    · subst h0
      refine ⟨[], ?_, ?_⟩
      · unfold buildLoop
        simp [packedBlocks_zero]
      · simp [packedBlocks_zero]
    · have hpos : r > 0 := by omega
      have hmin : 1 ≤ min r cap := by
        rw [Nat.le_min]; exact ⟨hpos, hcap⟩
      obtain ⟨E, hE, hlen⟩ := ih (r - min r cap) (blocks ++ [⟨cap, min r cap⟩])
        (entries ++ [⟨⟨blocks.length, 0⟩, min r cap⟩]) (by omega)
      refine ⟨⟨⟨blocks.length, 0⟩, min r cap⟩ :: E, ?_, ?_⟩
      · unfold buildLoop
        simp only [hpos, if_true, AppendToBlock, Nat.sub_zero, Nat.zero_mul, Nat.zero_add]
        rw [hE, List.append_assoc, List.append_assoc, List.singleton_append,
          List.singleton_append, packedBlocks_cons cap r hcap hpos]
      · rw [← packedBlocks_cons cap r hcap hpos]
        simp [hlen]

theorem appendToLastBlock_spec (rc : Allocator) (n : Nat) :
    (appendToLastBlock rc n).1.length = rc.blocks.length ∧
    (appendToLastBlock rc n).2.2 = n - spare rc := by
  unfold appendToLastBlock spare
  cases hl : rc.blocks.getLast? with
  | none => simp
  | some last_block =>
    have hne : rc.blocks ≠ [] := by
      intro hnil; rw [hnil] at hl; simp at hl
    have hlen : 1 ≤ rc.blocks.length := by
      cases hb : rc.blocks with
      | nil => exact absurd hb hne
      | cons a t => simp
    by_cases hc : last_block.count < last_block.CAPACITY
    · simp only [hc, if_true, AppendToBlock, List.length_append, List.length_dropLast,
        List.length_singleton]
      constructor
      · omega
      · omega
    · simp only [hc, if_false]
      constructor
      · trivial
      · omega

theorem appendToLastBlock_zero (rc : Allocator) :
    (appendToLastBlock rc 0).1 = rc.blocks ∧
    (((appendToLastBlock rc 0).2.1).map (expandEntry rc.entry_size)).flatten = [] ∧
    (appendToLastBlock rc 0).2.2 = 0 := by
  unfold appendToLastBlock
  cases hl : rc.blocks.getLast? with
  | none => simp
  | some last_block =>
    by_cases hc : last_block.count < last_block.CAPACITY
    · simp only [hc, if_true, AppendToBlock, Nat.zero_min, Nat.add_zero, List.nil_append,
        Nat.sub_self]
      refine ⟨?_, ?_, trivial⟩
      · exact List.dropLast_append_getLast? _ (by rw [hl]; rfl)
      · simp [expandEntry]
    · simp [hc]

/-- C22: for every allocator state (no block, last block full, or last block partly filled),
`Build(0)` returns the current row counter and leaves the allocator as it was: the row
counter, the list of blocks and with it the number of blocks and every occupied count; the
list of pointers written to `key_locations` is empty. The loop needs no fuel. -/
theorem Build_zero (fuel : Nat) (rc : Allocator) (hcount : rc.count < 2 ^ 64) :
    Build fuel rc 0 = some ⟨rc, rc.count, []⟩ := by
  obtain ⟨h1, h2, h3⟩ := appendToLastBlock_zero rc
  unfold Build
  dsimp only
  rw [h3]
  unfold buildLoop
  simp only [gt_iff_lt, Nat.lt_irrefl, if_false]
  rw [h1, h2, Nat.add_zero, Nat.mod_eq_of_lt hcount]

/-- Witness of C22: an allocator whose last block is partly filled, one whose last block is
full, and the empty allocator. -/
theorem Build_zero_witness :
    Build 0 witnessAllocator 0 = some ⟨witnessAllocator, 6, []⟩ ∧
    Build 0 ⟨8, 4, 8, [⟨4, 4⟩, ⟨4, 4⟩]⟩ 0 = some ⟨⟨8, 4, 8, [⟨4, 4⟩, ⟨4, 4⟩]⟩, 8, []⟩ ∧
    Build 0 (Allocator.new 4 8) 0 = some ⟨Allocator.new 4 8, 0, []⟩ :=
  ⟨Build_zero 0 witnessAllocator (by decide),
   Build_zero 0 ⟨8, 4, 8, [⟨4, 4⟩, ⟨4, 4⟩]⟩ (by decide),
   Build_zero 0 (Allocator.new 4 8) (by decide)⟩

/-- C26: for every block capacity `cap >= 1`, every allocator state and every `n`, the
allocation loop of `Build(n)` terminates: with any fuel of at least `n - spare` the call
returns. The blocks that existed stay in place and the new ones follow them; their number is
`ceil(max(n - spare, 0) / cap)`, where `spare` is the number of free slots of the last
existing block (0 if there is none); they hold the `n - spare` remaining rows packed, so that
every new block but possibly the last is filled to capacity. -/
theorem Build_spans_blocks (rc : Allocator) (n : Nat) (hcap : 1 ≤ rc.block_capacity) :
    ∃ r, (∀ fuel, n - spare rc ≤ fuel → Build fuel rc n = some r) ∧
      r.chunk.blocks.length = rc.blocks.length +
        (n - spare rc + rc.block_capacity - 1) / rc.block_capacity ∧
      r.chunk.blocks.drop rc.blocks.length = packedBlocks rc.block_capacity (n - spare rc) ∧
      (∀ b ∈ (r.chunk.blocks.drop rc.blocks.length).dropLast,
        b.CAPACITY = rc.block_capacity ∧ b.count = rc.block_capacity) := by
  obtain ⟨hlen, hrem⟩ := appendToLastBlock_spec rc n
  obtain ⟨E, hE, -⟩ := buildLoop_spans rc.block_capacity rc.entry_size hcap (n - spare rc)
    (n - spare rc) (appendToLastBlock rc n).1 (appendToLastBlock rc n).2.1 (Nat.le_refl _)
  have hbuild : Build (n - spare rc) rc n = some
      ⟨{ rc with count := (rc.count + n) % 2 ^ 64,
                 blocks := (appendToLastBlock rc n).1 ++
                   packedBlocks rc.block_capacity (n - spare rc) },
        rc.count,
        (((appendToLastBlock rc n).2.1 ++ E).map (expandEntry rc.entry_size)).flatten⟩ := by
    unfold Build
    dsimp only
    rw [hrem, hE]
  refine ⟨_, fun fuel hfuel => Build_fuel_mono _ fuel rc n _ hbuild hfuel, ?_, ?_, ?_⟩
  · simp only [List.length_append, hlen, packedBlocks_length _ _ hcap]
  · simp only
    rw [← hlen, List.drop_left]
  · simp only
    rw [← hlen, List.drop_left]
    intro b hb
    rw [packedBlocks_dropLast_full _ _ b hb]
    exact ⟨rfl, rfl⟩

/-- Witness of C26: with blocks of 4 slots and 2 free slots in the last block, `Build(11)`
creates 3 blocks, of 4, 4 and 1 rows. -/
theorem Build_spans_blocks_witness :
    (∃ r, (∀ fuel, 11 - spare witnessAllocator ≤ fuel →
        Build fuel witnessAllocator 11 = some r) ∧
      r.chunk.blocks.length = witnessAllocator.blocks.length +
        (11 - spare witnessAllocator + witnessAllocator.block_capacity - 1)
          / witnessAllocator.block_capacity ∧
      r.chunk.blocks.drop witnessAllocator.blocks.length
        = packedBlocks witnessAllocator.block_capacity (11 - spare witnessAllocator) ∧
      (∀ b ∈ (r.chunk.blocks.drop witnessAllocator.blocks.length).dropLast,
        b.CAPACITY = witnessAllocator.block_capacity ∧
        b.count = witnessAllocator.block_capacity)) ∧
    (Build 9 witnessAllocator 11).map (fun r => r.chunk.blocks)
      = some [⟨4, 4⟩, ⟨4, 4⟩, ⟨4, 4⟩, ⟨4, 4⟩, ⟨4, 1⟩] ∧
    spare witnessAllocator = 2 :=
  ⟨Build_spans_blocks witnessAllocator 11 (by decide), by decide, by decide⟩

theorem wordOfBytes_storeNative (little_endian : Bool) (v : Nat) (h : v < 2 ^ 32) :
    wordOfBytes little_endian (storeNative little_endian 4 v) = v := by
  cases little_endian
  · simp only [wordOfBytes, storeNative, Bool.false_eq_true, if_false, beBytes4, List.foldl_cons,
      List.foldl_nil]
    omega
  · simp only [wordOfBytes, storeNative, if_true, leBytes, List.foldr_cons, List.foldr_nil]
    omega

theorem storeNative_length (little_endian : Bool) (n v : Nat) :
    (storeNative little_endian n v).length = n := by
  unfold storeNative
  cases little_endian
  · simp [beBytes_length]
  · simp only [if_true]
    induction n generalizing v with
    | zero => rfl
    | succ n ih => simp [leBytes, ih]

theorem setAt_apply {α : Type} (arr : Nat → α) (i : Nat) (x : α) (j : Nat) :
    setAt arr i x j = if j = i then x else arr j := rfl

/-- The positions after a byte-skip loop of `k` rows: row `i` advances by `step i p`, where
`p` is its position. -/
theorem skipLoop_spec (step : Nat → Nat → Nat) (key_locations : Nat → Nat) (k : Nat) :
    ∀ j, forLoop k (fun i (kl : Nat → Nat) => setAt kl i (kl i + step i (kl i))) key_locations j
      = if j < k then key_locations j + step j (key_locations j) else key_locations j := by
  induction k with
  | zero => intro j; simp [forLoop_zero]
  | succ k ih =>
    intro j
    rw [forLoop_succ, setAt_apply]
    by_cases hj : j = k
    · subst hj
      simp [ih]
    · rw [if_neg hj, ih]
      by_cases hj2 : j < k
      · simp [hj2, Nat.lt_succ_of_lt hj2]
      · have : ¬ j < k + 1 := by omega
        simp [hj2, this]

/-- A loop over rows whose positions advance like those of a byte-skip loop. -/
theorem positions_of_loop {σ : Type} (step : Nat → Nat → Nat) (n : Nat)
    (body : Nat → σ × (Nat → Nat) → σ × (Nat → Nat)) (init : σ) (key_locations : Nat → Nat)
    (h : ∀ i s, (body i s).2 = setAt s.2 i (s.2 i + step i (s.2 i))) :
    (forLoop n body (init, key_locations)).2
      = forLoop n (fun i (kl : Nat → Nat) => setAt kl i (kl i + step i (kl i))) key_locations := by
  induction n with
  | zero => rfl
  | succ n ih => rw [forLoop_succ, forLoop_succ, h, ih]

theorem TemplatedSerializeVData_positions (size : Nat) (vdata : VectorData) (sel : Nat → Nat)
    (count col_idx : Nat) (key_locations : Nat → Nat)
    (validitymask_locations : Option (Nat → Nat)) (mem : Memory) :
    (TemplatedSerializeVData size vdata sel count col_idx key_locations validitymask_locations
        mem).2
      = forLoop count (fun i (kl : Nat → Nat) => setAt kl i (kl i + size)) key_locations := by
  unfold TemplatedSerializeVData
  cases validitymask_locations with
  | none =>
    apply positions_of_loop (fun _ _ => size)
    intro i s; rfl
  | some vm =>
    apply positions_of_loop (fun _ _ => size)
    intro i s
    dsimp only
    split <;> rfl

theorem TemplatedDeserializeIntoVector_positions (size : Nat) (v : Vector)
    (count col_idx : Nat) (key_locations validitymask_locations : Nat → Nat) (mem : Memory) :
    (TemplatedDeserializeIntoVector size v count col_idx key_locations validitymask_locations
        mem).2
      = forLoop count (fun i (kl : Nat → Nat) => setAt kl i (kl i + size)) key_locations := by
  unfold TemplatedDeserializeIntoVector
  apply positions_of_loop (fun _ _ => size)
  intro i s; rfl

theorem setAt_setAt (kl : Nat → Nat) (i x y : Nat) : setAt (setAt kl i x) i y = setAt kl i y := by
  funext j
  unfold setAt
  by_cases h : j = i <;> simp [h]

theorem setAt_same {α : Type} (arr : Nat → α) (i : Nat) (x : α) : setAt arr i x i = x := by
  simp [setAt]

theorem SerializeVectorData_varchar (little_endian : Bool) (vdata : VectorData) (sel : Nat → Nat)
    (count col_idx : Nat) (key_locations vm : Nat → Nat) (mem : Memory) :
    SerializeVectorData little_endian vdata PhysicalType.VARCHAR sel count col_idx key_locations
        (some vm) mem
      = .ok (forLoop count (varcharRound little_endian vdata col_idx vm) (mem, key_locations)) := by
  unfold SerializeVectorData
  apply forLoopM_ok
  intro i s
  have hk : setAt (setAt s.2 i (s.2 i + PREFIX_LENGTH)) i
      (setAt s.2 i (s.2 i + PREFIX_LENGTH) i + (vdata.data (vdata.sel i)).length)
      = setAt s.2 i (s.2 i + (PREFIX_LENGTH + (vdata.data (vdata.sel i)).length)) := by
    rw [setAt_setAt, setAt_same, Nat.add_assoc]
  unfold varcharRound
  dsimp only
  rw [hk, setAt_same]
  by_cases hv : (!vdata.validity i) = true
  · simp only [hv, if_true]
  · simp only [hv, if_false]
    rfl

theorem varcharRound_read (little_endian : Bool) (vdata : VectorData) (col_idx : Nat)
    (vm : Nat → Nat) (i : Nat) (s : Memory × (Nat → Nat)) (q : Nat)
    (hq : q + 4 ≤ s.2 i ∨ s.2 i + (PREFIX_LENGTH + (vdata.data (vdata.sel i)).length) ≤ q ∨
      q = s.2 i)
    (hm : vm i + col_idx / 8 < q ∨ q + 4 ≤ vm i + col_idx / 8) :
    (varcharRound little_endian vdata col_idx vm i s).1.read q 4
      = if q = s.2 i
        then storeNative little_endian 4 ((vdata.data (vdata.sel i)).length % 2 ^ 32)
        else s.1.read q 4 := by
  have hP : PREFIX_LENGTH = 4 := rfl
  have hread : Memory.read ((s.1.write (s.2 i) (storeNative little_endian 4
          ((vdata.data (vdata.sel i)).length % 2 ^ 32))).write
          (s.2 i + PREFIX_LENGTH) (vdata.data (vdata.sel i))) q 4
        = if q = s.2 i
          then storeNative little_endian 4 ((vdata.data (vdata.sel i)).length % 2 ^ 32)
          else s.1.read q 4 := by
    by_cases hqi : q = s.2 i
    · subst hqi
      rw [if_pos rfl, read_write_other _ _ _ _ _ (Or.inl (by omega))]
      have := read_write_same s.1 (s.2 i) (storeNative little_endian 4
        ((vdata.data (vdata.sel i)).length % 2 ^ 32))
      rwa [storeNative_length] at this
    · rw [if_neg hqi, read_write_other _ _ _ _ _ (by omega),
        read_write_other _ _ _ _ _ (by rw [storeNative_length]; omega)]
  unfold varcharRound
  dsimp only
  by_cases hv : (!vdata.validity i) = true
  · simp only [hv, if_true]
    unfold clearValidityBit
    rw [read_setAt_other _ _ _ _ _ hm]
    exact hread
  · simp only [hv, if_false]
    exact hread

/-- State of the VARCHAR loop of `SerializeVectorData` after all rows, for rows that lie apart:
every position has advanced past its row, and every length prefix is in place. -/
theorem varchar_loop_spec (little_endian : Bool) (vdata : VectorData) (count col_idx : Nat)
    (key_locations vm : Nat → Nat) (mem : Memory)
    (hrows : ∀ i j, i < count → j < count → i ≠ j →
      key_locations i + 4 ≤ key_locations j ∨
      key_locations j + (PREFIX_LENGTH + (vdata.data (vdata.sel j)).length) ≤ key_locations i)
    (hmask : ∀ i j, i < count → j < count →
      vm j + col_idx / 8 < key_locations i ∨ key_locations i + 4 ≤ vm j + col_idx / 8) :
    (∀ j, (forLoop count (varcharRound little_endian vdata col_idx vm) (mem, key_locations)).2 j
      = if j < count then key_locations j + (PREFIX_LENGTH + (vdata.data (vdata.sel j)).length)
        else key_locations j) ∧
    (∀ j, j < count →
      (forLoop count (varcharRound little_endian vdata col_idx vm) (mem, key_locations)).1.read
          (key_locations j) 4
        = storeNative little_endian 4 ((vdata.data (vdata.sel j)).length % 2 ^ 32)) := by
  have main := forLoop_induction
    (fun k (s : Memory × (Nat → Nat)) => k ≤ count →
      (∀ j, s.2 j = if j < k
        then key_locations j + (PREFIX_LENGTH + (vdata.data (vdata.sel j)).length)
        else key_locations j) ∧
      (∀ j, j < k → s.1.read (key_locations j) 4
        = storeNative little_endian 4 ((vdata.data (vdata.sel j)).length % 2 ^ 32)))
    count (varcharRound little_endian vdata col_idx vm) (mem, key_locations)
    (by
      intro _
      refine ⟨fun j => by simp, fun j hj => absurd hj (Nat.not_lt_zero j)⟩)
    (by
      intro k hk s ih _
      obtain ⟨ih1, ih2⟩ := ih (Nat.le_of_lt hk)
      have hsk : s.2 k = key_locations k := by rw [ih1]; simp
      constructor
      · intro j
        show setAt s.2 k _ j = _
        rw [setAt_apply]
        by_cases hj : j = k
        · subst hj
          simp [hsk]
        · rw [if_neg hj, ih1]
          by_cases hj2 : j < k
          · simp [hj2, Nat.lt_succ_of_lt hj2]
          · have : ¬ j < k + 1 := by omega
            simp [hj2, this]
      · intro j hj
        by_cases hjk : j = k
        · subst hjk
          rw [varcharRound_read _ _ _ _ _ _ _ (Or.inr (Or.inr hsk.symm)) (hmask j j hk hk),
            if_pos hsk.symm]
        · have hjlt : j < k := by omega
          have hjc : j < count := by omega
          rw [varcharRound_read _ _ _ _ _ _ _
            (by
              rw [hsk]
              rcases hrows j k hjc hk hjk with h | h
              · exact Or.inl h
              · exact Or.inr (Or.inl h))
            (hmask j k hjc hk)]
          have hne : key_locations j ≠ s.2 k := by
            rw [hsk]
            rcases hrows j k hjc hk hjk with h | h
            · omega
            · have hP : PREFIX_LENGTH = 4 := rfl
              omega
          rw [if_neg hne]
          exact ih2 j hjlt)
  exact main (Nat.le_refl _)

theorem fixed_width_skip (little_endian : Bool) (vdata : VectorData) (type : PhysicalType)
    (size : Nat) (sel : Nat → Nat) (count col_idx : Nat) (key_locations vm : Nat → Nat)
    (mem : Memory) (v : Vector) (hw : fixedWidth type = some size)
    (hs : SerializeVectorData little_endian vdata type sel count col_idx key_locations (some vm)
      mem = .ok (TemplatedSerializeVData size vdata sel count col_idx key_locations (some vm)
        mem))
    (hd : ∀ mem1, DeserializeIntoVectorData little_endian v type count col_idx key_locations vm
      mem1 = .ok (TemplatedDeserializeIntoVector size v count col_idx key_locations vm mem1)) :
    ∃ (mem1 : Memory) (kl1 : Nat → Nat) (v1 : Vector),
      SerializeVectorData little_endian vdata type sel count col_idx key_locations (some vm) mem
        = .ok (mem1, kl1) ∧
      SkipOverType little_endian TypeIsConstantSize GetTypeIdSize type count key_locations mem1
        = .ok kl1 ∧
      DeserializeIntoVectorData little_endian v type count col_idx key_locations vm mem1
        = .ok (v1, kl1) ∧
      ∀ i, kl1 i = if i < count
        then key_locations i + serializedSize type (vdata.data (vdata.sel i))
        else key_locations i := by
  refine ⟨(TemplatedSerializeVData size vdata sel count col_idx key_locations (some vm) mem).1,
    forLoop count (fun i (kl : Nat → Nat) => setAt kl i (kl i + size)) key_locations,
    (TemplatedDeserializeIntoVector size v count col_idx key_locations vm
      (TemplatedSerializeVData size vdata sel count col_idx key_locations (some vm) mem).1).1,
    ?_, ?_, ?_, ?_⟩
  · rw [hs, ← TemplatedSerializeVData_positions size vdata sel count col_idx key_locations
      (some vm) mem]
  · unfold SkipOverType
    simp [TypeIsConstantSize, GetTypeIdSize, hw]
  · rw [hd, ← TemplatedDeserializeIntoVector_positions size v count col_idx key_locations vm]
  · intro i
    rw [skipLoop_spec (fun _ _ => size)]
    simp [serializedSize, hw]

theorem varchar_skip (little_endian : Bool) (vdata : VectorData)
    (sel : Nat → Nat) (count col_idx : Nat) (key_locations vm : Nat → Nat)
    (mem : Memory) (v : Vector)
    (hlen : ∀ i, i < count → (vdata.data (vdata.sel i)).length < 2 ^ 32)
    (hrows : ∀ i j, i < count → j < count → i ≠ j →
      key_locations i + 4 ≤ key_locations j ∨
      key_locations j + (PREFIX_LENGTH + (vdata.data (vdata.sel j)).length) ≤ key_locations i)
    (hmask : ∀ i j, i < count → j < count →
      vm j + col_idx / 8 < key_locations i ∨ key_locations i + 4 ≤ vm j + col_idx / 8) :
    ∃ (mem1 : Memory) (kl1 : Nat → Nat) (v1 : Vector),
      SerializeVectorData little_endian vdata PhysicalType.VARCHAR sel count col_idx
        key_locations (some vm) mem = .ok (mem1, kl1) ∧
      SkipOverType little_endian TypeIsConstantSize GetTypeIdSize PhysicalType.VARCHAR count
        key_locations mem1 = .ok kl1 ∧
      DeserializeIntoVectorData little_endian v PhysicalType.VARCHAR count col_idx key_locations
        vm mem1 = .ok (v1, kl1) ∧
      ∀ i, kl1 i = if i < count
        then key_locations i + serializedSize PhysicalType.VARCHAR (vdata.data (vdata.sel i))
        else key_locations i := by
  obtain ⟨h1, h2⟩ := varchar_loop_spec little_endian vdata count col_idx key_locations vm mem
    hrows hmask
  generalize hS : forLoop count (varcharRound little_endian vdata col_idx vm)
    (mem, key_locations) = S at h1 h2
  have hskip : forLoop count (fun i (kl : Nat → Nat) => setAt kl i (kl i +
      (PREFIX_LENGTH + wordOfBytes little_endian (Load 4 (kl i) S.1)))) key_locations = S.2 := by
    funext j
    rw [skipLoop_spec (fun _ p => PREFIX_LENGTH + wordOfBytes little_endian (Load 4 p S.1)), h1]
    by_cases hj : j < count
    · simp only [hj, if_true]
      unfold Load
      rw [h2 j hj, Nat.mod_eq_of_lt (hlen j hj), wordOfBytes_storeNative _ _ (hlen j hj)]
    · simp [hj]
  have hdes : ∃ D : Vector × (Nat → Nat),
      DeserializeIntoVectorData little_endian v PhysicalType.VARCHAR count col_idx key_locations
        vm S.1 = .ok D ∧
      D.2 = forLoop count (fun i (kl : Nat → Nat) => setAt kl i (kl i +
        (PREFIX_LENGTH + wordOfBytes little_endian (Load 4 (kl i) S.1)))) key_locations := by
    unfold DeserializeIntoVectorData
    refine ⟨_, rfl, ?_⟩
    apply positions_of_loop
      (fun _ p => PREFIX_LENGTH + wordOfBytes little_endian (Load 4 p S.1))
    intro i s
    dsimp only
    rw [setAt_setAt, setAt_same, Nat.add_assoc]
    rfl
  obtain ⟨D, hD, hD2⟩ := hdes
  refine ⟨S.1, S.2, D.1, ?_, ?_, ?_, ?_⟩
  · rw [SerializeVectorData_varchar, hS]
  · unfold SkipOverType
    simp only [TypeIsConstantSize, fixedWidth, Option.isSome_none, Bool.false_eq_true, if_false]
    rw [hskip]
  · rw [hD]
    congr 1
    exact Prod.ext rfl (hD2.trans hskip)
  · intro i
    rw [h1]
    simp [serializedSize, fixedWidth]

/-- C28: for every physical type accepted by `SerializeVectorData` (a fixed-width type or
VARCHAR) and every vector, serializing `count` rows and then applying `SkipOverType` to the
start positions, on the memory the serialization left, gives the positions the serialization
ended at, which are also the positions `DeserializeIntoVectorData` ends at: row `i` advances
by the fixed size of the type, or by the 4-byte length prefix plus the length of its string.
For VARCHAR the strings are shorter than `2^32` bytes, the length prefix of a row lies outside
the other rows, and no validity byte lies inside a length prefix. -/
theorem SkipOverType_matches_serialize (little_endian : Bool) (vdata : VectorData)
    (type : PhysicalType) (sel : Nat → Nat) (count col_idx : Nat) (key_locations vm : Nat → Nat)
    (mem : Memory) (v : Vector)
    (htype : fixedWidth type ≠ none ∨ type = PhysicalType.VARCHAR)
    (hlen : type = PhysicalType.VARCHAR →
      ∀ i, i < count → (vdata.data (vdata.sel i)).length < 2 ^ 32)
    (hrows : type = PhysicalType.VARCHAR → ∀ i j, i < count → j < count → i ≠ j →
      key_locations i + 4 ≤ key_locations j ∨
      key_locations j + (PREFIX_LENGTH + (vdata.data (vdata.sel j)).length) ≤ key_locations i)
    (hmask : type = PhysicalType.VARCHAR → ∀ i j, i < count → j < count →
      vm j + col_idx / 8 < key_locations i ∨ key_locations i + 4 ≤ vm j + col_idx / 8) :
    ∃ (mem1 : Memory) (kl1 : Nat → Nat) (v1 : Vector),
      SerializeVectorData little_endian vdata type sel count col_idx key_locations (some vm) mem
        = .ok (mem1, kl1) ∧
      SkipOverType little_endian TypeIsConstantSize GetTypeIdSize type count key_locations mem1
        = .ok kl1 ∧
      DeserializeIntoVectorData little_endian v type count col_idx key_locations vm mem1
        = .ok (v1, kl1) ∧
      ∀ i, kl1 i = if i < count
        then key_locations i + serializedSize type (vdata.data (vdata.sel i))
        else key_locations i := by
  cases type
  case VARCHAR =>
    exact varchar_skip little_endian vdata sel count col_idx key_locations vm mem v
      (hlen rfl) (hrows rfl) (hmask rfl)
  case LIST => simp [fixedWidth] at htype
  case STRUCT => simp [fixedWidth] at htype
  case MAP => simp [fixedWidth] at htype
  case POINTER => simp [fixedWidth] at htype
  case INVALID => simp [fixedWidth] at htype
  all_goals
    exact fixed_width_skip little_endian vdata _ _ sel count col_idx key_locations vm mem v rfl
      rfl (fun _ => rfl)

/-- Witness of C28: two strings, of 1 and 2 bytes, serialized to the addresses 0 and 100; the
positions afterwards are 5 and 106. -/
theorem SkipOverType_matches_serialize_witness :
    ∃ (mem1 : Memory) (kl1 : Nat → Nat) (v1 : Vector),
      SerializeVectorData true witnessStrings PhysicalType.VARCHAR (fun i => i) 2 3
        (fun i => 100 * i) (some (fun i => 1000 + i)) (fun _ => 7) = .ok (mem1, kl1) ∧
      SkipOverType true TypeIsConstantSize GetTypeIdSize PhysicalType.VARCHAR 2
        (fun i => 100 * i) mem1 = .ok kl1 ∧
      DeserializeIntoVectorData true ⟨fun _ => [], fun _ => true⟩ PhysicalType.VARCHAR 2 3
        (fun i => 100 * i) (fun i => 1000 + i) mem1 = .ok (v1, kl1) ∧
      kl1 0 = 5 ∧ kl1 1 = 106 := by
  obtain ⟨mem1, kl1, v1, h1, h2, h3, h4⟩ :=
    SkipOverType_matches_serialize true witnessStrings PhysicalType.VARCHAR (fun i => i) 2 3
      (fun i => 100 * i) (fun i => 1000 + i) (fun _ => 7) ⟨fun _ => [], fun _ => true⟩
      (Or.inr rfl)
      (fun _ i hi => by simp only [witnessStrings, List.length_replicate]; omega)
      (fun _ i j hi hj hij => by
        simp only [witnessStrings, List.length_replicate, PREFIX_LENGTH]; omega)
      (fun _ i j hi hj => by simp only; omega)
  exact ⟨mem1, kl1, v1, h1, h2, h3, by rw [h4]; rfl, by rw [h4]; rfl⟩

end RowChunk

namespace Checkpoint

open RowChunk (Exception PhysicalType Memory setAt)

/-- The bytes after the `memset` of a list of regions. -/
theorem memset_regions (size : UninitializedRegion → Nat) (regions : List UninitializedRegion) :
    ∀ (buffer : Memory) (a : Nat),
      regions.foldl (fun b uninitialized => memset b uninitialized.start (size uninitialized))
          buffer a
        = if regions.any (fun r => decide (r.start ≤ a ∧ a < r.start + size r)) then 0
          else buffer a := by
  induction regions with
  | nil => intro buffer a; simp
  | cons r rest ih =>
    intro buffer a
    rw [List.foldl_cons, ih, List.any_cons]
    by_cases hrest : rest.any (fun r => decide (r.start ≤ a ∧ a < r.start + size r)) = true
    · rw [if_pos hrest, hrest, Bool.or_true, if_pos rfl]
    · simp only [hrest, Bool.or_false, if_false, Bool.false_eq_true]
      unfold memset
      by_cases hr : r.start ≤ a ∧ a < r.start + size r
      · simp [hr]
      · simp [hr]

/-- C24: for every Building record that holds its block, whose uninitialized regions
`[start, end)` lie inside the block, and every `free_space_left <= BLOCK_SIZE`: when `Flush`
persists the block (at the `ConvertToPersistent` of the first tail member, reached when that
member passes the assertion), the bytes of the blocks at the time of that call are such that
every byte of a recorded uninitialized region and every byte of
`[BLOCK_SIZE - free_space_left, BLOCK_SIZE)` is zero, every other byte of the block is as
before the call to `Flush`, and so is every other block. These are also the bytes `Flush`
leaves. -/
theorem Flush_zero_fill (env : Environment) (bm : BlockManager)
    (p : PartialBlockForCheckpoint) (w : BlockWorld) (free_space_left block : Nat)
    (m0 : PartialColumnSegment) (rest : List PartialColumnSegment)
    (htail : p.segments = m0 :: rest) (hblock : p.block = some block)
    (hsize : env.BLOCK_SIZE < 2 ^ 64)
    (hregions : ∀ r ∈ p.uninitialized_regions, r.start ≤ r.stop ∧ r.stop ≤ env.BLOCK_SIZE)
    (hfree : free_space_left ≤ env.BLOCK_SIZE) :
    ∃ bytes : Nat → Memory,
      (p.Flush env bm w free_space_left).1.2.persisted
        = w.persisted ++
          (if env.DEBUG = false ∨ m0.offset_in_block = 0 then
            [(if p.state.block_id = INVALID_BLOCK then bm.GetFreeBlockId w.calls
                else p.state.block_id, bytes)]
           else []) ∧
      (p.Flush env bm w free_space_left).1.2.buffers = bytes ∧
      (∀ a, ((∃ r ∈ p.uninitialized_regions, r.start ≤ a ∧ a < r.stop) ∨
            (env.BLOCK_SIZE - free_space_left ≤ a ∧ a < env.BLOCK_SIZE)) →
          bytes block a = 0) ∧
      (∀ a, ¬ ((∃ r ∈ p.uninitialized_regions, r.start ≤ a ∧ a < r.stop) ∨
            (env.BLOCK_SIZE - free_space_left ≤ a ∧ a < env.BLOCK_SIZE)) →
          bytes block a = w.buffers block a) ∧
      (∀ b, b ≠ block → bytes b = w.buffers b) := by
  have hpin : (0 < free_space_left ∨ p.uninitialized_regions ≠ []) →
      ∃ block, p.block = some block := fun _ => ⟨block, hblock⟩
  have hbytes : zeroFilled env p w free_space_left
      = setAt w.buffers block (zeroFill env p (w.buffers block) free_space_left) := by
    simp [zeroFilled, hblock]
  have hany : ∀ a, p.uninitialized_regions.any (fun r => decide (r.start ≤ a ∧
      a < r.start + (r.stop + 2 ^ 64 - r.start) % 2 ^ 64)) = true
      ↔ ∃ r ∈ p.uninitialized_regions, r.start ≤ a ∧ a < r.stop := by
    intro a
    rw [List.any_eq_true]
    constructor
    · rintro ⟨r, hr, h⟩
      obtain ⟨h1, h2⟩ := hregions r hr
      refine ⟨r, hr, ?_⟩
      have := of_decide_eq_true h
      omega
    · rintro ⟨r, hr, h⟩
      obtain ⟨h1, h2⟩ := hregions r hr
      refine ⟨r, hr, ?_⟩
      apply decide_eq_true
      omega
  have hfill : ∀ a, zeroFill env p (w.buffers block) free_space_left a
      = if (env.BLOCK_SIZE - free_space_left ≤ a ∧
            a < env.BLOCK_SIZE - free_space_left + free_space_left) then 0
        else if p.uninitialized_regions.any (fun r => decide (r.start ≤ a ∧
          a < r.start + (r.stop + 2 ^ 64 - r.start) % 2 ^ 64)) then 0
        else w.buffers block a := by
    intro a
    unfold zeroFill
    rw [memset, memset_regions (fun r => (r.stop + 2 ^ 64 - r.start) % 2 ^ 64)]
  refine ⟨zeroFilled env p w free_space_left, ?_, ?_, ?_, ?_, ?_⟩
  · by_cases hassert : env.DEBUG = false ∨ m0.offset_in_block = 0
    · rw [Flush_result env bm p w free_space_left m0 rest htail hpin hassert, if_pos hassert]
      rfl
    · have hd : env.DEBUG = true := by
        cases hD : env.DEBUG
        · exact absurd (Or.inl hD) hassert
        · rfl
      have ho : m0.offset_in_block ≠ 0 := fun h => hassert (Or.inr h)
      rw [Flush_assert_fails env bm p w free_space_left m0 rest htail hpin hd ho,
        if_neg hassert, List.append_nil]
  · by_cases hassert : env.DEBUG = false ∨ m0.offset_in_block = 0
    · rw [Flush_result env bm p w free_space_left m0 rest htail hpin hassert]
    · have hd : env.DEBUG = true := by
        cases hD : env.DEBUG
        · exact absurd (Or.inl hD) hassert
        · rfl
      have ho : m0.offset_in_block ≠ 0 := fun h => hassert (Or.inr h)
      rw [Flush_assert_fails env bm p w free_space_left m0 rest htail hpin hd ho]
  · intro a ha
    rw [hbytes, RowChunk.setAt_same, hfill]
    rcases ha with ha | ha
    · split
      · rfl
      · rw [if_pos ((hany a).mpr ha)]
    · rw [if_pos (by omega)]
  · intro a ha
    rw [hbytes, RowChunk.setAt_same, hfill]
    rw [if_neg (by
      intro h
      exact ha (Or.inr (by omega)))]
    rw [if_neg (by
      intro h
      exact ha (Or.inl ((hany a).mp h)))]
  · intro b hb
    rw [hbytes]
    unfold setAt
    rw [if_neg hb]

/-- Witness of C24: record A, with the region [200, 256) and 10 free bytes, in a world whose
bytes are all 7: the block is persisted once, under the id 42, with the bytes 200 to 255 and
the last 10 bytes of block 1 zero. -/
theorem Flush_zero_fill_witness :
    ∃ bytes : Nat → Memory,
      (witnessRecordA.Flush witnessEnv witnessBlockManager witnessWorld 10).1.2.persisted
        = [(42, bytes)] ∧
      bytes 1 200 = 0 ∧ bytes 1 255 = 0 ∧ bytes 1 262134 = 0 ∧ bytes 1 256 = 7 ∧
      bytes 1 199 = 7 ∧ bytes 2 = witnessWorld.buffers 2 := by
  obtain ⟨bytes, hp, _, h1, h2, h3⟩ := Flush_zero_fill witnessEnv witnessBlockManager
    witnessRecordA witnessWorld 10 1 ⟨3, 10, 0⟩ [⟨4, 11, 100⟩] rfl rfl (by decide) (by decide)
    (by decide)
  exact ⟨bytes, hp,
    h1 200 (Or.inl ⟨⟨200, 256⟩, by decide, by decide⟩),
    h1 255 (Or.inl ⟨⟨200, 256⟩, by decide, by decide⟩),
    h1 262134 (Or.inr (by decide)),
    h2 256 (by decide),
    h2 199 (by decide),
    h3 2 (by decide)⟩

end Checkpoint

namespace JsonDeserializer

/-- `ThrowTypeError` returns normally whenever `GetNextValue` has returned a value: both test
the same parent, which is then an object or an array. -/
theorem ThrowTypeError_returns (d d1 : State) (val val1 : yyjson_val) (expected : String)
    (h : GetNextValue d = .ok (val, d1)) : ThrowTypeError d1 val1 expected = .ok () := by
  unfold GetNextValue at h
  unfold ThrowTypeError
  by_cases ho : yyjson_is_obj (Current d) = true
  · simp only [ho, if_true] at h
    split at h
    · injection h with h
      injection h with _ hd
      subst hd
      simp [ho]
    · simp at h
  · simp only [ho, if_false, Bool.false_eq_true] at h
    by_cases ha : yyjson_is_arr (Current d) = true
    · simp only [ha, if_true] at h
      split at h
      · injection h with h
        injection h with _ hd
        subst hd
        have hc : ∀ it, Current { d with arr_iter := it } = Current d := fun _ => rfl
        simp [hc, ha]
      · simp at h
    · simp [ha] at h

/-- C29, evaluated on failing inputs: inside the object `{"a": "x"}` with the tag `a`, and
inside the array `["x", 2]`, the next value exists and is a string. Every reader of a boolean
or a number returns normally, with what the yyjson getter gives for the string, and
`OnObjectBegin`, `OnListBegin`, `OnMapBegin` and `OnMapEntryBegin` return normally with the
string pushed onto the stack: `ThrowTypeError` formats its message and returns. -/
theorem type_mismatch_not_rejected (lib : Getters) :
    ThrowTypeError witnessInObject (.str "x") "bool" = .ok () ∧
    ThrowTypeError witnessInArray (.str "x") "bool" = .ok () ∧
    ReadBool lib witnessInObject = .ok (lib.yyjson_get_bool (.str "x"), witnessInObject) ∧
    ReadSignedInt8 lib witnessInObject
      = .ok (toSigned 8 (lib.yyjson_get_sint (.str "x")), witnessInObject) ∧
    ReadUnsignedInt8 lib witnessInObject
      = .ok (lib.yyjson_get_uint (.str "x") % 2 ^ 8, witnessInObject) ∧
    ReadSignedInt16 lib witnessInObject
      = .ok (toSigned 16 (lib.yyjson_get_sint (.str "x")), witnessInObject) ∧
    ReadUnsignedInt16 lib witnessInObject
      = .ok (lib.yyjson_get_uint (.str "x") % 2 ^ 16, witnessInObject) ∧
    ReadSignedInt32 lib witnessInObject
      = .ok (toSigned 32 (lib.yyjson_get_sint (.str "x")), witnessInObject) ∧
    ReadUnsignedInt32 lib witnessInObject
      = .ok (lib.yyjson_get_uint (.str "x") % 2 ^ 32, witnessInObject) ∧
    ReadSignedInt64 lib witnessInObject
      = .ok (toSigned 64 (lib.yyjson_get_sint (.str "x")), witnessInObject) ∧
    ReadUnsignedInt64 lib witnessInObject
      = .ok (lib.yyjson_get_uint (.str "x") % 2 ^ 64, witnessInObject) ∧
    ReadFloat lib witnessInObject
      = .ok (lib.toFloat (lib.yyjson_get_real (.str "x")), witnessInObject) ∧
    ReadDouble lib witnessInObject = .ok (lib.yyjson_get_real (.str "x"), witnessInObject) ∧
    OnObjectBegin witnessInObject
      = .ok ⟨[.obj [("a", .str "x")], .str "x"], "a", []⟩ ∧
    OnMapEntryBegin witnessInObject
      = .ok ⟨[.obj [("a", .str "x")], .str "x"], "a", []⟩ ∧
    OnListBegin witnessInObject
      = .ok (0, ⟨[.obj [("a", .str "x")], .str "x"], "a", []⟩) ∧
    OnMapBegin witnessInObject
      = .ok (0, ⟨[.obj [("a", .str "x")], .str "x"], "a", []⟩) ∧
    ReadBool lib witnessInArray
      = .ok (lib.yyjson_get_bool (.str "x"), ⟨[.arr [.str "x", .uint 2]], "", [.uint 2]⟩) ∧
    OnObjectBegin witnessInArray
      = .ok ⟨[.arr [.str "x", .uint 2], .str "x"], "", [.uint 2]⟩ := by
  refine ⟨rfl, rfl, rfl, rfl, rfl, rfl, rfl, rfl, rfl, rfl, rfl, rfl, rfl, rfl, rfl, rfl, rfl,
    rfl, rfl⟩

end JsonDeserializer

namespace ExpressionBinder

/-- C30, evaluated on a failing input: for the reference `t.a`, whatever the binder and its
bind context hold, `BindExpression` makes no call, so `BindColumn` is not consulted; the
result it returns is the initial `BindResult(string())`, which carries neither an expression
nor an error, and `bound_columns` is set to true. With the bind context of the witnesses,
`BindColumn` binds `t.a` to expression 7, and an unqualified `a` is bound through it. -/
theorem qualified_reference_not_bound (binder : Binder) (bound_columns : Bool) (depth : Nat) :
    BindExpression binder bound_columns ⟨"a", "t"⟩ depth
      = .ok ⟨⟨none, ""⟩, ⟨"a", "t"⟩, true, []⟩ ∧
    witnessBinder.BindColumn ⟨"a", "t"⟩ depth = ⟨some 7, ""⟩ ∧
    BindExpression witnessBinder bound_columns ⟨"a", ""⟩ depth
      = .ok ⟨⟨some 7, ""⟩, ⟨"a", "t"⟩, true,
          [BinderCall.GetMatchingBinding "a", BinderCall.BindColumn ⟨"a", "t"⟩ depth]⟩ := by
  refine ⟨?_, rfl, rfl⟩
  unfold BindExpression
  have h1 : (binder.DEBUG && ("a" : String).isEmpty) = false := by
    cases binder.DEBUG <;> rfl
  simp only [h1, Bool.false_eq_true, if_false]
  rfl

end ExpressionBinder
